import Mathlib

/-!
Verification development for the TDL (Typedoc Definition Language) to JSON
Schema converter.  The converter consists of a TDL parser (tdl.ts), an OpenAI
Structured Outputs emitter (schema-openai.ts) and a Gemini emitter
(schema-gemini.ts).  The definitions below are a shallow embedding of that
code: JSON values are an inductive type, JavaScript objects are ordered
association lists with insert-or-replace-in-place semantics (matching both
plain objects and Map), JavaScript numbers are modelled as exact rationals
(no claim here depends on binary floating point rounding), exceptions are
modelled with Except, and the mutual recursion between emitters and the
named-type table is made total with an explicit fuel argument: every
recursive call consumes one unit of fuel and running out yields the
distinguished error Err.fuelOut, which is distinct from every authoring
error the source code can throw.
-/

/-- JSON values.  Object fields are ordered, mirroring JavaScript object key
order (insertion order, with overwritten keys keeping their position). -/
inductive J where
  | str (s : String)
  | num (q : Rat)
  | bool (b : Bool)
  | arr (xs : List J)
  | obj (fields : List (String × J))

/-- Ordered record of JSON fields, the model of a JavaScript object. -/
abbrev JRec := List (String × J)

/-- JavaScript property write o[k] = v: overwrite in place when the key
exists (keeping its position), append otherwise.  Also models Map.set. -/
def rset : JRec → String → J → JRec
  | [], k, v => [(k, v)]
  | (k', v') :: rest, k, v =>
    if k' = k then (k', v) :: rest else (k', v') :: rset rest k v

/-- JavaScript property read o[k] (first, i.e. only, occurrence). -/
def rget : JRec → String → Option J
  | [], _ => none
  | (k', v') :: rest, k => if k' = k then some v' else rget rest k

/-- The key list of a record, in order. -/
def rkeys (r : JRec) : List String := r.map Prod.fst

/-- Errors: an authoring error carries the thrown message; fuelOut marks the
exhaustion of the fuel that makes the shallow embedding total and never
corresponds to a behaviour of the source program. -/
inductive Err where
  | authoring (msg : String)
  | fuelOut
deriving DecidableEq

/-- Result type of the fallible converter components. -/
abbrev Res (α : Type) := Except Err α

/-- Character class of \w (JavaScript word character). -/
def isWordChar (c : Char) : Bool :=
  c.isAlpha || c.isDigit || c = Char.ofNat 95

/-- Character class [A-Za-z0-9]. -/
def isAlnum (c : Char) : Bool := c.isAlpha || c.isDigit

/-- The single-quote character. -/
def squote : Char := Char.ofNat 39

/-- The double-quote character. -/
def dquote : Char := Char.ofNat 34

/-- The backslash character. -/
def backslash : Char := Char.ofNat 92

/-- JavaScript String.prototype.trim on a character list. -/
def trimChars (cs : List Char) : List Char :=
  ((cs.dropWhile Char.isWhitespace).reverse.dropWhile Char.isWhitespace).reverse

/-- String.prototype.trim. -/
def jsTrim (s : String) : String := String.mk (trimChars s.data)

/-- Whether the pattern occurs as a contiguous subsequence (substring test,
String.prototype.includes). -/
def containsSeq (cs pat : List Char) : Bool :=
  match cs with
  | [] => pat.isEmpty
  | _ :: rest => cs.take pat.length = pat || containsSeq rest pat

/-- Substring test on strings. -/
def jsIncludes (s pat : String) : Bool := containsSeq s.data pat.data

/-- Single-character prefix test (String.prototype.startsWith with a
one-character pattern), written over the character list so that it reduces
definitionally. -/
def headIs (s : String) (c : Char) : Bool := s.data.head? = some c

/-- Single-character suffix test (String.prototype.endsWith with a
one-character pattern). -/
def lastIs (s : String) (c : Char) : Bool := s.data.getLast? = some c

/-- Maximal runs of word characters, used to decide word-boundary regex
matches such as the conditional-keyword rejection. -/
def wordRuns (cs : List Char) : List (List Char)  :=
  match cs with
  | [] => []
  | c :: rest =>
    if isWordChar c then
      match wordRuns rest with
      | [] => [[c]]
      | r :: rs =>
        match rest with
        | [] => [[c]]
        | c2 :: _ => if isWordChar c2 then (c :: r) :: rs else [c] :: (r :: rs)
    else wordRuns rest

/-- Whether the regex word (with word boundaries on both sides) occurs in the
string, the meaning of a JavaScript word-boundary test for a word pattern. -/
def hasWord (s : String) (w : String) : Bool :=
  (wordRuns s.data).any (fun r => r = w.data)

/-- Digits of a natural number as a decimal string: reuses Nat repr. -/
def natStr (n : Nat) : String := toString n

/-- Left-pad with zeros to the given width. -/
def padZeros (s : String) (width : Nat) : String :=
  if s.length ≥ width then s
  else String.mk (List.replicate (width - s.length) (Char.ofNat 48)) ++ s

/-- JavaScript String(n) for a number n, modelled on exact rationals.  For
integers it is the plain decimal repr; for rationals with a finite decimal
expansion it is the shortest decimal form (matching what String() produces
for every number the converter can parse); other rationals cannot reach this
function from the converter and get a fraction fallback form. -/
def jsNumToString (q : Rat) : String :=
  if q.den = 1 then toString q.num
  else
    match (List.range 31).find? (fun k => k ≠ 0 && (10:Nat)^k % q.den = 0) with
    | some k =>
      let p : Nat := 10 ^ k
      let scaled : Nat := q.num.natAbs * (p / q.den)
      let sign : String := if q.num < 0 then "-" else ""
      sign ++ natStr (scaled / p) ++ "." ++ padZeros (natStr (scaled % p)) k
    | none => toString q.num ++ "/" ++ toString q.den

/-- TDL literal values (string, number or boolean). -/
inductive Lit where
  | str (s : String)
  | num (q : Rat)
  | bool (b : Bool)
deriving DecidableEq

/-- The JavaScript typeof tag of a literal, as used by unionLiteralType. -/
inductive LitKind where
  | string | number | boolean
deriving DecidableEq

/-- typeof of a literal value. -/
def litKind : Lit → LitKind
  | .str _ => .string
  | .num _ => .number
  | .bool _ => .boolean

/-- String(key) applied to a literal enum key. -/
def litKeyString : Lit → String
  | .str s => s
  | .num q => jsNumToString q
  | .bool b => if b then "true" else "false"

/-- A literal as a JSON value (enum array entry). -/
def litToJ : Lit → J
  | .str s => J.str s
  | .num q => J.num q
  | .bool b => J.bool b

/-- Primitive type names of the supported TDL subset. -/
inductive PrimName where
  | string | number | boolean | typedoc | image | audio | video | never
deriving DecidableEq

/-- Index-signature domain kind: a string domain or an enum-like domain. -/
inductive IdxKind where
  | string | enum
deriving DecidableEq

mutual
/-- The TDL IR: the TypeNode tagged union of tdl.ts. -/
inductive TypeNode where
  | primitive (name : PrimName)
  | stringLit (value : String)
  | numberLit (value : Rat)
  | booleanLit (value : Bool)
  | typeRef (name : String)
  | union (members : List TypeNode)
  | intersection (members : List TypeNode)
  | object (props : List PropNode) (indexSigs : List IndexSigNode) (closed : Bool)

/-- A property of an Object node (PropNode of tdl.ts). -/
inductive PropNode where
  | mk (name : String) (type : TypeNode) (optional : Bool) (isArray : Bool)

/-- An index signature of an Object node (IndexSigNode of tdl.ts); keys is
empty for the string kind (the source leaves the field undefined there). -/
inductive IndexSigNode where
  | mk (kind : IdxKind) (keys : List Lit) (valueType : TypeNode) (optional : Bool) (isArray : Bool)
end

/-- Property name accessor. -/
def PropNode.name : PropNode → String
  | .mk n _ _ _ => n

/-- Property type accessor. -/
def PropNode.type : PropNode → TypeNode
  | .mk _ t _ _ => t

/-- Property optional-flag accessor. -/
def PropNode.optional : PropNode → Bool
  | .mk _ _ o _ => o

/-- Property array-flag accessor. -/
def PropNode.isArray : PropNode → Bool
  | .mk _ _ _ a => a

/-- Index-signature kind accessor. -/
def IndexSigNode.kind : IndexSigNode → IdxKind
  | .mk k _ _ _ _ => k

/-- Index-signature keys accessor. -/
def IndexSigNode.keys : IndexSigNode → List Lit
  | .mk _ ks _ _ _ => ks

/-- Index-signature value type accessor. -/
def IndexSigNode.valueType : IndexSigNode → TypeNode
  | .mk _ _ v _ _ => v

/-- Index-signature optional-flag accessor. -/
def IndexSigNode.optional : IndexSigNode → Bool
  | .mk _ _ _ o _ => o

/-- Index-signature array-flag accessor. -/
def IndexSigNode.isArray : IndexSigNode → Bool
  | .mk _ _ _ _ a => a

/-- A top-level symbol declaration (SymbolDef of tdl.ts). -/
structure SymbolDef where
  name : String
  type : TypeNode
  optional : Bool
  isArray : Bool

/-- The YAML tree handed to parseTDL by the external YAML reader: mappings
with string keys, sequences, and scalar strings, numbers, booleans, null. -/
inductive Yaml where
  | str (s : String)
  | num (q : Rat)
  | bool (b : Bool)
  | null
  | arr (xs : List Yaml)
  | map (kvs : List (String × Yaml))

/-- The parsed document (TDLDoc of tdl.ts).  types models the insertion
ordered Map from TypeName to its definition node; meta holds the raw
underscore sections. -/
structure TDLDoc where
  types : List (String × TypeNode)
  symbols : List SymbolDef
  meta : List (String × Yaml)

/-- Map.get on the named-type table. -/
def lookupType (doc : TDLDoc) (name : String) : Option TypeNode :=
  match doc.types.find? (fun p => p.1 = name) with
  | some p => some p.2
  | none => none

/-- Map.set on the named-type table (overwrite keeps position). -/
def typesSet : List (String × TypeNode) → String → TypeNode → List (String × TypeNode)
  | [], k, v => [(k, v)]
  | (k', v') :: rest, k, v =>
    if k' = k then (k', v) :: rest else (k', v') :: typesSet rest k v

/-- isObjectNode of tdl.ts: a non-null object that is not an array. -/
def Yaml.isMap : Yaml → Bool
  | .map _ => true
  | _ => false

/-- Whether a YAML value is a scalar string (typeof v is the string tag). -/
def Yaml.isStr : Yaml → Bool
  | .str _ => true
  | _ => false

mutual
/-- JavaScript String(v) conversion of a YAML value in array-element
position, where null converts to the empty string. -/
def jsStringElem : Yaml → String
  | .str s => s
  | .num q => jsNumToString q
  | .bool b => if b then "true" else "false"
  | .null => ""
  | .arr xs => String.intercalate "," (jsStringList xs)
  | .map _ => "[object Object]"

/-- String conversions of the elements of a YAML sequence. -/
def jsStringList : List Yaml → List String
  | [] => []
  | x :: xs => jsStringElem x :: jsStringList xs
end

/-- JavaScript String(v) conversion of a YAML value (top position). -/
def jsString : Yaml → String
  | .null => "null"
  | v => jsStringElem v

/-- Decimal value of a digit list. -/
def digitsVal (ds : List Char) : Nat :=
  ds.foldl (fun a c => a * 10 + (c.toNat - 48)) 0

/-- tryParseLiteral of tdl.ts: quoted string, true, false, or a decimal
number token; everything else is undefined (none). -/
def tryParseLiteral (x : String) : Option Lit :=
  let s := jsTrim x
  let cs := s.data
  match cs with
  | [] => none
  | c :: _ =>
    if (c = dquote ∧ cs.getLast? = some dquote) ∨ (c = squote ∧ cs.getLast? = some squote) then
      some (.str (String.mk ((cs.drop 1).dropLast)))
    else if s = "true" then some (.bool true)
    else if s = "false" then some (.bool false)
    else
      let (d1, rest) := cs.span Char.isDigit
      if d1.isEmpty then none
      else match rest with
        | [] => some (.num ((digitsVal d1 : Nat) : Rat))
        | dot :: rest2 =>
          if dot = '.' ∧ ¬rest2.isEmpty ∧ rest2.all Char.isDigit then
            some (.num (mkRat (digitsVal (d1 ++ rest2)) (10 ^ rest2.length)))
          else none

/-- The pieces of a parsed property or symbol label. -/
structure LabelInfo where
  name : String
  isArray : Bool
  optional : Bool

/-- parseLabel of tdl.ts: name = leading lowercase word, with array and
optional flags read off the label tail. -/
def parseLabel (label : String) : Res LabelInfo :=
  match label.data with
  | c :: rest =>
    if c.isLower ∧ label.data.all (fun ch => ch ≠ '\n' ∧ ch ≠ '\r') then
      let (nm, tail) := rest.span (fun ch => isAlnum ch || ch = '_')
      let tailS := jsTrim (String.mk tail)
      .ok { name := String.mk (c :: nm),
            isArray := containsSeq tailS.data ['[', ']'],
            optional := tailS.data.contains '?' }
    else .error (.authoring ("Invalid label: " ++ label))
  | [] => .error (.authoring ("Invalid label: " ++ label))

/-- isBalancedParens of tdl.ts. -/
def balGo : List Char → Int → Bool
  | [], d => d = 0
  | c :: rest, d =>
    let d' : Int := if c = '(' then d + 1 else if c = ')' then d - 1 else d
    if d' < 0 then false else balGo rest d'

/-- Whether parentheses balance and never go negative. -/
def isBalancedParens (s : String) : Bool := balGo s.data 0

/-- splitTopLevel of tdl.ts: the character scan with paren depth, angle
depth and quoted-string state.  prev is the previous raw character (for the
backslash check); inStr is the open quote character when inside a string. -/
def splitTopGo (sep : Char) : List Char → Option Char → Option Char → Int → Int → List Char → List String → List String
  | [], _, _, _, _, cur, parts =>
    let t := trimChars cur
    if t.isEmpty then parts.reverse else (String.mk t :: parts).reverse
  | ch :: rest, prev, inStr, dp, da, cur, parts =>
    match inStr with
    | some q =>
      let inStr' := if ch = q ∧ prev ≠ some backslash then none else some q
      splitTopGo sep rest (some ch) inStr' dp da (cur ++ [ch]) parts
    | none =>
      if ch = dquote ∨ ch = squote then
        splitTopGo sep rest (some ch) (some ch) dp da (cur ++ [ch]) parts
      else
        let dp' : Int := if ch = '(' then dp + 1 else if ch = ')' then dp - 1 else dp
        let da' : Int := if ch = '<' then da + 1 else if ch = '>' then da - 1 else da
        if dp' = 0 ∧ da' = 0 ∧ ch = sep then
          splitTopGo sep rest (some ch) none dp' da' [] (String.mk (trimChars cur) :: parts)
        else
          splitTopGo sep rest (some ch) none dp' da' (cur ++ [ch]) parts

/-- Top-level split of a type expression at a separator. -/
def splitTopLevel (s : String) (sep : Char) : List String :=
  splitTopGo sep s.data none none 0 0 [] []

/-- The ALL_CAPS_TOKEN regex. -/
def isAllCapsToken (s : String) : Bool :=
  match s.data with
  | c :: rest => c.isUpper && rest.all (fun ch => ch.isUpper || ch.isDigit || ch = '_')
  | [] => false

/-- The TypeName token regex (capitalized, letters and digits). -/
def isTypeNameToken (s : String) : Bool :=
  match s.data with
  | c :: rest => c.isUpper && rest.all isAlnum
  | [] => false

/-- The reserved primitive words. -/
def primOfString (s : String) : Option PrimName :=
  if s = "string" then some .string
  else if s = "number" then some .number
  else if s = "boolean" then some .boolean
  else if s = "typedoc" then some .typedoc
  else if s = "image" then some .image
  else if s = "audio" then some .audio
  else if s = "video" then some .video
  else if s = "never" then some .never
  else none

/-- The generic-usage regex of parseTypeExpr (identifier, optional spaces,
then an angle-bracket group ending the string); yields the identifier. -/
def genericMatch (cs : List Char) : Option (List Char) :=
  match cs with
  | c :: rest =>
    if c.isAlpha || c = '_' then
      let (w, r2) := rest.span (fun ch => isAlnum ch || ch = '_')
      let r3 := r2.dropWhile Char.isWhitespace
      match r3 with
      | '<' :: mid =>
        match mid.getLast? with
        | some '>' =>
          if (mid.dropLast).all (fun ch => ch ≠ '\n' ∧ ch ≠ '\r') then some (c :: w) else none
        | _ => none
      | _ => none
    else none
  | [] => none

/-- The Ref generic test (Ref, optional spaces, an opening angle). -/
def isRefGeneric (cs : List Char) : Bool :=
  match cs with
  | 'R' :: 'e' :: 'f' :: rest => (rest.dropWhile Char.isWhitespace).head? = some '<'
  | _ => false

/-- literalToNode of tdl.ts. -/
def literalToNode : Lit → TypeNode
  | .str s => .stringLit s
  | .num q => .numberLit q
  | .bool b => .booleanLit b

/-- slice(1, -1) of a string. -/
def sliceInner (s : String) : String := String.mk ((s.data.drop 1).dropLast)

mutual
/-- parseTypeExpr of tdl.ts, the scalar type-expression sub-parser, made
total by fuel (each recursive call consumes one unit). -/
def parseTypeExpr : Nat → String → Res TypeNode
  | 0, _ => .error .fuelOut
  | fuel+1, expr =>
    let trimmed := jsTrim expr
    if trimmed.data.isEmpty then .error (.authoring "Empty type expression")
    else if jsIncludes trimmed "=>" then
      .error (.authoring ("Function types are not supported: " ++ expr))
    else if hasWord trimmed "if" || hasWord trimmed "then" || hasWord trimmed "else" then
      .error (.authoring ("Conditionals are not supported: " ++ expr))
    else if jsIncludes trimmed "::" then
      .error (.authoring ("Qualified imports are not supported: " ++ expr))
    else match genericMatch trimmed.data with
    | some _ =>
      if isRefGeneric trimmed.data then .ok (.primitive .string)
      else .error (.authoring ("Generics are not supported in this converter: " ++ expr))
    | none =>
      let unionParts := splitTopLevel trimmed '|'
      if unionParts.length > 1 then
        match parseParts fuel unionParts with
        | .error e => .error e
        | .ok ms => .ok (.union ms)
      else
        let andParts := splitTopLevel trimmed '&'
        if andParts.length > 1 then
          match parseParts fuel andParts with
          | .error e => .error e
          | .ok ms => .ok (.intersection ms)
        else if headIs trimmed '(' ∧ lastIs trimmed ')' ∧ isBalancedParens trimmed then
          parseTypeExpr fuel (sliceInner trimmed)
        else match tryParseLiteral trimmed with
        | some lit => .ok (literalToNode lit)
        | none =>
          match primOfString trimmed with
          | some p => .ok (.primitive p)
          | none =>
            if isTypeNameToken trimmed then .ok (.typeRef trimmed)
            else if isAllCapsToken trimmed then .ok (.stringLit trimmed)
            else .error (.authoring ("Unsupported or unrecognized type expression: " ++ expr))

/-- Parses each part of a top-level split (members map of parseTypeExpr). -/
def parseParts : Nat → List String → Res (List TypeNode)
  | 0, _ => .error .fuelOut
  | _+1, [] => .ok []
  | fuel+1, p :: ps =>
    match parseTypeExpr fuel p with
    | .error e => .error e
    | .ok t =>
      match parseParts fuel ps with
      | .error e => .error e
      | .ok ts => .ok (t :: ts)
end

/-- parseTypeExpr at its fuel bound: recursion depth is bounded by the
expression length, so this fuel is never exhausted on the way to a result. -/
def parseTypeExprTop (s : String) : Res TypeNode :=
  parseTypeExpr (2 * s.length + 2) s

/-- isNever of tdl.ts (on IR nodes). -/
def isNeverNode : TypeNode → Bool
  | .primitive .never => true
  | _ => false

/-- The pieces of a parsed index-signature label. -/
structure IdxLabel where
  kind : IdxKind
  keys : List Lit
  optional : Bool
  isArray : Bool

/-- parseEnumLike of tdl.ts: the enum-like domain parts, each a literal or
an ALL_CAPS token (kept as a string literal value). -/
def parseEnumLike (expr : String) : Res (List Lit) :=
  let parts := ((splitTopLevel expr '|').map jsTrim).filter (fun s => ¬s.data.isEmpty)
  go parts
where
  /-- Folds the parts into literal keys. -/
  go : List String → Res (List Lit)
  | [] => .ok []
  | p :: ps =>
    match tryParseLiteral p with
    | some lit =>
      match go ps with
      | .error e => .error e
      | .ok ks => .ok (lit :: ks)
    | none =>
      if isAllCapsToken p then
        match go ps with
        | .error e => .error e
        | .ok ks => .ok (.str p :: ks)
      else .error (.authoring ("Enum-like expression must be literals or ALL_CAPS_TOKENs: " ++ expr))

/-- parseIndexLabel of tdl.ts: bracketed identifier, colon, non-bracket
domain chunk, closing bracket, then the flags tail. -/
def parseIndexLabel (label : String) : Res IdxLabel :=
  let bad : Res IdxLabel := .error (.authoring ("Invalid index signature label: " ++ label))
  match label.data with
  | '[' :: rest =>
    match rest with
    | c :: rest2 =>
      if c.isAlpha || c = '_' then
        let (_, r3) := rest2.span (fun ch => isAlnum ch || ch = '_')
        match r3.dropWhile Char.isWhitespace with
        | ':' :: r5 =>
          let (chunk, r6) := r5.span (fun ch => ch ≠ ']')
          if chunk.isEmpty then bad
          else match r6 with
            | ']' :: tail =>
              if tail.all (fun ch => ch ≠ '\n' ∧ ch ≠ '\r') then
                let tailS := jsTrim (String.mk tail)
                let isArr := containsSeq tailS.data ['[', ']']
                let opt := tailS.data.contains '?'
                let domainRaw := jsTrim (String.mk chunk)
                if domainRaw = "string" then
                  .ok { kind := .string, keys := [], optional := opt, isArray := isArr }
                else
                  match parseEnumLike domainRaw with
                  | .error e => .error e
                  | .ok keys => .ok { kind := .enum, keys := keys, optional := opt, isArray := isArr }
              else bad
            | _ => bad
        | _ => bad
      else bad
    | [] => bad
  | _ => bad

mutual
/-- The right-hand-side value parse shared by every position of tdl.ts: a
YAML mapping goes to the inline-object parser, anything else is coerced by
String(v) and parsed as a scalar type expression. -/
def parseVal : Yaml → Res TypeNode
  | .map kvs => parseObjBody kvs [] [] false
  | v => parseTypeExprTop (jsString v)

/-- The entry loop of parseInlineObject of tdl.ts, accumulating props,
index signatures and the closure flag. -/
def parseObjBody : List (String × Yaml) → List PropNode → List IndexSigNode → Bool → Res TypeNode
  | [], props, sigs, closed => .ok (.object props sigs closed)
  | (k, v) :: rest, props, sigs, closed =>
    if headIs k '[' then
      match parseIndexLabel k with
      | .error e => .error e
      | .ok il =>
        match parseVal v with
        | .error e => .error e
        | .ok valueType =>
          if il.kind = .string then
            if il.optional ∧ isNeverNode valueType then
              parseObjBody rest props sigs true
            else
              parseObjBody rest props (sigs ++ [.mk .string [] valueType il.optional il.isArray]) closed
          else
            parseObjBody rest props (sigs ++ [.mk .enum il.keys valueType il.optional il.isArray]) closed
    else
      match parseLabel k with
      | .error e => .error e
      | .ok li =>
        match parseVal v with
        | .error e => .error e
        | .ok t => parseObjBody rest (props ++ [.mk li.name t li.optional li.isArray]) sigs closed
end

/-- parseInlineObject of tdl.ts (on the entry list of a YAML mapping). -/
def parseInlineObject (entries : List (String × Yaml)) : Res TypeNode :=
  parseObjBody entries [] [] false

/-- The top-level TypeName classification regex of parseTDL. -/
def typeKeyMatch (s : String) : Bool :=
  match s.data with
  | c :: rest =>
    if c.isUpper then
      let (_, r1) := rest.span isAlnum
      match r1.dropWhile Char.isWhitespace with
      | [] => true
      | '(' :: mid =>
        match mid.getLast? with
        | some ')' => (mid.dropLast).all (fun ch => ch ≠ '\n' ∧ ch ≠ '\r')
        | _ => false
      | _ => false
    else false
  | [] => false

/-- The extends-sugar match of parseTDL (name immediately followed by a
parenthesized base expression ending the key). -/
def extendsMatch (s : String) : Option (String × String) :=
  match s.data with
  | c :: rest =>
    if c.isUpper then
      let (nm, r1) := rest.span isAlnum
      match r1 with
      | '(' :: mid =>
        match mid.getLast? with
        | some ')' =>
          let inner := mid.dropLast
          if inner.all (fun ch => ch ≠ '\n' ∧ ch ≠ '\r') then
            some (String.mk (c :: nm), String.mk inner)
          else none
        | _ => none
      | _ => none
    else none
  | [] => none

/-- The symbol-label classification regex of parseTDL. -/
def symbolKeyMatch (s : String) : Bool :=
  match s.data with
  | c :: rest =>
    c.isLower &&
      (let (_, r1) := rest.span (fun ch => isAlnum ch || ch = '_')
       r1.all (fun ch => ch = '?' || ch = '[' || ch = ']'))
  | [] => false

/-- The top-level entry loop of parseTDL. -/
def parseTDLGo : List (String × Yaml) → List (String × TypeNode) → List SymbolDef → List (String × Yaml) → Res TDLDoc
  | [], types, symbols, meta => .ok ⟨types, symbols, meta⟩
  | (k, v) :: rest, types, symbols, meta =>
    if headIs k '_' then parseTDLGo rest types symbols (meta ++ [(k, v)])
    else if typeKeyMatch k then
      match extendsMatch k with
      | some (name, baseExpr) =>
        match v with
        | .map kvs =>
          match parseTypeExprTop baseExpr with
          | .error e => .error e
          | .ok base =>
            match parseInlineObject kvs with
            | .error e => .error e
            | .ok body =>
              parseTDLGo rest (typesSet types name (.intersection [base, body])) symbols meta
        | _ => .error (.authoring ("Type " ++ name ++ " with extends sugar must have an object body"))
      | none =>
        let name := jsTrim k
        if ¬v.isMap ∧ ¬v.isStr then
          .error (.authoring ("Type " ++ name ++ " must be a scalar type expression or an inline object"))
        else
          match parseVal v with
          | .error e => .error e
          | .ok node => parseTDLGo rest (typesSet types name node) symbols meta
    else if symbolKeyMatch k then
      match parseLabel k with
      | .error e => .error e
      | .ok li =>
        match parseVal v with
        | .error e => .error e
        | .ok t => parseTDLGo rest types (symbols ++ [⟨li.name, t, li.optional, li.isArray⟩]) meta
    else .error (.authoring ("Unrecognized top-level entry: " ++ k))

/-- parseTDL of tdl.ts: the YAML root must be a mapping; its entries are
classified as meta, type definitions or symbols. -/
def parseTDL (raw : Yaml) : Res TDLDoc :=
  match raw with
  | .map kvs => parseTDLGo kvs [] [] []
  | _ => .error (.authoring "TDL document must be a YAML mapping at the top level")

/-- primitiveToSchema, identical in schema-openai.ts and schema-gemini.ts. -/
def primitiveToSchema : PrimName → J
  | .string | .typedoc | .image | .audio | .video => J.obj [("type", J.str "string")]
  | .number => J.obj [("type", J.str "number")]
  | .boolean => J.obj [("type", J.str "boolean")]
  | .never => J.obj [("type", J.str "number"), ("minimum", J.num 1), ("maximum", J.num 0)]

/-- arrayOf, identical in both emitters. -/
def arrayOf (item : J) : J := J.obj [("type", J.str "array"), ("items", item)]

/-- makeNullable of schema-openai.ts: widen a string type field to a
two-element array, add null to an array type field when absent, otherwise
wrap in anyOf with a null schema. -/
def makeNullable (schema : J) : J :=
  let wrap : J := J.obj [("anyOf", J.arr [schema, J.obj [("type", J.str "null")]])]
  match schema with
  | .obj fs =>
    match rget fs "type" with
    | some (J.str t) => J.obj (rset fs "type" (J.arr [J.str t, J.str "null"]))
    | some (J.arr ts) =>
      if ts.any (fun x => match x with | J.str s => s = "null" | _ => false) then schema
      else J.obj (rset fs "type" (J.arr (ts ++ [J.str "null"])))
    | _ => wrap
  | _ => wrap

/-- isScalarLiteral, identical in both emitters. -/
def isScalarLiteral : TypeNode → Bool
  | .stringLit _ | .numberLit _ | .booleanLit _ => true
  | _ => false

/-- literalValue of both emitters, as a partial lookup: the source throws on
non-literal nodes but is only ever called under an isScalarLiteral guard. -/
def litValue? : TypeNode → Option Lit
  | .stringLit v => some (.str v)
  | .numberLit v => some (.num v)
  | .booleanLit v => some (.bool v)
  | _ => none

/-- unionLiteralType of both emitters: the shared typeof tag of all values
when there is exactly one. -/
def unionLiteralType (values : List Lit) : Option String :=
  match values with
  | [] => none
  | v :: rest =>
    if rest.all (fun w => litKind w = litKind v) then
      some (match litKind v with
            | .string => "string"
            | .number => "number"
            | .boolean => "boolean")
    else none

/-- isNeverSchema of schema-openai.ts and isNever of schema-gemini.ts: a
number schema with numeric minimum strictly above numeric maximum. -/
def isNeverSchema (s : J) : Bool :=
  match s with
  | .obj fs =>
    match rget fs "type", rget fs "minimum", rget fs "maximum" with
    | some (J.str t), some (J.num mn), some (J.num mx) => t = "number" && mn > mx
    | _, _, _ => false
  | _ => false

/-- The per-conversion emitter state: the $defs table and the visitation
stack of EmitCtxOpenAI and EmitCtxGemini. -/
structure EmitSt where
  defs : JRec
  stack : List String

/-- The fresh state a conversion starts from. -/
def initSt : EmitSt := ⟨[], []⟩

/-- The cycle-breaking placeholder of the OpenAI emitter. -/
def placeholderOpenAI : J :=
  J.obj [("type", J.str "object"), ("properties", J.obj []), ("required", J.arr []),
         ("additionalProperties", J.bool false)]

/-- The cycle-breaking placeholder of the Gemini emitter. -/
def placeholderGemini : J :=
  J.obj [("type", J.str "object"), ("properties", J.obj []), ("required", J.arr []),
         ("additionalProperties", J.bool true)]

/-- The authoring error raised by the OpenAI emitter on string-domain index
signatures. -/
def openAIStringSigMsg : String :=
  "OpenAI schema: string index signatures (maps) are not supported. Use [k: string]? never for closure."

/-- Map.set keyed by property name (the merge accumulator of mergeObjects). -/
def propSet : List PropNode → PropNode → List PropNode
  | [], p => [p]
  | q :: rest, p => if q.name = p.name then p :: rest else q :: propSet rest p

mutual
/-- ensureDef of EmitCtxOpenAI: return when present, install a placeholder
when the name is on the visitation stack, otherwise emit the body under a
pushed stack and store the schema. -/
def ensureDefOpenAI (doc : TDLDoc) : Nat → EmitSt → String → Res EmitSt
  | 0, _, _ => .error .fuelOut
  | fuel+1, st, name =>
    if (rget st.defs name).isSome then .ok st
    else if name ∈ st.stack then .ok { st with defs := rset st.defs name placeholderOpenAI }
    else match lookupType doc name with
      | none => .error (.authoring ("Unknown type reference: " ++ name))
      | some node =>
        match emitOpenAI doc fuel { st with stack := name :: st.stack } node with
        | .error e => .error e
        | .ok (schema, st') =>
          .ok { defs := rset st'.defs name schema, stack := st'.stack.erase name }

/-- emit of EmitCtxOpenAI. -/
def emitOpenAI (doc : TDLDoc) : Nat → EmitSt → TypeNode → Res (J × EmitSt)
  | 0, _, _ => .error .fuelOut
  | fuel+1, st, n =>
    match n with
    | .primitive p => .ok (primitiveToSchema p, st)
    | .stringLit v => .ok (J.obj [("type", J.str "string"), ("enum", J.arr [J.str v])], st)
    | .numberLit v => .ok (J.obj [("type", J.str "number"), ("enum", J.arr [J.num v])], st)
    | .booleanLit v => .ok (J.obj [("type", J.str "boolean"), ("enum", J.arr [J.bool v])], st)
    | .typeRef name =>
      match ensureDefOpenAI doc fuel st name with
      | .error e => .error e
      | .ok st' => .ok (J.obj [("$ref", J.str ("#/$defs/" ++ name))], st')
    | .union members =>
      if members.all isScalarLiteral then
        let enums := members.filterMap litValue?
        match unionLiteralType enums with
        | some t => .ok (J.obj [("enum", J.arr (enums.map litToJ)), ("type", J.str t)], st)
        | none => .ok (J.obj [("enum", J.arr (enums.map litToJ))], st)
      else
        match emitListOpenAI doc fuel st members with
        | .error e => .error e
        | .ok (js, st') => .ok (J.obj [("anyOf", J.arr js)], st')
    | .intersection members =>
      match mergeObjectsOpenAI doc fuel members with
      | .error e => .error e
      | .ok (props, sigs, _) => emitObjectOpenAI doc fuel st sigs props
    | .object props sigs _ => emitObjectOpenAI doc fuel st sigs props

/-- The member map of the anyOf branch of emit. -/
def emitListOpenAI (doc : TDLDoc) : Nat → EmitSt → List TypeNode → Res (List J × EmitSt)
  | 0, _, _ => .error .fuelOut
  | _+1, st, [] => .ok ([], st)
  | fuel+1, st, n :: ns =>
    match emitOpenAI doc fuel st n with
    | .error e => .error e
    | .ok (j, st') =>
      match emitListOpenAI doc fuel st' ns with
      | .error e => .error e
      | .ok (js, st'') => .ok (j :: js, st'')

/-- emitObject of EmitCtxOpenAI: index signatures first, then properties;
every emitted object is closed and lists every property as required. -/
def emitObjectOpenAI (doc : TDLDoc) : Nat → EmitSt → List IndexSigNode → List PropNode → Res (J × EmitSt)
  | 0, _, _, _ => .error .fuelOut
  | fuel+1, st, sigs, props =>
    match emitSigsOpenAI doc fuel st sigs [] [] with
    | .error e => .error e
    | .ok (properties, required, st1) =>
      match emitPropsOpenAI doc fuel st1 props properties required with
      | .error e => .error e
      | .ok (properties2, required2, st2) =>
        .ok (J.obj [("type", J.str "object"), ("properties", J.obj properties2),
                    ("required", J.arr (required2.map J.str)),
                    ("additionalProperties", J.bool false)], st2)

/-- The index-signature loop of emitObject (OpenAI): string domains are
rejected unless they are the optional-to-never closure sugar; enum domains
materialize their keys as concrete properties. -/
def emitSigsOpenAI (doc : TDLDoc) : Nat → EmitSt → List IndexSigNode → JRec → List String → Res (JRec × List String × EmitSt)
  | 0, _, _, _, _ => .error .fuelOut
  | _+1, st, [], properties, required => .ok (properties, required, st)
  | fuel+1, st, sig :: rest, properties, required =>
    match sig.kind with
    | .string =>
      if sig.optional then
        match emitOpenAI doc fuel st sig.valueType with
        | .error e => .error e
        | .ok (vs, st') =>
          if isNeverSchema vs then emitSigsOpenAI doc fuel st' rest properties required
          else .error (.authoring openAIStringSigMsg)
      else .error (.authoring openAIStringSigMsg)
    | .enum =>
      match emitKeysOpenAI doc fuel st sig.keys sig.valueType sig.optional sig.isArray properties required with
      | .error e => .error e
      | .ok (properties', required', st') => emitSigsOpenAI doc fuel st' rest properties' required'

/-- The key loop of an enum-domain signature (OpenAI): the value schema is
emitted per key, wrapped per flags, and the key is always pushed required. -/
def emitKeysOpenAI (doc : TDLDoc) : Nat → EmitSt → List Lit → TypeNode → Bool → Bool → JRec → List String → Res (JRec × List String × EmitSt)
  | 0, _, _, _, _, _, _, _ => .error .fuelOut
  | _+1, st, [], _, _, _, properties, required => .ok (properties, required, st)
  | fuel+1, st, key :: keys, valueType, opt, isArr, properties, required =>
    let keyName := litKeyString key
    match emitOpenAI doc fuel st valueType with
    | .error e => .error e
    | .ok (base, st') =>
      let withArray := if isArr then arrayOf base else base
      let final := if opt then makeNullable withArray else withArray
      emitKeysOpenAI doc fuel st' keys valueType opt isArr (rset properties keyName final) (required ++ [keyName])

/-- The property loop of emitObject (OpenAI): optional becomes nullable and
the name is always pushed required. -/
def emitPropsOpenAI (doc : TDLDoc) : Nat → EmitSt → List PropNode → JRec → List String → Res (JRec × List String × EmitSt)
  | 0, _, _, _, _ => .error .fuelOut
  | _+1, st, [], properties, required => .ok (properties, required, st)
  | fuel+1, st, p :: ps, properties, required =>
    match emitOpenAI doc fuel st p.type with
    | .error e => .error e
    | .ok (base, st') =>
      let withArray := if p.isArray then arrayOf base else base
      let final := if p.optional then makeNullable withArray else withArray
      emitPropsOpenAI doc fuel st' ps (rset properties p.name final) (required ++ [p.name])

/-- mergeObjects of schema-openai.ts. -/
def mergeObjectsOpenAI (doc : TDLDoc) : Nat → List TypeNode → Res (List PropNode × List IndexSigNode × Bool)
  | 0, _ => .error .fuelOut
  | fuel+1, parts => mergePartsOpenAI doc fuel parts [] [] false

/-- The operand loop of mergeObjects: resolve each part, overwrite same
name properties (rightmost wins), concatenate signatures, or the closed
flags. -/
def mergePartsOpenAI (doc : TDLDoc) : Nat → List TypeNode → List PropNode → List IndexSigNode → Bool → Res (List PropNode × List IndexSigNode × Bool)
  | 0, _, _, _, _ => .error .fuelOut
  | _+1, [], props, sigs, closed => .ok (props, sigs, closed)
  | fuel+1, p :: rest, props, sigs, closed =>
    match resolveObjectOpenAI doc fuel p with
    | .error e => .error e
    | .ok (oprops, osigs, oclosed) =>
      mergePartsOpenAI doc fuel rest (oprops.foldl propSet props) (sigs ++ osigs) (closed || oclosed)

/-- resolveObject of schema-openai.ts: an object is itself, a type
reference resolves through the named-type table, a nested intersection is
merged recursively, anything else is not object-like. -/
def resolveObjectOpenAI (doc : TDLDoc) : Nat → TypeNode → Res (List PropNode × List IndexSigNode × Bool)
  | 0, _ => .error .fuelOut
  | fuel+1, node =>
    match node with
    | .object p s c => .ok (p, s, c)
    | .typeRef name =>
      match lookupType doc name with
      | none => .error (.authoring ("Unknown type: " ++ name))
      | some d => resolveObjectOpenAI doc fuel d
    | .intersection ms => mergeObjectsOpenAI doc fuel ms
    | _ => .error (.authoring "Intersection operands must be object-like")
end

/-- The eager pre-registration loop over the named types (OpenAI). -/
def initDefsOpenAI (doc : TDLDoc) (fuel : Nat) : EmitSt → List (String × TypeNode) → Res EmitSt
  | st, [] => .ok st
  | st, (name, _) :: rest =>
    match ensureDefOpenAI doc fuel st name with
    | .error e => .error e
    | .ok st' => initDefsOpenAI doc fuel st' rest

/-- The symbol loop of generateOpenAISchema: every symbol becomes a root
property and is pushed required; optional symbols become nullable. -/
def rootSymsOpenAI (doc : TDLDoc) (fuel : Nat) : EmitSt → List SymbolDef → JRec → List String → Res (JRec × List String × EmitSt)
  | st, [], properties, required => .ok (properties, required, st)
  | st, sym :: rest, properties, required =>
    match emitOpenAI doc fuel st sym.type with
    | .error e => .error e
    | .ok (baseSchema, st') =>
      let withArray := if sym.isArray then arrayOf baseSchema else baseSchema
      let finalSchema := if sym.optional then makeNullable withArray else withArray
      rootSymsOpenAI doc fuel st' rest (rset properties sym.name finalSchema) (required ++ [sym.name])

/-- generateOpenAISchema of schema-openai.ts. -/
def generateOpenAISchema (doc : TDLDoc) (fuel : Nat) : Res J :=
  match initDefsOpenAI doc fuel initSt doc.types with
  | .error e => .error e
  | .ok st =>
    match rootSymsOpenAI doc fuel st doc.symbols [] [] with
    | .error e => .error e
    | .ok (properties, required, st') =>
      .ok (J.obj [("type", J.str "object"), ("properties", J.obj properties),
                  ("required", J.arr (required.map J.str)),
                  ("additionalProperties", J.bool false),
                  ("$defs", J.obj st'.defs)])

mutual
/-- ensureDef of EmitCtxGemini (placeholder is an open empty object). -/
def ensureDefGemini (doc : TDLDoc) : Nat → EmitSt → String → Res EmitSt
  | 0, _, _ => .error .fuelOut
  | fuel+1, st, name =>
    if (rget st.defs name).isSome then .ok st
    else if name ∈ st.stack then .ok { st with defs := rset st.defs name placeholderGemini }
    else match lookupType doc name with
      | none => .error (.authoring ("Unknown type reference: " ++ name))
      | some node =>
        match emitGemini doc fuel { st with stack := name :: st.stack } node with
        | .error e => .error e
        | .ok (schema, st') =>
          .ok { defs := rset st'.defs name schema, stack := st'.stack.erase name }

/-- emit of EmitCtxGemini. -/
def emitGemini (doc : TDLDoc) : Nat → EmitSt → TypeNode → Res (J × EmitSt)
  | 0, _, _ => .error .fuelOut
  | fuel+1, st, n =>
    match n with
    | .primitive p => .ok (primitiveToSchema p, st)
    | .stringLit v => .ok (J.obj [("type", J.str "string"), ("enum", J.arr [J.str v])], st)
    | .numberLit v => .ok (J.obj [("type", J.str "number"), ("enum", J.arr [J.num v])], st)
    | .booleanLit v => .ok (J.obj [("type", J.str "boolean"), ("enum", J.arr [J.bool v])], st)
    | .typeRef name =>
      match ensureDefGemini doc fuel st name with
      | .error e => .error e
      | .ok st' => .ok (J.obj [("$ref", J.str ("#/$defs/" ++ name))], st')
    | .union members =>
      if members.all isScalarLiteral then
        let enums := members.filterMap litValue?
        match unionLiteralType enums with
        | some t => .ok (J.obj [("enum", J.arr (enums.map litToJ)), ("type", J.str t)], st)
        | none => .ok (J.obj [("enum", J.arr (enums.map litToJ))], st)
      else
        match emitListGemini doc fuel st members with
        | .error e => .error e
        | .ok (js, st') => .ok (J.obj [("anyOf", J.arr js)], st')
    | .intersection members =>
      match mergeObjectsGemini doc fuel members with
      | .error e => .error e
      | .ok (props, sigs, closed) => emitObjectGemini doc fuel st sigs props closed
    | .object props sigs closed => emitObjectGemini doc fuel st sigs props closed

/-- The member map of the anyOf branch of emit (Gemini). -/
def emitListGemini (doc : TDLDoc) : Nat → EmitSt → List TypeNode → Res (List J × EmitSt)
  | 0, _, _ => .error .fuelOut
  | _+1, st, [] => .ok ([], st)
  | fuel+1, st, n :: ns =>
    match emitGemini doc fuel st n with
    | .error e => .error e
    | .ok (j, st') =>
      match emitListGemini doc fuel st' ns with
      | .error e => .error e
      | .ok (js, st'') => .ok (j :: js, st'')

/-- emitObject of EmitCtxGemini: openness follows the closed flag, string
index signatures land in additionalProperties (last one wins), enum domains
materialize keys, and only non-optional members are pushed required. -/
def emitObjectGemini (doc : TDLDoc) : Nat → EmitSt → List IndexSigNode → List PropNode → Bool → Res (J × EmitSt)
  | 0, _, _, _, _ => .error .fuelOut
  | fuel+1, st, sigs, props, closed =>
    match emitSigsGemini doc fuel st sigs [] [] (if closed then J.bool false else J.bool true) with
    | .error e => .error e
    | .ok (properties, required, addl, st1) =>
      match emitPropsGemini doc fuel st1 props properties required with
      | .error e => .error e
      | .ok (properties2, required2, st2) =>
        .ok (J.obj [("type", J.str "object"), ("properties", J.obj properties2),
                    ("required", J.arr (required2.map J.str)),
                    ("additionalProperties", addl)], st2)

/-- The index-signature loop of emitObject (Gemini): the source first
evaluates the closure condition (emitting the value type once) and, when it
fails, emits the value type again for the additionalProperties schema. -/
def emitSigsGemini (doc : TDLDoc) : Nat → EmitSt → List IndexSigNode → JRec → List String → J → Res (JRec × List String × J × EmitSt)
  | 0, _, _, _, _, _ => .error .fuelOut
  | _+1, st, [], properties, required, addl => .ok (properties, required, addl, st)
  | fuel+1, st, sig :: rest, properties, required, addl =>
    match sig.kind with
    | .string =>
      if sig.optional then
        match emitGemini doc fuel st sig.valueType with
        | .error e => .error e
        | .ok (cond, stc) =>
          if isNeverSchema cond then
            emitSigsGemini doc fuel stc rest properties required (J.bool false)
          else
            match emitGemini doc fuel stc sig.valueType with
            | .error e => .error e
            | .ok (base, st') =>
              emitSigsGemini doc fuel st' rest properties required
                (if sig.isArray then arrayOf base else base)
      else
        match emitGemini doc fuel st sig.valueType with
        | .error e => .error e
        | .ok (base, st') =>
          emitSigsGemini doc fuel st' rest properties required
            (if sig.isArray then arrayOf base else base)
    | .enum =>
      match emitKeysGemini doc fuel st sig.keys sig.valueType sig.optional sig.isArray properties required with
      | .error e => .error e
      | .ok (properties', required', st') => emitSigsGemini doc fuel st' rest properties' required' addl

/-- The key loop of an enum-domain signature (Gemini): keys are pushed
required only when the signature is not optional. -/
def emitKeysGemini (doc : TDLDoc) : Nat → EmitSt → List Lit → TypeNode → Bool → Bool → JRec → List String → Res (JRec × List String × EmitSt)
  | 0, _, _, _, _, _, _, _ => .error .fuelOut
  | _+1, st, [], _, _, _, properties, required => .ok (properties, required, st)
  | fuel+1, st, key :: keys, valueType, opt, isArr, properties, required =>
    let keyName := litKeyString key
    match emitGemini doc fuel st valueType with
    | .error e => .error e
    | .ok (base, st') =>
      let withArray := if isArr then arrayOf base else base
      emitKeysGemini doc fuel st' keys valueType opt isArr (rset properties keyName withArray)
        (if opt then required else required ++ [keyName])

/-- The property loop of emitObject (Gemini): schemas are never wrapped for
optionality; optional names are omitted from required. -/
def emitPropsGemini (doc : TDLDoc) : Nat → EmitSt → List PropNode → JRec → List String → Res (JRec × List String × EmitSt)
  | 0, _, _, _, _ => .error .fuelOut
  | _+1, st, [], properties, required => .ok (properties, required, st)
  | fuel+1, st, p :: ps, properties, required =>
    match emitGemini doc fuel st p.type with
    | .error e => .error e
    | .ok (base, st') =>
      let withArray := if p.isArray then arrayOf base else base
      emitPropsGemini doc fuel st' ps (rset properties p.name withArray)
        (if p.optional then required else required ++ [p.name])

/-- mergeObjects of schema-gemini.ts (same algorithm as the OpenAI one). -/
def mergeObjectsGemini (doc : TDLDoc) : Nat → List TypeNode → Res (List PropNode × List IndexSigNode × Bool)
  | 0, _ => .error .fuelOut
  | fuel+1, parts => mergePartsGemini doc fuel parts [] [] false

/-- The operand loop of mergeObjects (Gemini). -/
def mergePartsGemini (doc : TDLDoc) : Nat → List TypeNode → List PropNode → List IndexSigNode → Bool → Res (List PropNode × List IndexSigNode × Bool)
  | 0, _, _, _, _ => .error .fuelOut
  | _+1, [], props, sigs, closed => .ok (props, sigs, closed)
  | fuel+1, p :: rest, props, sigs, closed =>
    match resolveObjectGemini doc fuel p with
    | .error e => .error e
    | .ok (oprops, osigs, oclosed) =>
      mergePartsGemini doc fuel rest (oprops.foldl propSet props) (sigs ++ osigs) (closed || oclosed)

/-- resolveObject of schema-gemini.ts. -/
def resolveObjectGemini (doc : TDLDoc) : Nat → TypeNode → Res (List PropNode × List IndexSigNode × Bool)
  | 0, _ => .error .fuelOut
  | fuel+1, node =>
    match node with
    | .object p s c => .ok (p, s, c)
    | .typeRef name =>
      match lookupType doc name with
      | none => .error (.authoring ("Unknown type: " ++ name))
      | some d => resolveObjectGemini doc fuel d
    | .intersection ms => mergeObjectsGemini doc fuel ms
    | _ => .error (.authoring "Intersection operands must be object-like")
end

/-- The eager pre-registration loop over the named types (Gemini). -/
def initDefsGemini (doc : TDLDoc) (fuel : Nat) : EmitSt → List (String × TypeNode) → Res EmitSt
  | st, [] => .ok st
  | st, (name, _) :: rest =>
    match ensureDefGemini doc fuel st name with
    | .error e => .error e
    | .ok st' => initDefsGemini doc fuel st' rest

/-- The symbol loop of generateGeminiSchema: the schema is the same whether
the symbol is optional or not; only non-optional symbols are required. -/
def rootSymsGemini (doc : TDLDoc) (fuel : Nat) : EmitSt → List SymbolDef → JRec → List String → Res (JRec × List String × EmitSt)
  | st, [], properties, required => .ok (properties, required, st)
  | st, sym :: rest, properties, required =>
    match emitGemini doc fuel st sym.type with
    | .error e => .error e
    | .ok (base, st') =>
      let withArray := if sym.isArray then arrayOf base else base
      rootSymsGemini doc fuel st' rest (rset properties sym.name withArray)
        (if sym.optional then required else required ++ [sym.name])

/-- generateGeminiSchema of schema-gemini.ts (the root stays closed). -/
def generateGeminiSchema (doc : TDLDoc) (fuel : Nat) : Res J :=
  match initDefsGemini doc fuel initSt doc.types with
  | .error e => .error e
  | .ok st =>
    match rootSymsGemini doc fuel st doc.symbols [] [] with
    | .error e => .error e
    | .ok (properties, required, st') =>
      .ok (J.obj [("type", J.str "object"), ("properties", J.obj properties),
                  ("required", J.arr (required.map J.str)),
                  ("additionalProperties", J.bool false),
                  ("$defs", J.obj st'.defs)])

/-- convertTypedocToSchemas of index.ts: parse once, emit both dialects. -/
def convertTypedocToSchemas (raw : Yaml) (fuel : Nat) : Res (J × J) :=
  match parseTDL raw with
  | .error e => .error e
  | .ok doc =>
    match generateOpenAISchema doc fuel with
    | .error e => .error e
    | .ok o =>
      match generateGeminiSchema doc fuel with
      | .error e => .error e
      | .ok g => .ok (o, g)

/-- Whether a JSON value is an object. -/
def isJObj : J → Bool
  | .obj _ => true
  | _ => false

/-- Field read on a JSON object value. -/
def jField (j : J) (k : String) : Option J :=
  match j with
  | .obj fs => rget fs k
  | _ => none

/-- Field read with an empty-object default (for stating evaluations). -/
def jFieldD (j : J) (k : String) : J := (jField j k).getD (J.obj [])

/-- The string entries of a required array field. -/
def getRequired (j : J) : List String :=
  match jField j "required" with
  | some (J.arr rs) => rs.filterMap (fun x => match x with | J.str s => some s | _ => none)
  | _ => []

/-- The key list of the $defs object of a schema root. -/
def defsKeys (j : J) : List String :=
  match jField j "$defs" with
  | some (J.obj ds) => rkeys ds
  | _ => []

/-- Whether a schema field set is recognizably an object schema: its type
field is the string object or an array containing it. -/
def typeHasObject (fs : JRec) : Bool :=
  match rget fs "type" with
  | some (J.str s) => s = "object"
  | some (J.arr ts) => ts.any (fun x => match x with | J.str s => s = "object" | _ => false)
  | _ => false

/-- The OpenAI object-schema contract of one schema node: closed, and the
required entries are exactly the property keys (as sets). -/
def reqKeysMatch (fs : JRec) : Bool :=
  match rget fs "properties", rget fs "required", rget fs "additionalProperties" with
  | some (J.obj ps), some (J.arr rs), some (J.bool false) =>
    rs.all (fun x => match x with | J.str s => (rkeys ps).contains s | _ => false)
      && (rkeys ps).all (fun k => rs.any (fun x => match x with | J.str s => s = k | _ => false))
  | _, _, _ => false

/-- The Gemini object-schema contract of one schema node: the required
entries form a subset of the property keys. -/
def reqSubsetKeys (fs : JRec) : Bool :=
  match rget fs "properties", rget fs "required" with
  | some (J.obj ps), some (J.arr rs) =>
    rs.all (fun x => match x with | J.str s => (rkeys ps).contains s | _ => false)
  | _, _ => false

mutual
/-- The OpenAI whole-output invariant: every object schema anywhere in the
value satisfies reqKeysMatch. -/
def openAIObjOK : J → Bool
  | .obj fs => (if typeHasObject fs then reqKeysMatch fs else true) && openAIObjOKFields fs
  | .arr xs => openAIObjOKList xs
  | _ => true

/-- openAIObjOK over array elements. -/
def openAIObjOKList : List J → Bool
  | [] => true
  | x :: xs => openAIObjOK x && openAIObjOKList xs

/-- openAIObjOK over object field values. -/
def openAIObjOKFields : JRec → Bool
  | [] => true
  | (_, v) :: fs => openAIObjOK v && openAIObjOKFields fs
end

mutual
/-- The Gemini whole-output invariant: every object schema anywhere in the
value satisfies reqSubsetKeys. -/
def geminiObjOK : J → Bool
  | .obj fs => (if typeHasObject fs then reqSubsetKeys fs else true) && geminiObjOKFields fs
  | .arr xs => geminiObjOKList xs
  | _ => true

/-- geminiObjOK over array elements. -/
def geminiObjOKList : List J → Bool
  | [] => true
  | x :: xs => geminiObjOK x && geminiObjOKList xs

/-- geminiObjOK over object field values. -/
def geminiObjOKFields : JRec → Bool
  | [] => true
  | (_, v) :: fs => geminiObjOK v && geminiObjOKFields fs
end

/-- A value together with the OpenAI invariant (used as emitter invariant). -/
def JOKO (j : J) : Prop := isJObj j = true ∧ openAIObjOK j = true

/-- Emitter-state invariant: every stored definition is an object value
satisfying the OpenAI invariant. -/
def DefsOKO (st : EmitSt) : Prop := ∀ p ∈ st.defs, JOKO p.2

/-- Accumulator invariant of the OpenAI object folds: values satisfy the
invariant and the property keys coincide with the required names as sets. -/
def AccO (ps : JRec) (rs : List String) : Prop :=
  (∀ p ∈ ps, JOKO p.2) ∧ (∀ n, n ∈ rkeys ps ↔ n ∈ rs)

/-- A value together with the Gemini invariant. -/
def JOKG (j : J) : Prop := isJObj j = true ∧ geminiObjOK j = true

/-- Emitter-state invariant for the Gemini emitter. -/
def DefsOKG (st : EmitSt) : Prop := ∀ p ∈ st.defs, JOKG p.2

/-- Accumulator invariant of the Gemini object folds: values satisfy the
invariant and the required names are a subset of the property keys. -/
def AccG (ps : JRec) (rs : List String) : Prop :=
  (∀ p ∈ ps, JOKG p.2) ∧ (∀ n ∈ rs, n ∈ rkeys ps)

/-- Bookkeeping invariant used for the $defs population result: the stack
and the definition keys stay inside the declared type names, without
duplicate definition keys. -/
def StK (doc : TDLDoc) (st : EmitSt) : Prop :=
  (∀ n ∈ st.stack, n ∈ doc.types.map Prod.fst)
    ∧ (∀ n ∈ rkeys st.defs, n ∈ doc.types.map Prod.fst)
    ∧ (rkeys st.defs).Nodup

/-- No duplicates in a string list, computably. -/
def nodupStr : List String → Bool
  | [] => true
  | s :: rest => (!rest.contains s) && nodupStr rest

/-- The names of a property list, in order. -/
def propNames (ps : List PropNode) : List String := ps.map PropNode.name

mutual
/-- The parsed-IR invariant claimed for objects: property names pairwise
distinct, recursively. -/
def distinctProps : TypeNode → Bool
  | .object props sigs _ =>
    nodupStr (propNames props) && distinctPropsProps props && distinctPropsSigs sigs
  | .union ms => distinctPropsList ms
  | .intersection ms => distinctPropsList ms
  | _ => true

/-- distinctProps over member lists. -/
def distinctPropsList : List TypeNode → Bool
  | [] => true
  | m :: ms => distinctProps m && distinctPropsList ms

/-- distinctProps over property types. -/
def distinctPropsProps : List PropNode → Bool
  | [] => true
  | .mk _ t _ _ :: ps => distinctProps t && distinctPropsProps ps

/-- distinctProps over index-signature value types. -/
def distinctPropsSigs : List IndexSigNode → Bool
  | [] => true
  | .mk _ _ t _ _ :: ss => distinctProps t && distinctPropsSigs ss
end

/-- The base name a property label contributes (the leading word taken by
parseLabel). -/
def labelBase (k : String) : String :=
  match k.data with
  | c :: rest => String.mk (c :: (rest.span (fun ch => isAlnum ch || ch = '_')).1)
  | [] => ""

/-- The base names of the non-index-signature labels of a mapping body. -/
def propLabelBases (kvs : List (String × Yaml)) : List String :=
  (kvs.filter (fun kv => !headIs kv.1 '[')).map (fun kv => labelBase kv.1)

mutual
/-- The authoring discipline under which property-name uniqueness holds:
in every mapping of the value, the non-index labels have pairwise distinct
base names. -/
def goodLabels : Yaml → Bool
  | .map kvs => nodupStr (propLabelBases kvs) && goodLabelsKVs kvs
  | .arr xs => goodLabelsList xs
  | _ => true

/-- goodLabels over mapping entries. -/
def goodLabelsKVs : List (String × Yaml) → Bool
  | [] => true
  | (_, v) :: rest => goodLabels v && goodLabelsKVs rest

/-- goodLabels over sequence elements. -/
def goodLabelsList : List Yaml → Bool
  | [] => true
  | x :: xs => goodLabels x && goodLabelsList xs
end

/-- goodLabels of every top-level value of a document. -/
def yamlValuesGood : Yaml → Bool
  | .map kvs => kvs.all (fun kv => goodLabels kv.2)
  | _ => false

/-- distinctProps of every named-type node and symbol type of a document. -/
def docDistinct (doc : TDLDoc) : Bool :=
  doc.types.all (fun p => distinctProps p.2) && doc.symbols.all (fun s => distinctProps s.type)

/-- The empty document (default for result extraction). -/
def emptyDoc : TDLDoc := ⟨[], [], []⟩

/-- Parse-result extraction with an empty default. -/
def getOkDoc : Res TDLDoc → TDLDoc
  | .ok d => d
  | .error _ => emptyDoc

/-- Emission-result extraction with an empty default. -/
def getOkJ : Res J → J
  | .ok j => j
  | .error _ => J.obj []

/-- Whether a node has one of the shapes resolveObject accepts. -/
def objLikeKind : TypeNode → Bool
  | .object _ _ _ => true
  | .typeRef _ => true
  | .intersection _ => true
  | _ => false

/-- Name lookup in a property list (Map.get keyed by name). -/
def propFind (ps : List PropNode) (n : String) : Option PropNode :=
  ps.find? (fun p => p.name = n)

/-- A resolved operand triple: props, index signatures, closed. -/
abbrev Obj3 := List PropNode × List IndexSigNode × Bool

/-- One accumulation step of mergeObjects over a resolved operand. -/
def mergeStep (acc : Obj3) (o : Obj3) : Obj3 :=
  (o.1.foldl propSet acc.1, acc.2.1 ++ o.2.1, acc.2.2 || o.2.2)

/-- The merge of a list of resolved operands (the loop of mergeObjects). -/
def specMergeFold (acc : Obj3) (objs : List Obj3) : Obj3 :=
  objs.foldl mergeStep acc

/-- The operands of a mergeObjects run resolve at descending fuels; this
relation records the resolved operand list (OpenAI resolver). -/
inductive ResolvesToO (doc : TDLDoc) : Nat → List TypeNode → List Obj3 → Prop where
  | nil (fuel : Nat) : ResolvesToO doc fuel [] []
  | cons (fuel : Nat) (p : TypeNode) (ps : List TypeNode) (o : Obj3) (os : List Obj3) :
      resolveObjectOpenAI doc fuel p = .ok o → ResolvesToO doc fuel ps os →
      ResolvesToO doc (fuel + 1) (p :: ps) (o :: os)

/-- The rightmost property named n among the resolved operands (wholesale
rightmost-wins specification). -/
def lastPropOf (objs : List Obj3) (n : String) : Option PropNode :=
  (objs.flatMap (fun o => o.1)).reverse.find? (fun p => p.name = n)

/-- The document of the $defs-ordering counterexample: A is declared first
and references B. -/
def docDefsOrder : TDLDoc :=
  getOkDoc (parseTDL (Yaml.map [("A", Yaml.map [("b", Yaml.str "B")]),
                                ("B", Yaml.map [("x", Yaml.str "string")])]))

/-- The source of the intersection-cycle document. -/
def yamlCycle : Yaml :=
  Yaml.map [("A", Yaml.str "A & B"), ("B", Yaml.map [("x", Yaml.str "string")])]

/-- The intersection-cycle document as IR: A is declared as A & B. -/
def docCycleIR : TDLDoc :=
  ⟨[("A", .intersection [.typeRef "A", .typeRef "B"]),
    ("B", .object [.mk "x" (.primitive .string) false false] [] false)], [], []⟩

/-- The union node of the mixed-literal-union counterexample. -/
def mixedUnion : TypeNode := .union [.numberLit 1, .booleanLit true]

/-- The document of the Gemini required-collision counterexample: two
symbols named foo, the second optional. -/
def docFooCollide : TDLDoc :=
  getOkDoc (parseTDL (Yaml.map [("foo", Yaml.str "string"), ("foo?", Yaml.str "number")]))

/-- The document of the string-signature error-order counterexample: an
optional string-domain signature whose value type fails to emit. -/
def docSigInnerErr : TDLDoc :=
  getOkDoc (parseTDL (Yaml.map [("m", Yaml.map [("[k: string]?", Yaml.str "string & string")])]))

/-- The document of the intersection-override scenario: A and B merged
under a symbol. -/
def docAB : TDLDoc :=
  getOkDoc (parseTDL (Yaml.map
    [("A", Yaml.map [("x", Yaml.str "string"), ("y", Yaml.str "string")]),
     ("B", Yaml.map [("x", Yaml.str "number")]),
     ("out", Yaml.str "A & B")]))

/-- A small witness document: a named type with an optional property and an
optional array symbol referencing it. -/
def docWitness : TDLDoc :=
  getOkDoc (parseTDL (Yaml.map [("T", Yaml.map [("a?", Yaml.str "string")]),
                                ("x?[]", Yaml.str "T")]))

/-- The mapping entries of the heterogeneous-enum-domain counterexample. -/
def hetEnumEntries : List (String × Yaml) := [("[k: 1 | true]", Yaml.str "string")]

/-! Helper lemmas about the record operations. -/

theorem rget_rset_self (r : JRec) (k : String) (v : J) : rget (rset r k v) k = some v := by
  induction r with
  | nil => simp [rset, rget]
  | cons hd tl ih =>
    obtain ⟨k', v'⟩ := hd
    by_cases h : k' = k
    · simp [rset, rget, h]
    · simp [rset, rget, h, ih]

theorem rkeys_rset (r : JRec) (k : String) (v : J) :
    rkeys (rset r k v) = if k ∈ rkeys r then rkeys r else rkeys r ++ [k] := by
  induction r with
  | nil => simp [rset, rkeys]
  | cons hd tl ih =>
    obtain ⟨k', v'⟩ := hd
    by_cases h : k' = k
    · subst h; simp [rset, rkeys]
    · simp only [rset, if_neg h, rkeys, List.map_cons] at ih ⊢
      rw [ih]
      by_cases hm : k ∈ List.map Prod.fst tl
      · rw [if_pos hm, if_pos (List.mem_cons_of_mem _ hm)]
      · rw [if_neg hm, if_neg ?hn, List.cons_append]
        case hn =>
          intro hc
          cases List.mem_cons.mp hc with
          | inl hc => exact h hc.symm
          | inr hc => exact hm hc

theorem mem_rkeys_rset (r : JRec) (k n : String) (v : J) :
    n ∈ rkeys (rset r k v) ↔ n = k ∨ n ∈ rkeys r := by
  rw [rkeys_rset]
  by_cases h : k ∈ rkeys r
  · simp only [if_pos h]
    constructor
    · intro hn; exact Or.inr hn
    · intro hn; cases hn with
      | inl hn => subst hn; exact h
      | inr hn => exact hn
  · simp only [if_neg h, List.mem_append, List.mem_singleton]
    tauto

theorem rset_values (r : JRec) (k : String) (v : J) (P : J → Prop)
    (hr : ∀ p ∈ r, P p.2) (hv : P v) : ∀ p ∈ rset r k v, P p.2 := by
  induction r with
  | nil => simpa [rset] using hv
  | cons hd tl ih =>
    obtain ⟨k', v'⟩ := hd
    by_cases h : k' = k
    · simp only [rset, if_pos h]
      intro p hp
      cases hp with
      | head => exact hv
      | tail _ hp => exact hr p (List.mem_cons_of_mem _ hp)
    · simp only [rset, if_neg h]
      intro p hp
      cases hp with
      | head => exact hr ⟨k', v'⟩ (List.mem_cons_self _ _)
      | tail _ hp =>
        exact ih (fun q hq => hr q (List.mem_cons_of_mem _ hq)) p hp

theorem rkeys_rset_nodup (r : JRec) (k : String) (v : J)
    (h : (rkeys r).Nodup) : (rkeys (rset r k v)).Nodup := by
  rw [rkeys_rset]
  by_cases hm : k ∈ rkeys r
  · simpa [hm] using h
  · simp only [if_neg hm]
    simpa [List.nodup_append, hm] using h

/-! Claim C4: unions of literals. -/

/-- Claim C4 counterexample: the union of the number literal 1 and the
boolean literal true has all members scalar literals of two different JSON
types, yet both emitters produce a bare enum schema with no anyOf key. -/
theorem c4_counterexample :
    emitOpenAI emptyDoc 5 initSt mixedUnion =
      .ok (J.obj [("enum", J.arr [J.num 1, J.bool true])], initSt)
    ∧ emitGemini emptyDoc 5 initSt mixedUnion =
      .ok (J.obj [("enum", J.arr [J.num 1, J.bool true])], initSt)
    ∧ (∀ m ∈ [TypeNode.numberLit 1, TypeNode.booleanLit true], isScalarLiteral m = true)
    ∧ jField (J.obj [("enum", J.arr [J.num 1, J.bool true])]) "anyOf" = none
    ∧ litKind (Lit.num 1) ≠ litKind (Lit.bool true) := by
  refine ⟨rfl, rfl, ?_, rfl, by decide⟩
  intro m hm
  cases hm with
  | head => rfl
  | tail _ hm => cases hm with
    | head => rfl
    | tail _ hm => cases hm

/-- Claim C4 (amended): a union all of whose members are scalar literals
compresses to an enum schema listing the literal values in member order,
carrying a type field exactly when all literals share one JSON type; a union
with at least one non-literal member emits the anyOf of the member schemas
(in both emitters). -/
theorem c4_union_lowering :
    (∀ (doc : TDLDoc) (fuel : Nat) (st : EmitSt) (ms : List TypeNode),
      (∀ m ∈ ms, isScalarLiteral m = true) →
      emitOpenAI doc (fuel+1) st (.union ms) =
        .ok ((match unionLiteralType (ms.filterMap litValue?) with
              | some t => J.obj [("enum", J.arr ((ms.filterMap litValue?).map litToJ)), ("type", J.str t)]
              | none => J.obj [("enum", J.arr ((ms.filterMap litValue?).map litToJ))]), st)
      ∧ emitGemini doc (fuel+1) st (.union ms) =
        .ok ((match unionLiteralType (ms.filterMap litValue?) with
              | some t => J.obj [("enum", J.arr ((ms.filterMap litValue?).map litToJ)), ("type", J.str t)]
              | none => J.obj [("enum", J.arr ((ms.filterMap litValue?).map litToJ))]), st))
    ∧ (∀ (doc : TDLDoc) (fuel : Nat) (st : EmitSt) (ms : List TypeNode),
      (∃ m ∈ ms, isScalarLiteral m = false) →
      emitOpenAI doc (fuel+1) st (.union ms) =
        (match emitListOpenAI doc fuel st ms with
         | .error e => .error e
         | .ok (js, st') => .ok (J.obj [("anyOf", J.arr js)], st'))
      ∧ emitGemini doc (fuel+1) st (.union ms) =
        (match emitListGemini doc fuel st ms with
         | .error e => .error e
         | .ok (js, st') => .ok (J.obj [("anyOf", J.arr js)], st'))) := by
  constructor
  · intro doc fuel st ms hall
    have hguard : ms.all isScalarLiteral = true := List.all_eq_true.mpr hall
    constructor
    · simp only [emitOpenAI, hguard, if_pos]
      cases unionLiteralType (ms.filterMap litValue?) <;> rfl
    · simp only [emitGemini, hguard, if_pos]
      cases unionLiteralType (ms.filterMap litValue?) <;> rfl
  · intro doc fuel st ms hex
    have hguard : ms.all isScalarLiteral = false := by
      cases h : ms.all isScalarLiteral
      · rfl
      · obtain ⟨m, hm, hfalse⟩ := hex
        have := List.all_eq_true.mp h m hm
        rw [this] at hfalse
        exact absurd hfalse (by decide)
    constructor
    · simp only [emitOpenAI, hguard]
      cases h : emitListOpenAI doc fuel st ms with
      | error e => simp
      | ok p => obtain ⟨js, st'⟩ := p; simp
    · simp only [emitGemini, hguard]
      cases h : emitListGemini doc fuel st ms with
      | error e => simp
      | ok p => obtain ⟨js, st'⟩ := p; simp

/-- Claim C4 witness: the amended lowering applied to the literal union of
the string values a and b. -/
theorem c4_union_lowering_witness :
    emitOpenAI emptyDoc 5 initSt (.union [.stringLit "a", .stringLit "b"]) =
      .ok (J.obj [("enum", J.arr [J.str "a", J.str "b"]), ("type", J.str "string")], initSt) := by
  have h := (c4_union_lowering.1 emptyDoc 4 initSt [.stringLit "a", .stringLit "b"]
    (by intro m hm; cases hm with
        | head => rfl
        | tail _ hm => cases hm with
          | head => rfl
          | tail _ hm => cases hm)).1
  exact h

/-! Claim C10: symbol values versus type-definition values. -/

/-- Claim C10 counterexample: the YAML number 42 parses in symbol position
(coerced through String(v) to the number literal 42) but fails in
type-definition position with the scalar-or-object shape error, so the two
positions do not parse every value identically. -/
theorem c10_counterexample :
    parseTDL (Yaml.map [("foo", Yaml.num 42)]) =
      .ok ⟨[], [⟨"foo", .numberLit 42, false, false⟩], []⟩
    ∧ parseTDL (Yaml.map [("Foo", Yaml.num 42)]) =
      .error (.authoring "Type Foo must be a scalar type expression or an inline object") := by
  exact ⟨rfl, rfl⟩

/-- Claim C10 (amended): when the right-hand-side value is a YAML mapping
or a YAML string, symbol position and type-definition position parse it by
the same function parseVal and so produce the same node or fail with the
same error; other YAML scalars fail in type position but are coerced to
strings and parsed in symbol position. -/
theorem c10_positions_agree (v : Yaml) (h : v.isMap = true ∨ v.isStr = true) :
    parseTDL (Yaml.map [("Foo", v)]) =
      (parseVal v).map (fun node => (⟨[("Foo", node)], [], []⟩ : TDLDoc))
    ∧ parseTDL (Yaml.map [("foo", v)]) =
      (parseVal v).map (fun node => (⟨[], [⟨"foo", node, false, false⟩], []⟩ : TDLDoc)) := by
  have hcond : ¬(¬Yaml.isMap v = true ∧ ¬Yaml.isStr v = true) := by
    intro hc
    cases h with
    | inl h => exact hc.1 h
    | inr h => exact hc.2 h
  constructor
  · show parseTDLGo [("Foo", v)] [] [] [] = _
    rw [parseTDLGo]
    rw [if_neg (by decide), if_pos (by decide)]
    rw [show extendsMatch "Foo" = none from by decide]
    simp only
    rw [if_neg hcond]
    cases hpv : parseVal v with
    | error e => simp [Except.map]
    | ok node => simp [Except.map, parseTDLGo, typesSet, show jsTrim "Foo" = "Foo" from rfl]
  · show parseTDLGo [("foo", v)] [] [] [] = _
    rw [parseTDLGo]
    rw [if_neg (by decide), if_neg (by decide), if_pos (by decide)]
    rw [show parseLabel "foo" = .ok ⟨"foo", false, false⟩ from by rfl]
    simp only
    cases hpv : parseVal v with
    | error e => simp [Except.map]
    | ok node => simp [Except.map, parseTDLGo]

/-- Claim C10 witness: the amended agreement applied to the string value
string, which parses to the string primitive in both positions. -/
theorem c10_positions_agree_witness :
    parseTDL (Yaml.map [("Foo", Yaml.str "string")]) =
      (parseVal (Yaml.str "string")).map (fun node => (⟨[("Foo", node)], [], []⟩ : TDLDoc)) := by
  exact (c10_positions_agree (Yaml.str "string") (Or.inr rfl)).1

/-! Claim C3: cycle safety. -/

theorem resolveACycleO :
    ∀ f, resolveObjectOpenAI docCycleIR f (.typeRef "A") = .error .fuelOut := by
  intro f
  induction f using Nat.strong_induction_on with
  | _ f ih =>
    rcases f with _ | _ | _ | _ | g
    · rfl
    · rfl
    · rfl
    · rfl
    · have h := ih g (by omega)
      have s1 : mergePartsOpenAI docCycleIR (g+1) [.typeRef "A", .typeRef "B"] [] [] false
          = (match resolveObjectOpenAI docCycleIR g (.typeRef "A") with
             | .error e => .error e
             | .ok (oprops, osigs, oclosed) =>
                 mergePartsOpenAI docCycleIR g [.typeRef "B"]
                   (oprops.foldl propSet []) ([] ++ osigs) (false || oclosed)) := rfl
      have e1 : mergePartsOpenAI docCycleIR (g+1) [.typeRef "A", .typeRef "B"] [] [] false
          = .error .fuelOut := by rw [s1, h]
      have s2 : mergeObjectsOpenAI docCycleIR (g+2) [.typeRef "A", .typeRef "B"]
          = mergePartsOpenAI docCycleIR (g+1) [.typeRef "A", .typeRef "B"] [] [] false := rfl
      have e2 : mergeObjectsOpenAI docCycleIR (g+2) [.typeRef "A", .typeRef "B"]
          = .error .fuelOut := by rw [s2, e1]
      show resolveObjectOpenAI docCycleIR (g+4) (.typeRef "A") = .error .fuelOut
      have s3 : resolveObjectOpenAI docCycleIR (g+4) (.typeRef "A")
          = resolveObjectOpenAI docCycleIR (g+3) (.intersection [.typeRef "A", .typeRef "B"]) := rfl
      have s4 : resolveObjectOpenAI docCycleIR (g+3) (.intersection [.typeRef "A", .typeRef "B"])
          = mergeObjectsOpenAI docCycleIR (g+2) [.typeRef "A", .typeRef "B"] := rfl
      rw [s3, s4, e2]

theorem resolveACycleG :
    ∀ f, resolveObjectGemini docCycleIR f (.typeRef "A") = .error .fuelOut := by
  intro f
  induction f using Nat.strong_induction_on with
  | _ f ih =>
    rcases f with _ | _ | _ | _ | g
    · rfl
    · rfl
    · rfl
    · rfl
    · have h := ih g (by omega)
      have s1 : mergePartsGemini docCycleIR (g+1) [.typeRef "A", .typeRef "B"] [] [] false
          = (match resolveObjectGemini docCycleIR g (.typeRef "A") with
             | .error e => .error e
             | .ok (oprops, osigs, oclosed) =>
                 mergePartsGemini docCycleIR g [.typeRef "B"]
                   (oprops.foldl propSet []) ([] ++ osigs) (false || oclosed)) := rfl
      have e1 : mergePartsGemini docCycleIR (g+1) [.typeRef "A", .typeRef "B"] [] [] false
          = .error .fuelOut := by rw [s1, h]
      have s2 : mergeObjectsGemini docCycleIR (g+2) [.typeRef "A", .typeRef "B"]
          = mergePartsGemini docCycleIR (g+1) [.typeRef "A", .typeRef "B"] [] [] false := rfl
      have e2 : mergeObjectsGemini docCycleIR (g+2) [.typeRef "A", .typeRef "B"]
          = .error .fuelOut := by rw [s2, e1]
      show resolveObjectGemini docCycleIR (g+4) (.typeRef "A") = .error .fuelOut
      have s3 : resolveObjectGemini docCycleIR (g+4) (.typeRef "A")
          = resolveObjectGemini docCycleIR (g+3) (.intersection [.typeRef "A", .typeRef "B"]) := rfl
      have s4 : resolveObjectGemini docCycleIR (g+3) (.intersection [.typeRef "A", .typeRef "B"])
          = mergeObjectsGemini docCycleIR (g+2) [.typeRef "A", .typeRef "B"] := rfl
      rw [s3, s4, e2]

/-- Claim C3: the document declaring A as the intersection A and B (a
recursive named type through an intersection) parses, but schema emission
never terminates on it in the source (resolveObject recurses through the
named-type table without consulting the visitation stack); in the fuel
model both emitters return fuel exhaustion at every fuel, never a result
and never an authoring error. -/
theorem c3_cycle_divergence :
    parseTDL yamlCycle = .ok docCycleIR
    ∧ (∀ fuel, generateOpenAISchema docCycleIR fuel = .error .fuelOut)
    ∧ (∀ fuel, generateGeminiSchema docCycleIR fuel = .error .fuelOut) := by
  refine ⟨rfl, ?_, ?_⟩
  · intro fuel
    rcases fuel with _ | _ | _ | _ | g
    · rfl
    · rfl
    · rfl
    · rfl
    · have e3 : emitOpenAI docCycleIR (g+3) ⟨[], ["A"]⟩ (.intersection [.typeRef "A", .typeRef "B"])
          = .error .fuelOut := by
        have s3 : emitOpenAI docCycleIR (g+3) ⟨[], ["A"]⟩ (.intersection [.typeRef "A", .typeRef "B"])
            = (match mergeObjectsOpenAI docCycleIR (g+2) [.typeRef "A", .typeRef "B"] with
               | .error e => .error e
               | .ok (props, sigs, _) => emitObjectOpenAI docCycleIR (g+2) ⟨[], ["A"]⟩ sigs props) := rfl
        have s2 : mergeObjectsOpenAI docCycleIR (g+2) [.typeRef "A", .typeRef "B"]
            = mergePartsOpenAI docCycleIR (g+1) [.typeRef "A", .typeRef "B"] [] [] false := rfl
        have s1 : mergePartsOpenAI docCycleIR (g+1) [.typeRef "A", .typeRef "B"] [] [] false
            = (match resolveObjectOpenAI docCycleIR g (.typeRef "A") with
               | .error e => .error e
               | .ok (oprops, osigs, oclosed) =>
                   mergePartsOpenAI docCycleIR g [.typeRef "B"]
                     (oprops.foldl propSet []) ([] ++ osigs) (false || oclosed)) := rfl
        rw [s3, s2, s1, resolveACycleO g]
      have e4 : ensureDefOpenAI docCycleIR (g+4) initSt "A" = .error .fuelOut := by
        have s4 : ensureDefOpenAI docCycleIR (g+4) initSt "A"
            = (match emitOpenAI docCycleIR (g+3) ⟨[], ["A"]⟩ (.intersection [.typeRef "A", .typeRef "B"]) with
               | .error e => .error e
               | .ok (schema, st') =>
                   .ok { defs := rset st'.defs "A" schema, stack := st'.stack.erase "A" }) := rfl
        rw [s4, e3]
      have einit : initDefsOpenAI docCycleIR (g+4) initSt docCycleIR.types = .error .fuelOut := by
        have s5 : initDefsOpenAI docCycleIR (g+4) initSt docCycleIR.types
            = (match ensureDefOpenAI docCycleIR (g+4) initSt "A" with
               | .error e => .error e
               | .ok st' => initDefsOpenAI docCycleIR (g+4) st'
                   [("B", .object [.mk "x" (.primitive .string) false false] [] false)]) := rfl
        rw [s5, e4]
      have s6 : generateOpenAISchema docCycleIR (g+4)
          = (match initDefsOpenAI docCycleIR (g+4) initSt docCycleIR.types with
             | .error e => .error e
             | .ok st =>
               match rootSymsOpenAI docCycleIR (g+4) st docCycleIR.symbols [] [] with
               | .error e => .error e
               | .ok (properties, required, st') =>
                 .ok (J.obj [("type", J.str "object"), ("properties", J.obj properties),
                             ("required", J.arr (required.map J.str)),
                             ("additionalProperties", J.bool false),
                             ("$defs", J.obj st'.defs)])) := rfl
      rw [s6, einit]
  · intro fuel
    rcases fuel with _ | _ | _ | _ | g
    · rfl
    · rfl
    · rfl
    · rfl
    · have e3 : emitGemini docCycleIR (g+3) ⟨[], ["A"]⟩ (.intersection [.typeRef "A", .typeRef "B"])
          = .error .fuelOut := by
        have s3 : emitGemini docCycleIR (g+3) ⟨[], ["A"]⟩ (.intersection [.typeRef "A", .typeRef "B"])
            = (match mergeObjectsGemini docCycleIR (g+2) [.typeRef "A", .typeRef "B"] with
               | .error e => .error e
               | .ok (props, sigs, closed) => emitObjectGemini docCycleIR (g+2) ⟨[], ["A"]⟩ sigs props closed) := rfl
        have s2 : mergeObjectsGemini docCycleIR (g+2) [.typeRef "A", .typeRef "B"]
            = mergePartsGemini docCycleIR (g+1) [.typeRef "A", .typeRef "B"] [] [] false := rfl
        have s1 : mergePartsGemini docCycleIR (g+1) [.typeRef "A", .typeRef "B"] [] [] false
            = (match resolveObjectGemini docCycleIR g (.typeRef "A") with
               | .error e => .error e
               | .ok (oprops, osigs, oclosed) =>
                   mergePartsGemini docCycleIR g [.typeRef "B"]
                     (oprops.foldl propSet []) ([] ++ osigs) (false || oclosed)) := rfl
        rw [s3, s2, s1, resolveACycleG g]
      have e4 : ensureDefGemini docCycleIR (g+4) initSt "A" = .error .fuelOut := by
        have s4 : ensureDefGemini docCycleIR (g+4) initSt "A"
            = (match emitGemini docCycleIR (g+3) ⟨[], ["A"]⟩ (.intersection [.typeRef "A", .typeRef "B"]) with
               | .error e => .error e
               | .ok (schema, st') =>
                   .ok { defs := rset st'.defs "A" schema, stack := st'.stack.erase "A" }) := rfl
        rw [s4, e3]
      have einit : initDefsGemini docCycleIR (g+4) initSt docCycleIR.types = .error .fuelOut := by
        have s5 : initDefsGemini docCycleIR (g+4) initSt docCycleIR.types
            = (match ensureDefGemini docCycleIR (g+4) initSt "A" with
               | .error e => .error e
               | .ok st' => initDefsGemini docCycleIR (g+4) st'
                   [("B", .object [.mk "x" (.primitive .string) false false] [] false)]) := rfl
        rw [s5, e4]
      have s6 : generateGeminiSchema docCycleIR (g+4)
          = (match initDefsGemini docCycleIR (g+4) initSt docCycleIR.types with
             | .error e => .error e
             | .ok st =>
               match rootSymsGemini docCycleIR (g+4) st docCycleIR.symbols [] [] with
               | .error e => .error e
               | .ok (properties, required, st') =>
                 .ok (J.obj [("type", J.str "object"), ("properties", J.obj properties),
                             ("required", J.arr (required.map J.str)),
                             ("additionalProperties", J.bool false),
                             ("$defs", J.obj st'.defs)])) := rfl
      rw [s6, einit]

/-! Claim C5: OpenAI optionality encoding. -/

theorem strExtract_map (rs : List String) :
    (rs.map J.str).filterMap (fun x => match x with | J.str s => some s | _ => none) = rs := by
  induction rs with
  | nil => rfl
  | cons r rest ih => simp [ih]

theorem rootSymsO_req (doc : TDLDoc) :
    ∀ fuel (syms : List SymbolDef) st properties required ps rs st2,
      rootSymsOpenAI doc fuel st syms properties required = .ok (ps, rs, st2) →
      (∀ n ∈ required, n ∈ rs) ∧ (∀ sym ∈ syms, sym.name ∈ rs) := by
  intro fuel syms
  induction syms generalizing fuel with
  | nil =>
    intro st properties required ps rs st2 h
    rw [rootSymsOpenAI] at h
    cases h
    exact ⟨fun n hn => hn, fun sym hsym => absurd hsym (List.not_mem_nil _)⟩
  | cons sym rest ih =>
    intro st properties required ps rs st2 h
    rw [rootSymsOpenAI] at h
    cases he : emitOpenAI doc fuel st sym.type with
    | error e => rw [he] at h; cases h
    | ok p =>
      obtain ⟨base, st'⟩ := p
      rw [he] at h
      simp only at h
      have := ih fuel st' _ _ ps rs st2 h
      refine ⟨fun n hn => this.1 n (List.mem_append_left _ hn), ?_⟩
      intro s hs
      cases hs with
      | head => exact this.1 sym.name (List.mem_append_right _ (List.mem_singleton.mpr rfl))
      | tail _ hs => exact this.2 s hs

theorem emitPropsO_req (doc : TDLDoc) :
    ∀ fuel (props : List PropNode) st properties required ps rs st2,
      emitPropsOpenAI doc fuel st props properties required = .ok (ps, rs, st2) →
      (∀ n ∈ required, n ∈ rs) ∧ (∀ p ∈ props, p.name ∈ rs) := by
  intro fuel
  induction fuel with
  | zero => intro props st properties required ps rs st2 h; cases h
  | succ f ih =>
    intro props st properties required ps rs st2 h
    cases props with
    | nil =>
      rw [emitPropsOpenAI] at h
      cases h
      exact ⟨fun n hn => hn, fun p hp => absurd hp (List.not_mem_nil _)⟩
    | cons p rest =>
      rw [emitPropsOpenAI] at h
      cases he : emitOpenAI doc f st p.type with
      | error e => rw [he] at h; cases h
      | ok pr =>
        obtain ⟨base, st'⟩ := pr
        rw [he] at h
        simp only at h
        have := ih rest st' _ _ ps rs st2 h
        refine ⟨fun n hn => this.1 n (List.mem_append_left _ hn), ?_⟩
        intro pp hpp
        cases hpp with
        | head => exact this.1 p.name (List.mem_append_right _ (List.mem_singleton.mpr rfl))
        | tail _ hpp => exact this.2 pp hpp

/-- Claim C5: in the OpenAI output every symbol (optional ones included) is
listed in required, every declared property of an emitted object is listed
in that object schema required array, and makeNullable follows the
three-case rule: a string type becomes the two-element array (and doing it
twice changes nothing more), an array type gains null exactly when absent,
a schema without a type field is wrapped in anyOf with a null schema; in
particular an optional array symbol schema is the nullable array schema. -/
theorem c5_openai_optional_nullable :
    (∀ (doc : TDLDoc) (fuel : Nat) (root : J), generateOpenAISchema doc fuel = .ok root →
      ∀ sym ∈ doc.symbols, sym.name ∈ getRequired root)
    ∧ (∀ (doc : TDLDoc) (fuel : Nat) (st : EmitSt) (sigs : List IndexSigNode)
        (props : List PropNode) (j : J) (st' : EmitSt),
        emitObjectOpenAI doc fuel st sigs props = .ok (j, st') →
        ∀ p ∈ props, p.name ∈ getRequired j)
    ∧ (∀ (fs : JRec) (t : String), rget fs "type" = some (J.str t) →
        makeNullable (J.obj fs) = J.obj (rset fs "type" (J.arr [J.str t, J.str "null"]))
        ∧ makeNullable (makeNullable (J.obj fs)) = makeNullable (J.obj fs))
    ∧ (∀ (fs : JRec) (ts : List J), rget fs "type" = some (J.arr ts) →
        makeNullable (J.obj fs) =
          (if ts.any (fun x => match x with | J.str s => s = "null" | _ => false)
           then J.obj fs
           else J.obj (rset fs "type" (J.arr (ts ++ [J.str "null"])))))
    ∧ (∀ fs : JRec, rget fs "type" = none →
        makeNullable (J.obj fs) =
          J.obj [("anyOf", J.arr [J.obj fs, J.obj [("type", J.str "null")]])])
    ∧ (∀ base : J, makeNullable (arrayOf base) =
        J.obj [("type", J.arr [J.str "array", J.str "null"]), ("items", base)]) := by
  refine ⟨?_, ?_, ?_, ?_, ?_, ?_⟩
  · intro doc fuel root hgen sym hsym
    rw [generateOpenAISchema] at hgen
    cases h1 : initDefsOpenAI doc fuel initSt doc.types with
    | error e => rw [h1] at hgen; cases hgen
    | ok st =>
      rw [h1] at hgen
      simp only at hgen
      cases h2 : rootSymsOpenAI doc fuel st doc.symbols [] [] with
      | error e => rw [h2] at hgen; cases hgen
      | ok out =>
        obtain ⟨ps, rs, st2⟩ := out
        rw [h2] at hgen
        simp only [Except.ok.injEq] at hgen
        have hmem := (rootSymsO_req doc fuel doc.symbols st [] [] ps rs st2 h2).2 sym hsym
        have hr : getRequired (J.obj [("type", J.str "object"), ("properties", J.obj ps),
            ("required", J.arr (rs.map J.str)), ("additionalProperties", J.bool false),
            ("$defs", J.obj st2.defs)]) = rs := by
          show (rs.map J.str).filterMap _ = rs
          exact strExtract_map rs
        rw [← hgen, hr]
        exact hmem
  · intro doc fuel st sigs props j st' hobj p hp
    cases fuel with
    | zero => cases hobj
    | succ f =>
      rw [emitObjectOpenAI] at hobj
      cases h1 : emitSigsOpenAI doc f st sigs [] [] with
      | error e => rw [h1] at hobj; cases hobj
      | ok out1 =>
        obtain ⟨properties1, required1, st1⟩ := out1
        rw [h1] at hobj
        simp only at hobj
        cases h2 : emitPropsOpenAI doc f st1 props properties1 required1 with
        | error e => rw [h2] at hobj; cases hobj
        | ok out2 =>
          obtain ⟨properties2, required2, st2⟩ := out2
          rw [h2] at hobj
          simp only [Except.ok.injEq, Prod.mk.injEq] at hobj
          obtain ⟨hj, hst⟩ := hobj
          have hmem := (emitPropsO_req doc f props st1 properties1 required1 properties2 required2 st2 h2).2 p hp
          have hr : getRequired (J.obj [("type", J.str "object"), ("properties", J.obj properties2),
              ("required", J.arr (required2.map J.str)), ("additionalProperties", J.bool false)]) = required2 := by
            show (required2.map J.str).filterMap _ = required2
            exact strExtract_map required2
          rw [← hj, hr]
          exact hmem
  · intro fs t h
    constructor
    · simp [makeNullable, h]
    · have h1 : makeNullable (J.obj fs) = J.obj (rset fs "type" (J.arr [J.str t, J.str "null"])) := by
        simp [makeNullable, h]
      have h2 := rget_rset_self fs "type" (J.arr [J.str t, J.str "null"])
      rw [h1]
      simp [makeNullable, h2]
  · intro fs ts h
    simp only [makeNullable, h]
  · intro fs h
    simp [makeNullable, h]
  · intro base
    rfl

/-- Claim C5 witness: the optional array symbol x of the witness document
is listed in required, and the nullable array schema has the claimed
two-element type. -/
theorem c5_openai_optional_nullable_witness :
    (SymbolDef.name ⟨"x", .typeRef "T", true, true⟩ ∈
      getRequired (getOkJ (generateOpenAISchema docWitness 20)))
    ∧ makeNullable (arrayOf (J.obj [("type", J.str "string")])) =
        J.obj [("type", J.arr [J.str "array", J.str "null"]),
               ("items", J.obj [("type", J.str "string")])] := by
  constructor
  · exact c5_openai_optional_nullable.1 docWitness 20
      (getOkJ (generateOpenAISchema docWitness 20)) rfl
      ⟨"x", .typeRef "T", true, true⟩ (by
        show _ ∈ docWitness.symbols
        rw [show docWitness.symbols = [⟨"x", .typeRef "T", true, true⟩] from rfl]
        exact List.mem_singleton.mpr rfl)
  · exact c5_openai_optional_nullable.2.2.2.2.2 (J.obj [("type", J.str "string")])

/-! Claim C8: intersection merging. -/

theorem propFind_propSet (acc : List PropNode) (p : PropNode) (n : String) :
    propFind (propSet acc p) n = if p.name = n then some p else propFind acc n := by
  induction acc with
  | nil =>
    simp only [propSet, propFind, List.find?_cons, List.find?_nil]
    by_cases h : p.name = n
    · simp [h]
    · simp [h]
  | cons q rest ih =>
    by_cases hqp : q.name = p.name
    · rw [propSet, if_pos hqp]
      simp only [propFind, List.find?_cons]
      by_cases h : p.name = n
      · simp [h]
      · have hq : ¬q.name = n := fun hc => h (hqp.symm.trans hc)
        simp [h, hq]
    · rw [propSet, if_neg hqp]
      simp only [propFind, List.find?_cons]
      by_cases hq : q.name = n
      · have hp : ¬p.name = n := fun hc => hqp (hq.trans hc.symm)
        simp [hq, hp]
      · have hdq : (decide (q.name = n)) = false := decide_eq_false hq
        simp only [hdq]
        exact ih

theorem propFind_foldl (ops : List PropNode) (acc : List PropNode) (n : String) :
    propFind (ops.foldl propSet acc) n =
      (ops.reverse.find? (fun p => p.name = n)).or (propFind acc n) := by
  induction ops generalizing acc with
  | nil => simp [propFind]
  | cons p rest ih =>
    simp only [List.foldl_cons, List.reverse_cons]
    rw [ih (propSet acc p), List.find?_append, Option.or_assoc]
    congr 1
    rw [propFind_propSet]
    by_cases h : p.name = n
    · simp [List.find?_cons, h, Option.or]
    · simp [List.find?_cons, h, Option.or]

theorem mergePartsO_spec (doc : TDLDoc) :
    ∀ fuel (parts : List TypeNode) aP aS aC out,
      mergePartsOpenAI doc fuel parts aP aS aC = .ok out →
      ∃ objs, ResolvesToO doc fuel parts objs ∧ out = specMergeFold (aP, aS, aC) objs := by
  intro fuel
  induction fuel with
  | zero => intro parts aP aS aC out h; cases h
  | succ f ih =>
    intro parts aP aS aC out h
    cases parts with
    | nil =>
      rw [mergePartsOpenAI] at h
      cases h
      exact ⟨[], ResolvesToO.nil _, rfl⟩
    | cons p rest =>
      rw [mergePartsOpenAI] at h
      cases hres : resolveObjectOpenAI doc f p with
      | error e => rw [hres] at h; cases h
      | ok o =>
        obtain ⟨oprops, osigs, oclosed⟩ := o
        rw [hres] at h
        simp only at h
        obtain ⟨objs, hchain, hout⟩ := ih rest _ _ _ out h
        refine ⟨(oprops, osigs, oclosed) :: objs, ?_, ?_⟩
        · exact ResolvesToO.cons f p rest _ objs hres hchain
        · rw [hout]
          rfl

theorem specMergeFold_closed (objs : List Obj3) (acc : Obj3) :
    (specMergeFold acc objs).2.2 = (acc.2.2 || objs.any (fun o => o.2.2)) := by
  induction objs generalizing acc with
  | nil => simp [specMergeFold]
  | cons o rest ih =>
    show (specMergeFold (mergeStep acc o) rest).2.2 = _
    rw [ih]
    simp [mergeStep, Bool.or_assoc]

theorem specMergeFold_find (objs : List Obj3) (acc : Obj3) (n : String) :
    propFind (specMergeFold acc objs).1 n = (lastPropOf objs n).or (propFind acc.1 n) := by
  induction objs generalizing acc with
  | nil => simp [specMergeFold, lastPropOf, propFind]
  | cons o rest ih =>
    show propFind (specMergeFold (mergeStep acc o) rest).1 n = _
    rw [ih]
    have h2 : propFind (mergeStep acc o).1 n =
        (o.1.reverse.find? (fun p => p.name = n)).or (propFind acc.1 n) :=
      propFind_foldl o.1 acc.1 n
    rw [h2]
    have h1 : lastPropOf (o :: rest) n =
        (lastPropOf rest n).or (o.1.reverse.find? (fun p => p.name = n)) := by
      simp only [lastPropOf, List.flatMap_cons, List.reverse_append, List.find?_append]
    rw [h1, Option.or_assoc]

/-- Claim C8: an intersection emission merges its resolved operands into a
single object whose closed flag is the disjunction of the operand closed
flags and whose property for each name is the rightmost operand property of
that name (wholesale); operands resolve as themselves (objects), through
the named-type table (type references), by recursive merging
(intersections), and anything else raises the object-like error; in the
A and B scenario the merged object lowers x from number and keeps y. -/
theorem c8_intersection_merge :
    (∀ (doc : TDLDoc) (fuel : Nat) (parts : List TypeNode) (out : Obj3),
      mergeObjectsOpenAI doc (fuel+1) parts = .ok out →
      ∃ objs, ResolvesToO doc fuel parts objs
        ∧ out = specMergeFold ([], [], false) objs
        ∧ out.2.2 = objs.any (fun o => o.2.2)
        ∧ (∀ n, propFind out.1 n = lastPropOf objs n))
    ∧ (∀ (doc : TDLDoc) (fuel : Nat) (node : TypeNode), objLikeKind node = false →
        resolveObjectOpenAI doc (fuel+1) node =
          .error (.authoring "Intersection operands must be object-like"))
    ∧ (∀ (doc : TDLDoc) (fuel : Nat) (name : String),
        resolveObjectOpenAI doc (fuel+1) (.typeRef name) =
          (match lookupType doc name with
           | none => .error (.authoring ("Unknown type: " ++ name))
           | some d => resolveObjectOpenAI doc fuel d))
    ∧ (∀ (doc : TDLDoc) (fuel : Nat) (p : List PropNode) (s : List IndexSigNode) (c : Bool),
        resolveObjectOpenAI doc (fuel+1) (.object p s c) = .ok (p, s, c))
    ∧ jFieldD (jFieldD (jFieldD (getOkJ (generateOpenAISchema docAB 30)) "properties") "out") "properties"
        = J.obj [("x", J.obj [("type", J.str "number")]), ("y", J.obj [("type", J.str "string")])]
    ∧ resolveObjectOpenAI docAB 5 (.typeRef "A")
        = .ok ([.mk "x" (.primitive .string) false false, .mk "y" (.primitive .string) false false],
               [], false) := by
  refine ⟨?_, ?_, ?_, ?_, rfl, rfl⟩
  · intro doc fuel parts out h
    rw [mergeObjectsOpenAI] at h
    obtain ⟨objs, hchain, hout⟩ := mergePartsO_spec doc fuel parts [] [] false out h
    refine ⟨objs, hchain, hout, ?_, ?_⟩
    · rw [hout, specMergeFold_closed]
      rfl
    · intro n
      rw [hout, specMergeFold_find]
      show (lastPropOf objs n).or (propFind [] n) = _
      cases lastPropOf objs n <;> rfl
  · intro doc fuel node h
    cases node with
    | primitive p => rfl
    | stringLit v => rfl
    | numberLit v => rfl
    | booleanLit v => rfl
    | union ms => rfl
    | typeRef nm => exact absurd h (by simp [objLikeKind])
    | intersection ms => exact absurd h (by simp [objLikeKind])
    | object p s c => exact absurd h (by simp [objLikeKind])
  · intro doc fuel name
    rfl
  · intro doc fuel p s c
    rfl

/-- Claim C8 witness: the merge characterization applied to the concrete
intersection of the named types A and B of the override scenario. -/
theorem c8_intersection_merge_witness :
    ∃ objs, ResolvesToO docAB 9 [.typeRef "A", .typeRef "B"] objs
      ∧ ([PropNode.mk "x" (.primitive .number) false false,
          PropNode.mk "y" (.primitive .string) false false], ([] : List IndexSigNode), false)
          = specMergeFold ([], [], false) objs
      ∧ (([PropNode.mk "x" (.primitive .number) false false,
           PropNode.mk "y" (.primitive .string) false false], ([] : List IndexSigNode), false) : Obj3).2.2
          = objs.any (fun o => o.2.2)
      ∧ (∀ n, propFind ([PropNode.mk "x" (.primitive .number) false false,
           PropNode.mk "y" (.primitive .string) false false] : List PropNode) n = lastPropOf objs n) := by
  exact c8_intersection_merge.1 docAB 9 [.typeRef "A", .typeRef "B"]
    ([.mk "x" (.primitive .number) false false, .mk "y" (.primitive .string) false false], [], false)
    rfl

/-! Claim C7: string-domain index signatures. -/

theorem emitObjectO_shape (doc : TDLDoc) (fuel : Nat) (st : EmitSt) (sigs : List IndexSigNode)
    (props : List PropNode) (j : J) (st' : EmitSt)
    (h : emitObjectOpenAI doc fuel st sigs props = .ok (j, st')) :
    ∃ (ps : JRec) (rs : List String), j = J.obj [("type", J.str "object"), ("properties", J.obj ps),
      ("required", J.arr (rs.map J.str)), ("additionalProperties", J.bool false)] := by
  cases fuel with
  | zero => cases h
  | succ f =>
    rw [emitObjectOpenAI] at h
    cases h1 : emitSigsOpenAI doc f st sigs [] [] with
    | error e => rw [h1] at h; cases h
    | ok out1 =>
      obtain ⟨properties1, required1, st1⟩ := out1
      rw [h1] at h
      simp only at h
      cases h2 : emitPropsOpenAI doc f st1 props properties1 required1 with
      | error e => rw [h2] at h; cases h
      | ok out2 =>
        obtain ⟨properties2, required2, st2⟩ := out2
        rw [h2] at h
        simp only [Except.ok.injEq, Prod.mk.injEq] at h
        exact ⟨properties2, required2, h.1.symm⟩

theorem emitO_never_classify (doc : TDLDoc) :
    ∀ fuel st v s st', emitOpenAI doc fuel st v = .ok (s, st') → isNeverSchema s = true →
      v = .primitive .never := by
  intro fuel st v s st' h hns
  cases fuel with
  | zero => cases h
  | succ f =>
    cases v with
    | primitive p =>
      cases p with
      | never => rfl
      | string => rw [show emitOpenAI doc (f+1) st (.primitive .string)
          = .ok (J.obj [("type", J.str "string")], st) from rfl] at h
                  cases h; exact Bool.noConfusion hns
      | number => rw [show emitOpenAI doc (f+1) st (.primitive .number)
          = .ok (J.obj [("type", J.str "number")], st) from rfl] at h
                  cases h; exact Bool.noConfusion hns
      | boolean => rw [show emitOpenAI doc (f+1) st (.primitive .boolean)
          = .ok (J.obj [("type", J.str "boolean")], st) from rfl] at h
                   cases h; exact Bool.noConfusion hns
      | typedoc => rw [show emitOpenAI doc (f+1) st (.primitive .typedoc)
          = .ok (J.obj [("type", J.str "string")], st) from rfl] at h
                   cases h; exact Bool.noConfusion hns
      | image => rw [show emitOpenAI doc (f+1) st (.primitive .image)
          = .ok (J.obj [("type", J.str "string")], st) from rfl] at h
                 cases h; exact Bool.noConfusion hns
      | audio => rw [show emitOpenAI doc (f+1) st (.primitive .audio)
          = .ok (J.obj [("type", J.str "string")], st) from rfl] at h
                 cases h; exact Bool.noConfusion hns
      | video => rw [show emitOpenAI doc (f+1) st (.primitive .video)
          = .ok (J.obj [("type", J.str "string")], st) from rfl] at h
                 cases h; exact Bool.noConfusion hns
    | stringLit w =>
      rw [show emitOpenAI doc (f+1) st (.stringLit w)
          = .ok (J.obj [("type", J.str "string"), ("enum", J.arr [J.str w])], st) from rfl] at h
      cases h; exact Bool.noConfusion hns
    | numberLit w =>
      rw [show emitOpenAI doc (f+1) st (.numberLit w)
          = .ok (J.obj [("type", J.str "number"), ("enum", J.arr [J.num w])], st) from rfl] at h
      cases h; exact Bool.noConfusion hns
    | booleanLit w =>
      rw [show emitOpenAI doc (f+1) st (.booleanLit w)
          = .ok (J.obj [("type", J.str "boolean"), ("enum", J.arr [J.bool w])], st) from rfl] at h
      cases h; exact Bool.noConfusion hns
    | typeRef name =>
      rw [show emitOpenAI doc (f+1) st (.typeRef name)
          = (match ensureDefOpenAI doc f st name with
             | .error e => .error e
             | .ok st1 => .ok (J.obj [("$ref", J.str ("#/$defs/" ++ name))], st1)) from rfl] at h
      cases he : ensureDefOpenAI doc f st name with
      | error e => rw [he] at h; cases h
      | ok st1 => rw [he] at h; simp only at h; cases h; exact Bool.noConfusion hns
    | union ms =>
      rw [show emitOpenAI doc (f+1) st (.union ms)
          = (if ms.all isScalarLiteral then
               match unionLiteralType (ms.filterMap litValue?) with
               | some t => .ok (J.obj [("enum", J.arr ((ms.filterMap litValue?).map litToJ)), ("type", J.str t)], st)
               | none => .ok (J.obj [("enum", J.arr ((ms.filterMap litValue?).map litToJ))], st)
             else
               match emitListOpenAI doc f st ms with
               | .error e => .error e
               | .ok (js, st1) => .ok (J.obj [("anyOf", J.arr js)], st1)) from rfl] at h
      by_cases hall : ms.all isScalarLiteral = true
      · rw [if_pos hall] at h
        cases hu : unionLiteralType (ms.filterMap litValue?) with
        | some t => rw [hu] at h; simp only at h; cases h; exact Bool.noConfusion hns
        | none => rw [hu] at h; simp only at h; cases h; exact Bool.noConfusion hns
      · rw [if_neg hall] at h
        cases hl : emitListOpenAI doc f st ms with
        | error e => rw [hl] at h; cases h
        | ok p =>
          obtain ⟨js, st1⟩ := p
          rw [hl] at h; simp only at h; cases h; exact Bool.noConfusion hns
    | intersection ms =>
      rw [show emitOpenAI doc (f+1) st (.intersection ms)
          = (match mergeObjectsOpenAI doc f ms with
             | .error e => .error e
             | .ok (props, sigs, c) => emitObjectOpenAI doc f st sigs props) from rfl] at h
      cases hm : mergeObjectsOpenAI doc f ms with
      | error e => rw [hm] at h; cases h
      | ok o =>
        obtain ⟨props, sigs, c⟩ := o
        rw [hm] at h
        simp only at h
        obtain ⟨ps, rs, hj⟩ := emitObjectO_shape doc f st sigs props s st' h
        rw [hj] at hns
        exact Bool.noConfusion hns
    | object props sigs c =>
      rw [show emitOpenAI doc (f+1) st (.object props sigs c)
          = emitObjectOpenAI doc f st sigs props from rfl] at h
      obtain ⟨ps, rs, hj⟩ := emitObjectO_shape doc f st sigs props s st' h
      rw [hj] at hns
      exact Bool.noConfusion hns

theorem emitSigsO_string_fails (doc : TDLDoc) :
    ∀ fuel st (sigs : List IndexSigNode) properties required out,
      (∃ sig ∈ sigs, sig.kind = .string ∧ sig.valueType ≠ .primitive .never) →
      emitSigsOpenAI doc fuel st sigs properties required ≠ .ok out := by
  intro fuel
  induction fuel with
  | zero => intro st sigs properties required out hex h; cases h
  | succ f ih =>
    intro st sigs properties required out hex h
    cases sigs with
    | nil =>
      obtain ⟨sig, hmem, _⟩ := hex
      exact absurd hmem (List.not_mem_nil _)
    | cons sig rest =>
      obtain ⟨kind, keys, v, opt, arr⟩ := sig
      cases kind with
      | string =>
        cases opt with
        | false =>
          rw [show emitSigsOpenAI doc (f+1) st (.mk .string keys v false arr :: rest) properties required
              = .error (.authoring openAIStringSigMsg) from rfl] at h
          cases h
        | true =>
          rw [show emitSigsOpenAI doc (f+1) st (.mk .string keys v true arr :: rest) properties required
              = (match emitOpenAI doc f st v with
                 | .error e => .error e
                 | .ok (vs, st') =>
                   if isNeverSchema vs then emitSigsOpenAI doc f st' rest properties required
                   else .error (.authoring openAIStringSigMsg)) from rfl] at h
          cases hemit : emitOpenAI doc f st v with
          | error e => rw [hemit] at h; cases h
          | ok p =>
            obtain ⟨vs, st'⟩ := p
            rw [hemit] at h
            simp only at h
            cases hnv : isNeverSchema vs with
            | true =>
              obtain ⟨sig', hmem', hk', hv'⟩ := hex
              cases hmem' with
              | head =>
                exact absurd (emitO_never_classify doc f st v vs st' hemit hnv) hv'
              | tail _ htail =>
                rw [if_pos hnv] at h
                exact ih st' rest properties required out ⟨sig', htail, hk', hv'⟩ h
            | false =>
              rw [if_neg (by rw [hnv]; exact Bool.noConfusion)] at h
              cases h
      | enum =>
        rw [show emitSigsOpenAI doc (f+1) st (.mk .enum keys v opt arr :: rest) properties required
            = (match emitKeysOpenAI doc f st keys v opt arr properties required with
               | .error e => .error e
               | .ok (properties', required', st') =>
                 emitSigsOpenAI doc f st' rest properties' required') from rfl] at h
        cases hk2 : emitKeysOpenAI doc f st keys v opt arr properties required with
        | error e => rw [hk2] at h; cases h
        | ok p =>
          obtain ⟨properties', required', st'⟩ := p
          rw [hk2] at h
          simp only at h
          obtain ⟨sig', hmem', hks', hv'⟩ := hex
          cases hmem' with
          | head => exact absurd hks' (by intro hc; exact IdxKind.noConfusion hc)
          | tail _ htail =>
            exact ih st' rest properties' required' out ⟨sig', htail, hks', hv'⟩ h

/-- Claim C7 counterexample: the document with the object symbol m holding
an optional string-domain index signature whose value type is the
intersection string & string (not never).  The OpenAI emitter does not
raise the string-index-signature error: the value-type emission runs first
and its object-like error surfaces instead, and the Gemini emitter fails
with the same error rather than producing an additionalProperties map. -/
theorem c7_counterexample :
    docSigInnerErr.symbols = [⟨"m", .object []
        [.mk .string [] (.intersection [.primitive .string, .primitive .string]) true false]
        false, false, false⟩]
    ∧ generateOpenAISchema docSigInnerErr 30 =
        .error (.authoring "Intersection operands must be object-like")
    ∧ generateGeminiSchema docSigInnerErr 30 =
        .error (.authoring "Intersection operands must be object-like")
    ∧ "Intersection operands must be object-like" ≠ openAIStringSigMsg := by
  exact ⟨rfl, rfl, rfl, by decide⟩

/-- Claim C7 (amended): an object whose index signatures include a
string-domain one with a value type other than never can never be emitted
by the OpenAI emitter; when that signature is the only one, the raised
error is exactly the string-index-signature message provided the signature
is non-optional, or provided it is optional and its value-type emission
itself succeeds (when that inner emission fails, its error surfaces
instead).  The Gemini emitter turns the same signature into
additionalProperties holding the value schema (array-wrapped when the
signature has the array flag), and with two string-domain signatures the
last one wins. -/
theorem c7_string_sig_dialects :
    (∀ (doc : TDLDoc) (fuel : Nat) (st : EmitSt) (sigs : List IndexSigNode)
       (props : List PropNode) (out : J × EmitSt),
       (∃ sig ∈ sigs, sig.kind = .string ∧ sig.valueType ≠ .primitive .never) →
       emitObjectOpenAI doc fuel st sigs props ≠ .ok out)
    ∧ (∀ (doc : TDLDoc) (fuel : Nat) (st : EmitSt) (v : TypeNode) (isArr : Bool)
        (props : List PropNode),
        emitObjectOpenAI doc (fuel+2) st [.mk .string [] v false isArr] props =
          .error (.authoring openAIStringSigMsg))
    ∧ (∀ (doc : TDLDoc) (fuel : Nat) (st : EmitSt) (v : TypeNode) (isArr : Bool)
        (props : List PropNode) (vs : J) (st' : EmitSt),
        emitOpenAI doc fuel st v = .ok (vs, st') → v ≠ .primitive .never →
        emitObjectOpenAI doc (fuel+2) st [.mk .string [] v true isArr] props =
          .error (.authoring openAIStringSigMsg))
    ∧ (∀ (doc : TDLDoc) (fuel : Nat) (st : EmitSt) (v : TypeNode) (isArr : Bool)
        (closed : Bool) (vs : J) (st' : EmitSt),
        emitGemini doc (fuel+1) st v = .ok (vs, st') →
        emitObjectGemini doc (fuel+3) st [.mk .string [] v false isArr] [] closed =
          .ok (J.obj [("type", J.str "object"), ("properties", J.obj []),
                      ("required", J.arr []),
                      ("additionalProperties", if isArr then arrayOf vs else vs)], st'))
    ∧ (∀ (doc : TDLDoc) (fuel : Nat) (st : EmitSt) (v1 v2 : TypeNode) (a1 a2 : Bool)
        (closed : Bool) (vs1 vs2 : J) (st1 st2 : EmitSt),
        emitGemini doc (fuel+2) st v1 = .ok (vs1, st1) →
        emitGemini doc (fuel+1) st1 v2 = .ok (vs2, st2) →
        emitObjectGemini doc (fuel+4) st
            [.mk .string [] v1 false a1, .mk .string [] v2 false a2] [] closed =
          .ok (J.obj [("type", J.str "object"), ("properties", J.obj []),
                      ("required", J.arr []),
                      ("additionalProperties", if a2 then arrayOf vs2 else vs2)], st2)) := by
  refine ⟨?_, ?_, ?_, ?_, ?_⟩
  · intro doc fuel st sigs props out hex h
    cases fuel with
    | zero => cases h
    | succ f =>
      rw [emitObjectOpenAI] at h
      cases h1 : emitSigsOpenAI doc f st sigs [] [] with
      | error e => rw [h1] at h; cases h
      | ok out1 =>
        exact emitSigsO_string_fails doc f st sigs [] [] out1 hex h1
  · intro doc fuel st v isArr props
    rfl
  · intro doc fuel st v isArr props vs st' hemit hv
    have hnv : isNeverSchema vs = false := by
      cases hcase : isNeverSchema vs
      · rfl
      · exact absurd (emitO_never_classify doc fuel st v vs st' hemit hcase) hv
    have hsig : emitSigsOpenAI doc (fuel+1) st [.mk .string [] v true isArr] [] []
        = .error (.authoring openAIStringSigMsg) := by
      have s : emitSigsOpenAI doc (fuel+1) st [.mk .string [] v true isArr] [] []
          = (match emitOpenAI doc fuel st v with
             | .error e => .error e
             | .ok (vs, st') =>
               if isNeverSchema vs then emitSigsOpenAI doc fuel st' [] [] []
               else .error (.authoring openAIStringSigMsg)) := rfl
      rw [s, hemit]
      simp [hnv]
    have s2 : emitObjectOpenAI doc (fuel+2) st [.mk .string [] v true isArr] props
        = (match emitSigsOpenAI doc (fuel+1) st [.mk .string [] v true isArr] [] [] with
           | .error e => .error e
           | .ok (properties, required, st1) =>
             match emitPropsOpenAI doc (fuel+1) st1 props properties required with
             | .error e => .error e
             | .ok (properties2, required2, st2) =>
               .ok (J.obj [("type", J.str "object"), ("properties", J.obj properties2),
                           ("required", J.arr (required2.map J.str)),
                           ("additionalProperties", J.bool false)], st2)) := rfl
    rw [s2, hsig]
  · intro doc fuel st v isArr closed vs st' hemit
    have s1 : emitSigsGemini doc (fuel+2) st [.mk .string [] v false isArr] [] []
          (if closed then J.bool false else J.bool true)
        = (match emitGemini doc (fuel+1) st v with
           | .error e => .error e
           | .ok (base, st') =>
             emitSigsGemini doc (fuel+1) st' [] [] [] (if isArr then arrayOf base else base)) := rfl
    have hsig : emitSigsGemini doc (fuel+2) st [.mk .string [] v false isArr] [] []
          (if closed then J.bool false else J.bool true)
        = .ok ([], [], (if isArr then arrayOf vs else vs), st') := by
      rw [s1, hemit]
      rfl
    have s2 : emitObjectGemini doc (fuel+3) st [.mk .string [] v false isArr] [] closed
        = (match emitSigsGemini doc (fuel+2) st [.mk .string [] v false isArr] [] []
               (if closed then J.bool false else J.bool true) with
           | .error e => .error e
           | .ok (properties, required, addl, st1) =>
             match emitPropsGemini doc (fuel+2) st1 [] properties required with
             | .error e => .error e
             | .ok (properties2, required2, st2) =>
               .ok (J.obj [("type", J.str "object"), ("properties", J.obj properties2),
                           ("required", J.arr (required2.map J.str)),
                           ("additionalProperties", addl)], st2)) := rfl
    rw [s2, hsig]
    rfl
  · intro doc fuel st v1 v2 a1 a2 closed vs1 vs2 st1 st2 h1 h2
    have s1 : emitSigsGemini doc (fuel+3) st
          [.mk .string [] v1 false a1, .mk .string [] v2 false a2] [] []
          (if closed then J.bool false else J.bool true)
        = (match emitGemini doc (fuel+2) st v1 with
           | .error e => .error e
           | .ok (base, st') =>
             emitSigsGemini doc (fuel+2) st' [.mk .string [] v2 false a2] [] []
               (if a1 then arrayOf base else base)) := rfl
    have s2 : emitSigsGemini doc (fuel+2) st1 [.mk .string [] v2 false a2] [] []
          (if a1 then arrayOf vs1 else vs1)
        = (match emitGemini doc (fuel+1) st1 v2 with
           | .error e => .error e
           | .ok (base, st') =>
             emitSigsGemini doc (fuel+1) st' [] [] [] (if a2 then arrayOf base else base)) := rfl
    have hsig : emitSigsGemini doc (fuel+3) st
          [.mk .string [] v1 false a1, .mk .string [] v2 false a2] [] []
          (if closed then J.bool false else J.bool true)
        = .ok ([], [], (if a2 then arrayOf vs2 else vs2), st2) := by
      rw [s1, h1]
      simp only
      rw [s2, h2]
      rfl
    have s3 : emitObjectGemini doc (fuel+4) st
          [.mk .string [] v1 false a1, .mk .string [] v2 false a2] [] closed
        = (match emitSigsGemini doc (fuel+3) st
               [.mk .string [] v1 false a1, .mk .string [] v2 false a2] [] []
               (if closed then J.bool false else J.bool true) with
           | .error e => .error e
           | .ok (properties, required, addl, st1) =>
             match emitPropsGemini doc (fuel+3) st1 [] properties required with
             | .error e => .error e
             | .ok (properties2, required2, st2) =>
               .ok (J.obj [("type", J.str "object"), ("properties", J.obj properties2),
                           ("required", J.arr (required2.map J.str)),
                           ("additionalProperties", addl)], st2)) := rfl
    rw [s3, hsig]
    rfl

/-- Claim C7 witness: the Gemini map lowering applied to a string-domain
signature over the number primitive (the open-map scenario). -/
theorem c7_string_sig_dialects_witness :
    emitObjectGemini emptyDoc 3 initSt [.mk .string [] (.primitive .number) false false] [] false =
      .ok (J.obj [("type", J.str "object"), ("properties", J.obj []),
                  ("required", J.arr []),
                  ("additionalProperties", J.obj [("type", J.str "number")])], initSt) := by
  exact c7_string_sig_dialects.2.2.2.1 emptyDoc 0 initSt (.primitive .number) false false
    (J.obj [("type", J.str "number")]) initSt rfl

/-! Claim C2: $defs population. -/

theorem mem_of_rget_isSome : ∀ (r : JRec) (k : String), (rget r k).isSome → k ∈ rkeys r := by
  intro r k h
  induction r with
  | nil => simp [rget] at h
  | cons hd tl ih =>
    obtain ⟨k', v'⟩ := hd
    by_cases hk : k' = k
    · subst hk; exact List.mem_cons_self _ _
    · rw [rget, if_neg hk] at h
      exact List.mem_cons_of_mem _ (ih h)

theorem lookupType_mem (doc : TDLDoc) (name : String) (node : TypeNode)
    (h : lookupType doc name = some node) : name ∈ doc.types.map Prod.fst := by
  rw [lookupType] at h
  cases hf : doc.types.find? (fun p => p.1 = name) with
  | none => rw [hf] at h; cases h
  | some p =>
    have h1 : p.1 = name := by
      have := List.find?_some hf
      exact of_decide_eq_true this
    have h2 : p ∈ doc.types := List.mem_of_find?_eq_some hf
    exact h1 ▸ List.mem_map_of_mem Prod.fst h2

theorem keysInvO (doc : TDLDoc) : ∀ fuel,
    (∀ st name st', ensureDefOpenAI doc fuel st name = .ok st' → StK doc st →
      (StK doc st' ∧ (∀ m ∈ rkeys st.defs, m ∈ rkeys st'.defs)) ∧ name ∈ rkeys st'.defs)
    ∧ (∀ st n j st', emitOpenAI doc fuel st n = .ok (j, st') → StK doc st →
      StK doc st' ∧ (∀ m ∈ rkeys st.defs, m ∈ rkeys st'.defs))
    ∧ (∀ st ns js st', emitListOpenAI doc fuel st ns = .ok (js, st') → StK doc st →
      StK doc st' ∧ (∀ m ∈ rkeys st.defs, m ∈ rkeys st'.defs))
    ∧ (∀ st sigs props j st', emitObjectOpenAI doc fuel st sigs props = .ok (j, st') → StK doc st →
      StK doc st' ∧ (∀ m ∈ rkeys st.defs, m ∈ rkeys st'.defs))
    ∧ (∀ st sigs properties required out,
        emitSigsOpenAI doc fuel st sigs properties required = .ok out → StK doc st →
        StK doc out.2.2 ∧ (∀ m ∈ rkeys st.defs, m ∈ rkeys out.2.2.defs))
    ∧ (∀ st keys vt opt arr properties required out,
        emitKeysOpenAI doc fuel st keys vt opt arr properties required = .ok out → StK doc st →
        StK doc out.2.2 ∧ (∀ m ∈ rkeys st.defs, m ∈ rkeys out.2.2.defs))
    ∧ (∀ st props properties required out,
        emitPropsOpenAI doc fuel st props properties required = .ok out → StK doc st →
        StK doc out.2.2 ∧ (∀ m ∈ rkeys st.defs, m ∈ rkeys out.2.2.defs)) := by
  intro fuel
  induction fuel with
  | zero =>
    refine ⟨?_, ?_, ?_, ?_, ?_, ?_, ?_⟩
    · intro st name st' h; cases h
    · intro st n j st' h; cases h
    · intro st ns js st' h; cases h
    · intro st sigs props j st' h; cases h
    · intro st sigs properties required out h; cases h
    · intro st keys vt opt arr properties required out h; cases h
    · intro st props properties required out h; cases h
  | succ f ih =>
    obtain ⟨ihE, ihM, ihL, ihO, ihS, ihK, ihP⟩ := ih
    refine ⟨?_, ?_, ?_, ?_, ?_, ?_, ?_⟩
    · -- ensureDef
      intro st name st' h hst
      rw [ensureDefOpenAI] at h
      by_cases hin : (rget st.defs name).isSome
      · rw [if_pos hin] at h
        cases h
        exact ⟨⟨hst, fun m hm => hm⟩, mem_of_rget_isSome _ _ hin⟩
      · rw [if_neg hin] at h
        by_cases hstk : name ∈ st.stack
        · rw [if_pos hstk] at h
          cases h
          obtain ⟨h1, h2, h3⟩ := hst
          refine ⟨⟨⟨h1, ?_, ?_⟩, ?_⟩, ?_⟩
          · intro n hn
            rcases (mem_rkeys_rset _ _ n _).mp hn with hn | hn
            · exact hn ▸ h1 name hstk
            · exact h2 n hn
          · exact rkeys_rset_nodup _ _ _ h3
          · intro m hm; exact (mem_rkeys_rset _ _ m _).mpr (Or.inr hm)
          · exact (mem_rkeys_rset _ _ name _).mpr (Or.inl rfl)
        · rw [if_neg hstk] at h
          cases hlk : lookupType doc name with
          | none => rw [hlk] at h; cases h
          | some node =>
            rw [hlk] at h
            simp only at h
            have hnametk := lookupType_mem doc name node hlk
            cases he : emitOpenAI doc f { st with stack := name :: st.stack } node with
            | error e => rw [he] at h; cases h
            | ok p =>
              obtain ⟨schema, st2⟩ := p
              rw [he] at h
              simp only at h
              cases h
              obtain ⟨h1, h2, h3⟩ := hst
              have hstst : StK doc { st with stack := name :: st.stack } := by
                refine ⟨?_, h2, h3⟩
                intro n hn
                rcases List.mem_cons.mp hn with hn | hn
                · exact hn ▸ hnametk
                · exact h1 n hn
              obtain ⟨⟨k1, k2, k3⟩, km⟩ := ihM _ node schema st2 he hstst
              refine ⟨⟨⟨?_, ?_, ?_⟩, ?_⟩, ?_⟩
              · intro n hn
                exact k1 n (List.erase_subset _ _ hn)
              · intro n hn
                rcases (mem_rkeys_rset _ _ n _).mp hn with hn | hn
                · exact hn ▸ hnametk
                · exact k2 n hn
              · exact rkeys_rset_nodup _ _ _ k3
              · intro m hm
                exact (mem_rkeys_rset _ _ m _).mpr (Or.inr (km m hm))
              · exact (mem_rkeys_rset _ _ name _).mpr (Or.inl rfl)
    · -- emit
      intro st n j st' h hst
      cases n with
      | primitive p =>
        rw [show emitOpenAI doc (f+1) st (.primitive p) = .ok (primitiveToSchema p, st) from rfl] at h
        cases h; exact ⟨hst, fun m hm => hm⟩
      | stringLit v =>
        rw [show emitOpenAI doc (f+1) st (.stringLit v)
            = .ok (J.obj [("type", J.str "string"), ("enum", J.arr [J.str v])], st) from rfl] at h
        cases h; exact ⟨hst, fun m hm => hm⟩
      | numberLit v =>
        rw [show emitOpenAI doc (f+1) st (.numberLit v)
            = .ok (J.obj [("type", J.str "number"), ("enum", J.arr [J.num v])], st) from rfl] at h
        cases h; exact ⟨hst, fun m hm => hm⟩
      | booleanLit v =>
        rw [show emitOpenAI doc (f+1) st (.booleanLit v)
            = .ok (J.obj [("type", J.str "boolean"), ("enum", J.arr [J.bool v])], st) from rfl] at h
        cases h; exact ⟨hst, fun m hm => hm⟩
      | typeRef name =>
        rw [show emitOpenAI doc (f+1) st (.typeRef name)
            = (match ensureDefOpenAI doc f st name with
               | .error e => .error e
               | .ok st1 => .ok (J.obj [("$ref", J.str ("#/$defs/" ++ name))], st1)) from rfl] at h
        cases he : ensureDefOpenAI doc f st name with
        | error e => rw [he] at h; cases h
        | ok st1 =>
          rw [he] at h; simp only at h; cases h
          exact (ihE st name st' he hst).1
      | union ms =>
        rw [show emitOpenAI doc (f+1) st (.union ms)
            = (if ms.all isScalarLiteral then
                 match unionLiteralType (ms.filterMap litValue?) with
                 | some t => .ok (J.obj [("enum", J.arr ((ms.filterMap litValue?).map litToJ)), ("type", J.str t)], st)
                 | none => .ok (J.obj [("enum", J.arr ((ms.filterMap litValue?).map litToJ))], st)
               else
                 match emitListOpenAI doc f st ms with
                 | .error e => .error e
                 | .ok (js, st1) => .ok (J.obj [("anyOf", J.arr js)], st1)) from rfl] at h
        by_cases hall : ms.all isScalarLiteral = true
        · rw [if_pos hall] at h
          cases hu : unionLiteralType (ms.filterMap litValue?) with
          | some t => rw [hu] at h; simp only at h; cases h; exact ⟨hst, fun m hm => hm⟩
          | none => rw [hu] at h; simp only at h; cases h; exact ⟨hst, fun m hm => hm⟩
        · rw [if_neg hall] at h
          cases hl : emitListOpenAI doc f st ms with
          | error e => rw [hl] at h; cases h
          | ok p =>
            obtain ⟨js, st1⟩ := p
            rw [hl] at h; simp only at h; cases h
            exact ihL st ms js st' hl hst
      | intersection ms =>
        rw [show emitOpenAI doc (f+1) st (.intersection ms)
            = (match mergeObjectsOpenAI doc f ms with
               | .error e => .error e
               | .ok (props, sigs, c) => emitObjectOpenAI doc f st sigs props) from rfl] at h
        cases hm : mergeObjectsOpenAI doc f ms with
        | error e => rw [hm] at h; cases h
        | ok o =>
          obtain ⟨props, sigs, c⟩ := o
          rw [hm] at h; simp only at h
          exact ihO st sigs props j st' h hst
      | object props sigs c =>
        rw [show emitOpenAI doc (f+1) st (.object props sigs c)
            = emitObjectOpenAI doc f st sigs props from rfl] at h
        exact ihO st sigs props j st' h hst
    · -- emitList
      intro st ns js st' h hst
      cases ns with
      | nil =>
        rw [show emitListOpenAI doc (f+1) st [] = .ok ([], st) from rfl] at h
        cases h; exact ⟨hst, fun m hm => hm⟩
      | cons n rest =>
        rw [show emitListOpenAI doc (f+1) st (n :: rest)
            = (match emitOpenAI doc f st n with
               | .error e => .error e
               | .ok (jj, st1) =>
                 match emitListOpenAI doc f st1 rest with
                 | .error e => .error e
                 | .ok (jjs, st2) => .ok (jj :: jjs, st2)) from rfl] at h
        cases h1 : emitOpenAI doc f st n with
        | error e => rw [h1] at h; cases h
        | ok p =>
          obtain ⟨jj, st1⟩ := p
          rw [h1] at h; simp only at h
          cases h2 : emitListOpenAI doc f st1 rest with
          | error e => rw [h2] at h; cases h
          | ok q =>
            obtain ⟨jjs, st2⟩ := q
            rw [h2] at h; simp only at h; cases h
            obtain ⟨a1, a2⟩ := ihM st n jj st1 h1 hst
            obtain ⟨b1, b2⟩ := ihL st1 rest jjs st' h2 a1
            exact ⟨b1, fun m hm => b2 m (a2 m hm)⟩
    · -- emitObject
      intro st sigs props j st' h hst
      rw [show emitObjectOpenAI doc (f+1) st sigs props
          = (match emitSigsOpenAI doc f st sigs [] [] with
             | .error e => .error e
             | .ok (properties, required, st1) =>
               match emitPropsOpenAI doc f st1 props properties required with
               | .error e => .error e
               | .ok (properties2, required2, st2) =>
                 .ok (J.obj [("type", J.str "object"), ("properties", J.obj properties2),
                             ("required", J.arr (required2.map J.str)),
                             ("additionalProperties", J.bool false)], st2)) from rfl] at h
      cases h1 : emitSigsOpenAI doc f st sigs [] [] with
      | error e => rw [h1] at h; cases h
      | ok out1 =>
        obtain ⟨properties1, required1, st1⟩ := out1
        rw [h1] at h; simp only at h
        cases h2 : emitPropsOpenAI doc f st1 props properties1 required1 with
        | error e => rw [h2] at h; cases h
        | ok out2 =>
          obtain ⟨properties2, required2, st2⟩ := out2
          rw [h2] at h; simp only at h; cases h
          obtain ⟨a1, a2⟩ := ihS st sigs [] [] (properties1, required1, st1) h1 hst
          obtain ⟨b1, b2⟩ := ihP st1 props properties1 required1 (properties2, required2, st') h2 a1
          exact ⟨b1, fun m hm => b2 m (a2 m hm)⟩
    · -- emitSigs
      intro st sigs properties required out h hst
      cases sigs with
      | nil =>
        rw [show emitSigsOpenAI doc (f+1) st [] properties required
            = .ok (properties, required, st) from rfl] at h
        cases h; exact ⟨hst, fun m hm => hm⟩
      | cons sig rest =>
        obtain ⟨kind, keys, vt, opt, arr⟩ := sig
        cases kind with
        | string =>
          cases opt with
          | false =>
            rw [show emitSigsOpenAI doc (f+1) st (.mk .string keys vt false arr :: rest) properties required
                = .error (.authoring openAIStringSigMsg) from rfl] at h
            cases h
          | true =>
            rw [show emitSigsOpenAI doc (f+1) st (.mk .string keys vt true arr :: rest) properties required
                = (match emitOpenAI doc f st vt with
                   | .error e => .error e
                   | .ok (vs, st1) =>
                     if isNeverSchema vs then emitSigsOpenAI doc f st1 rest properties required
                     else .error (.authoring openAIStringSigMsg)) from rfl] at h
            cases h1 : emitOpenAI doc f st vt with
            | error e => rw [h1] at h; cases h
            | ok p =>
              obtain ⟨vs, st1⟩ := p
              rw [h1] at h; simp only at h
              by_cases hns : isNeverSchema vs = true
              · rw [if_pos hns] at h
                obtain ⟨a1, a2⟩ := ihM st vt vs st1 h1 hst
                obtain ⟨b1, b2⟩ := ihS st1 rest properties required out h a1
                exact ⟨b1, fun m hm => b2 m (a2 m hm)⟩
              · rw [if_neg hns] at h; cases h
        | enum =>
          rw [show emitSigsOpenAI doc (f+1) st (.mk .enum keys vt opt arr :: rest) properties required
              = (match emitKeysOpenAI doc f st keys vt opt arr properties required with
                 | .error e => .error e
                 | .ok (properties1, required1, st1) =>
                   emitSigsOpenAI doc f st1 rest properties1 required1) from rfl] at h
          cases h1 : emitKeysOpenAI doc f st keys vt opt arr properties required with
          | error e => rw [h1] at h; cases h
          | ok p =>
            obtain ⟨properties1, required1, st1⟩ := p
            rw [h1] at h; simp only at h
            obtain ⟨a1, a2⟩ := ihK st keys vt opt arr properties required (properties1, required1, st1) h1 hst
            obtain ⟨b1, b2⟩ := ihS st1 rest properties1 required1 out h a1
            exact ⟨b1, fun m hm => b2 m (a2 m hm)⟩
    · -- emitKeys
      intro st keys vt opt arr properties required out h hst
      cases keys with
      | nil =>
        rw [show emitKeysOpenAI doc (f+1) st [] vt opt arr properties required
            = .ok (properties, required, st) from rfl] at h
        cases h; exact ⟨hst, fun m hm => hm⟩
      | cons key krest =>
        rw [show emitKeysOpenAI doc (f+1) st (key :: krest) vt opt arr properties required
            = (match emitOpenAI doc f st vt with
               | .error e => .error e
               | .ok (base, st1) =>
                 emitKeysOpenAI doc f st1 krest vt opt arr
                   (rset properties (litKeyString key)
                     (if opt then makeNullable (if arr then arrayOf base else base)
                      else (if arr then arrayOf base else base)))
                   (required ++ [litKeyString key])) from rfl] at h
        cases h1 : emitOpenAI doc f st vt with
        | error e => rw [h1] at h; cases h
        | ok p =>
          obtain ⟨base, st1⟩ := p
          rw [h1] at h; simp only at h
          obtain ⟨a1, a2⟩ := ihM st vt base st1 h1 hst
          obtain ⟨b1, b2⟩ := ihK st1 krest vt opt arr _ _ out h a1
          exact ⟨b1, fun m hm => b2 m (a2 m hm)⟩
    · -- emitProps
      intro st props properties required out h hst
      cases props with
      | nil =>
        rw [show emitPropsOpenAI doc (f+1) st [] properties required
            = .ok (properties, required, st) from rfl] at h
        cases h; exact ⟨hst, fun m hm => hm⟩
      | cons p prest =>
        rw [show emitPropsOpenAI doc (f+1) st (p :: prest) properties required
            = (match emitOpenAI doc f st p.type with
               | .error e => .error e
               | .ok (base, st1) =>
                 emitPropsOpenAI doc f st1 prest
                   (rset properties p.name
                     (if p.optional then makeNullable (if p.isArray then arrayOf base else base)
                      else (if p.isArray then arrayOf base else base)))
                   (required ++ [p.name])) from rfl] at h
        cases h1 : emitOpenAI doc f st p.type with
        | error e => rw [h1] at h; cases h
        | ok q =>
          obtain ⟨base, st1⟩ := q
          rw [h1] at h; simp only at h
          obtain ⟨a1, a2⟩ := ihM st p.type base st1 h1 hst
          obtain ⟨b1, b2⟩ := ihP st1 prest _ _ out h a1
          exact ⟨b1, fun m hm => b2 m (a2 m hm)⟩

theorem keysInvG (doc : TDLDoc) : ∀ fuel,
    (∀ st name st', ensureDefGemini doc fuel st name = .ok st' → StK doc st →
      (StK doc st' ∧ (∀ m ∈ rkeys st.defs, m ∈ rkeys st'.defs)) ∧ name ∈ rkeys st'.defs)
    ∧ (∀ st n j st', emitGemini doc fuel st n = .ok (j, st') → StK doc st →
      StK doc st' ∧ (∀ m ∈ rkeys st.defs, m ∈ rkeys st'.defs))
    ∧ (∀ st ns js st', emitListGemini doc fuel st ns = .ok (js, st') → StK doc st →
      StK doc st' ∧ (∀ m ∈ rkeys st.defs, m ∈ rkeys st'.defs))
    ∧ (∀ st sigs props closed j st', emitObjectGemini doc fuel st sigs props closed = .ok (j, st') → StK doc st →
      StK doc st' ∧ (∀ m ∈ rkeys st.defs, m ∈ rkeys st'.defs))
    ∧ (∀ st sigs properties required addl out,
        emitSigsGemini doc fuel st sigs properties required addl = .ok out → StK doc st →
        StK doc out.2.2.2 ∧ (∀ m ∈ rkeys st.defs, m ∈ rkeys out.2.2.2.defs))
    ∧ (∀ st keys vt opt arr properties required out,
        emitKeysGemini doc fuel st keys vt opt arr properties required = .ok out → StK doc st →
        StK doc out.2.2 ∧ (∀ m ∈ rkeys st.defs, m ∈ rkeys out.2.2.defs))
    ∧ (∀ st props properties required out,
        emitPropsGemini doc fuel st props properties required = .ok out → StK doc st →
        StK doc out.2.2 ∧ (∀ m ∈ rkeys st.defs, m ∈ rkeys out.2.2.defs)) := by
  intro fuel
  induction fuel with
  | zero =>
    refine ⟨?_, ?_, ?_, ?_, ?_, ?_, ?_⟩
    · intro st name st' h; cases h
    · intro st n j st' h; cases h
    · intro st ns js st' h; cases h
    · intro st sigs props closed j st' h; cases h
    · intro st sigs properties required addl out h; cases h
    · intro st keys vt opt arr properties required out h; cases h
    · intro st props properties required out h; cases h
  | succ f ih =>
    obtain ⟨ihE, ihM, ihL, ihO, ihS, ihK, ihP⟩ := ih
    refine ⟨?_, ?_, ?_, ?_, ?_, ?_, ?_⟩
    · -- ensureDef
      intro st name st' h hst
      rw [ensureDefGemini] at h
      by_cases hin : (rget st.defs name).isSome
      · rw [if_pos hin] at h
        cases h
        exact ⟨⟨hst, fun m hm => hm⟩, mem_of_rget_isSome _ _ hin⟩
      · rw [if_neg hin] at h
        by_cases hstk : name ∈ st.stack
        · rw [if_pos hstk] at h
          cases h
          obtain ⟨h1, h2, h3⟩ := hst
          refine ⟨⟨⟨h1, ?_, ?_⟩, ?_⟩, ?_⟩
          · intro n hn
            rcases (mem_rkeys_rset _ _ n _).mp hn with hn | hn
            · exact hn ▸ h1 name hstk
            · exact h2 n hn
          · exact rkeys_rset_nodup _ _ _ h3
          · intro m hm; exact (mem_rkeys_rset _ _ m _).mpr (Or.inr hm)
          · exact (mem_rkeys_rset _ _ name _).mpr (Or.inl rfl)
        · rw [if_neg hstk] at h
          cases hlk : lookupType doc name with
          | none => rw [hlk] at h; cases h
          | some node =>
            rw [hlk] at h
            simp only at h
            have hnametk := lookupType_mem doc name node hlk
            cases he : emitGemini doc f { st with stack := name :: st.stack } node with
            | error e => rw [he] at h; cases h
            | ok p =>
              obtain ⟨schema, st2⟩ := p
              rw [he] at h
              simp only at h
              cases h
              obtain ⟨h1, h2, h3⟩ := hst
              have hstst : StK doc { st with stack := name :: st.stack } := by
                refine ⟨?_, h2, h3⟩
                intro n hn
                rcases List.mem_cons.mp hn with hn | hn
                · exact hn ▸ hnametk
                · exact h1 n hn
              obtain ⟨⟨k1, k2, k3⟩, km⟩ := ihM _ node schema st2 he hstst
              refine ⟨⟨⟨?_, ?_, ?_⟩, ?_⟩, ?_⟩
              · intro n hn
                exact k1 n (List.erase_subset _ _ hn)
              · intro n hn
                rcases (mem_rkeys_rset _ _ n _).mp hn with hn | hn
                · exact hn ▸ hnametk
                · exact k2 n hn
              · exact rkeys_rset_nodup _ _ _ k3
              · intro m hm
                exact (mem_rkeys_rset _ _ m _).mpr (Or.inr (km m hm))
              · exact (mem_rkeys_rset _ _ name _).mpr (Or.inl rfl)
    · -- emit
      intro st n j st' h hst
      cases n with
      | primitive p =>
        rw [show emitGemini doc (f+1) st (.primitive p) = .ok (primitiveToSchema p, st) from rfl] at h
        cases h; exact ⟨hst, fun m hm => hm⟩
      | stringLit v =>
        rw [show emitGemini doc (f+1) st (.stringLit v)
            = .ok (J.obj [("type", J.str "string"), ("enum", J.arr [J.str v])], st) from rfl] at h
        cases h; exact ⟨hst, fun m hm => hm⟩
      | numberLit v =>
        rw [show emitGemini doc (f+1) st (.numberLit v)
            = .ok (J.obj [("type", J.str "number"), ("enum", J.arr [J.num v])], st) from rfl] at h
        cases h; exact ⟨hst, fun m hm => hm⟩
      | booleanLit v =>
        rw [show emitGemini doc (f+1) st (.booleanLit v)
            = .ok (J.obj [("type", J.str "boolean"), ("enum", J.arr [J.bool v])], st) from rfl] at h
        cases h; exact ⟨hst, fun m hm => hm⟩
      | typeRef name =>
        rw [show emitGemini doc (f+1) st (.typeRef name)
            = (match ensureDefGemini doc f st name with
               | .error e => .error e
               | .ok st1 => .ok (J.obj [("$ref", J.str ("#/$defs/" ++ name))], st1)) from rfl] at h
        cases he : ensureDefGemini doc f st name with
        | error e => rw [he] at h; cases h
        | ok st1 =>
          rw [he] at h; simp only at h; cases h
          exact (ihE st name st' he hst).1
      | union ms =>
        rw [show emitGemini doc (f+1) st (.union ms)
            = (if ms.all isScalarLiteral then
                 match unionLiteralType (ms.filterMap litValue?) with
                 | some t => .ok (J.obj [("enum", J.arr ((ms.filterMap litValue?).map litToJ)), ("type", J.str t)], st)
                 | none => .ok (J.obj [("enum", J.arr ((ms.filterMap litValue?).map litToJ))], st)
               else
                 match emitListGemini doc f st ms with
                 | .error e => .error e
                 | .ok (js, st1) => .ok (J.obj [("anyOf", J.arr js)], st1)) from rfl] at h
        by_cases hall : ms.all isScalarLiteral = true
        · rw [if_pos hall] at h
          cases hu : unionLiteralType (ms.filterMap litValue?) with
          | some t => rw [hu] at h; simp only at h; cases h; exact ⟨hst, fun m hm => hm⟩
          | none => rw [hu] at h; simp only at h; cases h; exact ⟨hst, fun m hm => hm⟩
        · rw [if_neg hall] at h
          cases hl : emitListGemini doc f st ms with
          | error e => rw [hl] at h; cases h
          | ok p =>
            obtain ⟨js, st1⟩ := p
            rw [hl] at h; simp only at h; cases h
            exact ihL st ms js st' hl hst
      | intersection ms =>
        rw [show emitGemini doc (f+1) st (.intersection ms)
            = (match mergeObjectsGemini doc f ms with
               | .error e => .error e
               | .ok (props, sigs, closed) => emitObjectGemini doc f st sigs props closed) from rfl] at h
        cases hm : mergeObjectsGemini doc f ms with
        | error e => rw [hm] at h; cases h
        | ok o =>
          obtain ⟨props, sigs, closed⟩ := o
          rw [hm] at h; simp only at h
          exact ihO st sigs props closed j st' h hst
      | object props sigs closed =>
        rw [show emitGemini doc (f+1) st (.object props sigs closed)
            = emitObjectGemini doc f st sigs props closed from rfl] at h
        exact ihO st sigs props closed j st' h hst
    · -- emitList
      intro st ns js st' h hst
      cases ns with
      | nil =>
        rw [show emitListGemini doc (f+1) st [] = .ok ([], st) from rfl] at h
        cases h; exact ⟨hst, fun m hm => hm⟩
      | cons n rest =>
        rw [show emitListGemini doc (f+1) st (n :: rest)
            = (match emitGemini doc f st n with
               | .error e => .error e
               | .ok (jj, st1) =>
                 match emitListGemini doc f st1 rest with
                 | .error e => .error e
                 | .ok (jjs, st2) => .ok (jj :: jjs, st2)) from rfl] at h
        cases h1 : emitGemini doc f st n with
        | error e => rw [h1] at h; cases h
        | ok p =>
          obtain ⟨jj, st1⟩ := p
          rw [h1] at h; simp only at h
          cases h2 : emitListGemini doc f st1 rest with
          | error e => rw [h2] at h; cases h
          | ok q =>
            obtain ⟨jjs, st2⟩ := q
            rw [h2] at h; simp only at h; cases h
            obtain ⟨a1, a2⟩ := ihM st n jj st1 h1 hst
            obtain ⟨b1, b2⟩ := ihL st1 rest jjs st' h2 a1
            exact ⟨b1, fun m hm => b2 m (a2 m hm)⟩
    · -- emitObject
      intro st sigs props closed j st' h hst
      rw [show emitObjectGemini doc (f+1) st sigs props closed
          = (match emitSigsGemini doc f st sigs [] [] (if closed then J.bool false else J.bool true) with
             | .error e => .error e
             | .ok (properties, required, addl, st1) =>
               match emitPropsGemini doc f st1 props properties required with
               | .error e => .error e
               | .ok (properties2, required2, st2) =>
                 .ok (J.obj [("type", J.str "object"), ("properties", J.obj properties2),
                             ("required", J.arr (required2.map J.str)),
                             ("additionalProperties", addl)], st2)) from rfl] at h
      cases h1 : emitSigsGemini doc f st sigs [] [] (if closed then J.bool false else J.bool true) with
      | error e => rw [h1] at h; cases h
      | ok out1 =>
        obtain ⟨properties1, required1, addl1, st1⟩ := out1
        rw [h1] at h; simp only at h
        cases h2 : emitPropsGemini doc f st1 props properties1 required1 with
        | error e => rw [h2] at h; cases h
        | ok out2 =>
          obtain ⟨properties2, required2, st2⟩ := out2
          rw [h2] at h; simp only at h; cases h
          obtain ⟨a1, a2⟩ := ihS st sigs [] [] (if closed then J.bool false else J.bool true) (properties1, required1, addl1, st1) h1 hst
          obtain ⟨b1, b2⟩ := ihP st1 props properties1 required1 (properties2, required2, st') h2 a1
          exact ⟨b1, fun m hm => b2 m (a2 m hm)⟩
    · -- emitSigs
      intro st sigs properties required addl out h hst
      cases sigs with
      | nil =>
        rw [show emitSigsGemini doc (f+1) st [] properties required addl
            = .ok (properties, required, addl, st) from rfl] at h
        cases h; exact ⟨hst, fun m hm => hm⟩
      | cons sig rest =>
        obtain ⟨kind, keys, vt, opt, arr⟩ := sig
        cases kind with
        | string =>
          cases opt with
          | false =>
            rw [show emitSigsGemini doc (f+1) st (.mk .string keys vt false arr :: rest) properties required addl
                = (match emitGemini doc f st vt with
                   | .error e => .error e
                   | .ok (base, st1) =>
                     emitSigsGemini doc f st1 rest properties required
                       (if arr then arrayOf base else base)) from rfl] at h
            cases h1 : emitGemini doc f st vt with
            | error e => rw [h1] at h; cases h
            | ok p =>
              obtain ⟨base, st1⟩ := p
              rw [h1] at h; simp only at h
              obtain ⟨a1, a2⟩ := ihM st vt base st1 h1 hst
              obtain ⟨b1, b2⟩ := ihS st1 rest properties required _ out h a1
              exact ⟨b1, fun m hm => b2 m (a2 m hm)⟩
          | true =>
            rw [show emitSigsGemini doc (f+1) st (.mk .string keys vt true arr :: rest) properties required addl
                = (match emitGemini doc f st vt with
                   | .error e => .error e
                   | .ok (cond, stc) =>
                     if isNeverSchema cond then
                       emitSigsGemini doc f stc rest properties required (J.bool false)
                     else
                       match emitGemini doc f stc vt with
                       | .error e => .error e
                       | .ok (base, st1) =>
                         emitSigsGemini doc f st1 rest properties required
                           (if arr then arrayOf base else base)) from rfl] at h
            cases h1 : emitGemini doc f st vt with
            | error e => rw [h1] at h; cases h
            | ok p =>
              obtain ⟨cond, stc⟩ := p
              rw [h1] at h; simp only at h
              obtain ⟨a1, a2⟩ := ihM st vt cond stc h1 hst
              by_cases hns : isNeverSchema cond = true
              · rw [if_pos hns] at h
                obtain ⟨b1, b2⟩ := ihS stc rest properties required _ out h a1
                exact ⟨b1, fun m hm => b2 m (a2 m hm)⟩
              · rw [if_neg hns] at h
                cases h2 : emitGemini doc f stc vt with
                | error e => rw [h2] at h; cases h
                | ok q =>
                  obtain ⟨base, st1⟩ := q
                  rw [h2] at h; simp only at h
                  obtain ⟨b1, b2⟩ := ihM stc vt base st1 h2 a1
                  obtain ⟨c1, c2⟩ := ihS st1 rest properties required _ out h b1
                  exact ⟨c1, fun m hm => c2 m (b2 m (a2 m hm))⟩
        | enum =>
          rw [show emitSigsGemini doc (f+1) st (.mk .enum keys vt opt arr :: rest) properties required addl
              = (match emitKeysGemini doc f st keys vt opt arr properties required with
                 | .error e => .error e
                 | .ok (properties1, required1, st1) =>
                   emitSigsGemini doc f st1 rest properties1 required1 addl) from rfl] at h
          cases h1 : emitKeysGemini doc f st keys vt opt arr properties required with
          | error e => rw [h1] at h; cases h
          | ok p =>
            obtain ⟨properties1, required1, st1⟩ := p
            rw [h1] at h; simp only at h
            obtain ⟨a1, a2⟩ := ihK st keys vt opt arr properties required (properties1, required1, st1) h1 hst
            obtain ⟨b1, b2⟩ := ihS st1 rest properties1 required1 addl out h a1
            exact ⟨b1, fun m hm => b2 m (a2 m hm)⟩
    · -- emitKeys
      intro st keys vt opt arr properties required out h hst
      cases keys with
      | nil =>
        rw [show emitKeysGemini doc (f+1) st [] vt opt arr properties required
            = .ok (properties, required, st) from rfl] at h
        cases h; exact ⟨hst, fun m hm => hm⟩
      | cons key krest =>
        rw [show emitKeysGemini doc (f+1) st (key :: krest) vt opt arr properties required
            = (match emitGemini doc f st vt with
               | .error e => .error e
               | .ok (base, st1) =>
                 emitKeysGemini doc f st1 krest vt opt arr
                   (rset properties (litKeyString key) (if arr then arrayOf base else base))
                   (if opt then required else required ++ [litKeyString key])) from rfl] at h
        cases h1 : emitGemini doc f st vt with
        | error e => rw [h1] at h; cases h
        | ok p =>
          obtain ⟨base, st1⟩ := p
          rw [h1] at h; simp only at h
          obtain ⟨a1, a2⟩ := ihM st vt base st1 h1 hst
          obtain ⟨b1, b2⟩ := ihK st1 krest vt opt arr _ _ out h a1
          exact ⟨b1, fun m hm => b2 m (a2 m hm)⟩
    · -- emitProps
      intro st props properties required out h hst
      cases props with
      | nil =>
        rw [show emitPropsGemini doc (f+1) st [] properties required
            = .ok (properties, required, st) from rfl] at h
        cases h; exact ⟨hst, fun m hm => hm⟩
      | cons p prest =>
        rw [show emitPropsGemini doc (f+1) st (p :: prest) properties required
            = (match emitGemini doc f st p.type with
               | .error e => .error e
               | .ok (base, st1) =>
                 emitPropsGemini doc f st1 prest
                   (rset properties p.name (if p.isArray then arrayOf base else base))
                   (if p.optional then required else required ++ [p.name])) from rfl] at h
        cases h1 : emitGemini doc f st p.type with
        | error e => rw [h1] at h; cases h
        | ok q =>
          obtain ⟨base, st1⟩ := q
          rw [h1] at h; simp only at h
          obtain ⟨a1, a2⟩ := ihM st p.type base st1 h1 hst
          obtain ⟨b1, b2⟩ := ihP st1 prest _ _ out h a1
          exact ⟨b1, fun m hm => b2 m (a2 m hm)⟩

theorem initDefsO_keys (doc : TDLDoc) :
    ∀ (entries : List (String × TypeNode)) fuel st st',
      initDefsOpenAI doc fuel st entries = .ok st' → StK doc st →
      StK doc st' ∧ (∀ m ∈ rkeys st.defs, m ∈ rkeys st'.defs)
        ∧ (∀ p ∈ entries, p.1 ∈ rkeys st'.defs) := by
  intro entries
  induction entries with
  | nil =>
    intro fuel st st' h hst
    rw [initDefsOpenAI] at h
    cases h
    exact ⟨hst, fun m hm => hm, fun p hp => absurd hp (List.not_mem_nil _)⟩
  | cons e rest ih =>
    intro fuel st st' h hst
    obtain ⟨name, node⟩ := e
    rw [initDefsOpenAI] at h
    cases h1 : ensureDefOpenAI doc fuel st name with
    | error e2 => rw [h1] at h; cases h
    | ok st1 =>
      rw [h1] at h
      simp only at h
      obtain ⟨⟨k1, k2⟩, kname⟩ := (keysInvO doc fuel).1 st name st1 h1 hst
      obtain ⟨m1, m2, m3⟩ := ih fuel st1 st' h k1
      refine ⟨m1, fun m hm => m2 m (k2 m hm), ?_⟩
      intro p hp
      cases hp with
      | head => exact m2 name kname
      | tail _ hp => exact m3 p hp

theorem initDefsG_keys (doc : TDLDoc) :
    ∀ (entries : List (String × TypeNode)) fuel st st',
      initDefsGemini doc fuel st entries = .ok st' → StK doc st →
      StK doc st' ∧ (∀ m ∈ rkeys st.defs, m ∈ rkeys st'.defs)
        ∧ (∀ p ∈ entries, p.1 ∈ rkeys st'.defs) := by
  intro entries
  induction entries with
  | nil =>
    intro fuel st st' h hst
    rw [initDefsGemini] at h
    cases h
    exact ⟨hst, fun m hm => hm, fun p hp => absurd hp (List.not_mem_nil _)⟩
  | cons e rest ih =>
    intro fuel st st' h hst
    obtain ⟨name, node⟩ := e
    rw [initDefsGemini] at h
    cases h1 : ensureDefGemini doc fuel st name with
    | error e2 => rw [h1] at h; cases h
    | ok st1 =>
      rw [h1] at h
      simp only at h
      obtain ⟨⟨k1, k2⟩, kname⟩ := (keysInvG doc fuel).1 st name st1 h1 hst
      obtain ⟨m1, m2, m3⟩ := ih fuel st1 st' h k1
      refine ⟨m1, fun m hm => m2 m (k2 m hm), ?_⟩
      intro p hp
      cases hp with
      | head => exact m2 name kname
      | tail _ hp => exact m3 p hp

theorem rootSymsO_keys (doc : TDLDoc) :
    ∀ (syms : List SymbolDef) fuel st properties required out,
      rootSymsOpenAI doc fuel st syms properties required = .ok out → StK doc st →
      StK doc out.2.2 ∧ (∀ m ∈ rkeys st.defs, m ∈ rkeys out.2.2.defs) := by
  intro syms
  induction syms with
  | nil =>
    intro fuel st properties required out h hst
    rw [rootSymsOpenAI] at h
    cases h
    exact ⟨hst, fun m hm => hm⟩
  | cons sym rest ih =>
    intro fuel st properties required out h hst
    rw [rootSymsOpenAI] at h
    cases h1 : emitOpenAI doc fuel st sym.type with
    | error e => rw [h1] at h; cases h
    | ok p =>
      obtain ⟨base, st1⟩ := p
      rw [h1] at h
      simp only at h
      obtain ⟨a1, a2⟩ := (keysInvO doc fuel).2.1 st sym.type base st1 h1 hst
      obtain ⟨b1, b2⟩ := ih fuel st1 _ _ out h a1
      exact ⟨b1, fun m hm => b2 m (a2 m hm)⟩

theorem rootSymsG_keys (doc : TDLDoc) :
    ∀ (syms : List SymbolDef) fuel st properties required out,
      rootSymsGemini doc fuel st syms properties required = .ok out → StK doc st →
      StK doc out.2.2 ∧ (∀ m ∈ rkeys st.defs, m ∈ rkeys out.2.2.defs) := by
  intro syms
  induction syms with
  | nil =>
    intro fuel st properties required out h hst
    rw [rootSymsGemini] at h
    cases h
    exact ⟨hst, fun m hm => hm⟩
  | cons sym rest ih =>
    intro fuel st properties required out h hst
    rw [rootSymsGemini] at h
    cases h1 : emitGemini doc fuel st sym.type with
    | error e => rw [h1] at h; cases h
    | ok p =>
      obtain ⟨base, st1⟩ := p
      rw [h1] at h
      simp only at h
      obtain ⟨a1, a2⟩ := (keysInvG doc fuel).2.1 st sym.type base st1 h1 hst
      obtain ⟨b1, b2⟩ := ih fuel st1 _ _ out h a1
      exact ⟨b1, fun m hm => b2 m (a2 m hm)⟩

/-- Claim C2 counterexample: in the document declaring A before B where A
references B, both emitters populate $defs in emission-completion order, so
B precedes A in the output even though A is declared first; the claimed
source-declaration order does not hold. -/
theorem c2_counterexample :
    docDefsOrder.types.map Prod.fst = ["A", "B"]
    ∧ defsKeys (getOkJ (generateOpenAISchema docDefsOrder 20)) = ["B", "A"]
    ∧ defsKeys (getOkJ (generateGeminiSchema docDefsOrder 20)) = ["B", "A"]
    ∧ (["B", "A"] : List String) ≠ ["A", "B"] := by
  exact ⟨rfl, rfl, rfl, by decide⟩

/-- Claim C2 (amended): on success both emitters produce a $defs object
holding exactly one entry for every named type declared in the document
(reachable or not, no duplicates, no extras); the entry order is the order
in which definitions finish emission, not source declaration order. -/
theorem c2_defs_population :
    (∀ (doc : TDLDoc) (fuel : Nat) (root : J), generateOpenAISchema doc fuel = .ok root →
      (defsKeys root).Nodup ∧ (∀ n, n ∈ defsKeys root ↔ n ∈ doc.types.map Prod.fst))
    ∧ (∀ (doc : TDLDoc) (fuel : Nat) (root : J), generateGeminiSchema doc fuel = .ok root →
      (defsKeys root).Nodup ∧ (∀ n, n ∈ defsKeys root ↔ n ∈ doc.types.map Prod.fst)) := by
  constructor
  · intro doc fuel root hgen
    rw [generateOpenAISchema] at hgen
    cases h1 : initDefsOpenAI doc fuel initSt doc.types with
    | error e => rw [h1] at hgen; cases hgen
    | ok st =>
      rw [h1] at hgen
      simp only at hgen
      cases h2 : rootSymsOpenAI doc fuel st doc.symbols [] [] with
      | error e => rw [h2] at hgen; cases hgen
      | ok out =>
        obtain ⟨ps, rs, st2⟩ := out
        rw [h2] at hgen
        simp only [Except.ok.injEq] at hgen
        have hst0 : StK doc initSt := by
          refine ⟨?_, ?_, ?_⟩
          · intro n hn; exact absurd hn (List.not_mem_nil _)
          · intro n hn; exact absurd hn (List.not_mem_nil _)
          · exact List.nodup_nil
        obtain ⟨k1, _, k3⟩ := initDefsO_keys doc doc.types fuel initSt st h1 hst0
        obtain ⟨⟨m1, m2, m3⟩, mmono⟩ := rootSymsO_keys doc doc.symbols fuel st [] [] (ps, rs, st2) h2 k1
        have hdk : defsKeys root = rkeys st2.defs := by
          rw [← hgen]
          rfl
        rw [hdk]
        refine ⟨m3, ?_⟩
        intro n
        constructor
        · intro hn; exact m2 n hn
        · intro hn
          obtain ⟨p, hp, hp1⟩ := List.mem_map.mp hn
          exact hp1 ▸ mmono p.1 (k3 p hp)
  · intro doc fuel root hgen
    rw [generateGeminiSchema] at hgen
    cases h1 : initDefsGemini doc fuel initSt doc.types with
    | error e => rw [h1] at hgen; cases hgen
    | ok st =>
      rw [h1] at hgen
      simp only at hgen
      cases h2 : rootSymsGemini doc fuel st doc.symbols [] [] with
      | error e => rw [h2] at hgen; cases hgen
      | ok out =>
        obtain ⟨ps, rs, st2⟩ := out
        rw [h2] at hgen
        simp only [Except.ok.injEq] at hgen
        have hst0 : StK doc initSt := by
          refine ⟨?_, ?_, ?_⟩
          · intro n hn; exact absurd hn (List.not_mem_nil _)
          · intro n hn; exact absurd hn (List.not_mem_nil _)
          · exact List.nodup_nil
        obtain ⟨k1, _, k3⟩ := initDefsG_keys doc doc.types fuel initSt st h1 hst0
        obtain ⟨⟨m1, m2, m3⟩, mmono⟩ := rootSymsG_keys doc doc.symbols fuel st [] [] (ps, rs, st2) h2 k1
        have hdk : defsKeys root = rkeys st2.defs := by
          rw [← hgen]
          rfl
        rw [hdk]
        refine ⟨m3, ?_⟩
        intro n
        constructor
        · intro hn; exact m2 n hn
        · intro hn
          obtain ⟨p, hp, hp1⟩ := List.mem_map.mp hn
          exact hp1 ▸ mmono p.1 (k3 p hp)

/-- Claim C2 witness: the population characterization applied to the
witness document (one named type T, one symbol referencing it). -/
theorem c2_defs_population_witness :
    (defsKeys (getOkJ (generateOpenAISchema docWitness 20))).Nodup
    ∧ (∀ n, n ∈ defsKeys (getOkJ (generateOpenAISchema docWitness 20))
        ↔ n ∈ docWitness.types.map Prod.fst) := by
  exact c2_defs_population.1 docWitness 20 (getOkJ (generateOpenAISchema docWitness 20)) rfl

/-! Claim C6: Gemini optionality encoding. -/

theorem rget_mem : ∀ (r : JRec) (k : String) (v : J), rget r k = some v → (k, v) ∈ r := by
  intro r k v h
  induction r with
  | nil => cases h
  | cons hd tl ih =>
    obtain ⟨k', v'⟩ := hd
    by_cases hk : k' = k
    · rw [rget, if_pos hk] at h
      cases h
      subst hk
      exact List.mem_cons_self _ _
    · rw [rget, if_neg hk] at h
      exact List.mem_cons_of_mem _ (ih h)

theorem rget_rset_ne (r : JRec) (k k2 : String) (v : J) (h : k ≠ k2) :
    rget (rset r k v) k2 = rget r k2 := by
  induction r with
  | nil => simp [rset, rget, h]
  | cons hd tl ih =>
    obtain ⟨k', v'⟩ := hd
    by_cases hk : k' = k
    · rw [rset, if_pos hk]
      have h2 : ¬ k' = k2 := by rw [hk]; exact h
      rw [rget, rget]
      simp only [if_neg h2]
    · simp only [rset, if_neg hk]
      by_cases hk2 : k' = k2
      · simp [rget, hk2]
      · simp [rget, hk2, ih]

theorem typeHasObject_false_of_objs (fs : JRec) (h : ∀ p ∈ fs, isJObj p.2 = true) :
    typeHasObject fs = false := by
  cases hg : rget fs "type" with
  | none => simp [typeHasObject, hg]
  | some v =>
    have hv : isJObj v = true := h ("type", v) (rget_mem fs "type" v hg)
    cases v with
    | obj f2 => simp [typeHasObject, hg]
    | str s => exact Bool.noConfusion hv
    | num q => exact Bool.noConfusion hv
    | bool b => exact Bool.noConfusion hv
    | arr xs => exact Bool.noConfusion hv

theorem geminiObjOKFields_iff : ∀ fs : JRec, geminiObjOKFields fs = true ↔ ∀ p ∈ fs, geminiObjOK p.2 = true := by
  intro fs
  induction fs with
  | nil => simp [geminiObjOKFields]
  | cons hd tl ih =>
    obtain ⟨k, v⟩ := hd
    rw [geminiObjOKFields]
    simp [Bool.and_eq_true, ih, List.forall_mem_cons]

theorem geminiObjOKList_iff : ∀ xs : List J, geminiObjOKList xs = true ↔ ∀ x ∈ xs, geminiObjOK x = true := by
  intro xs
  induction xs with
  | nil => simp [geminiObjOKList]
  | cons x rest ih =>
    rw [geminiObjOKList]
    simp [Bool.and_eq_true, ih, List.forall_mem_cons]

theorem litToJ_okG (v : Lit) : geminiObjOK (litToJ v) = true := by
  cases v <;> rfl

theorem mapLit_okG (vs : List Lit) : geminiObjOKList (vs.map litToJ) = true := by
  rw [geminiObjOKList_iff]
  intro x hx
  obtain ⟨v, _, hv⟩ := List.mem_map.mp hx
  exact hv ▸ litToJ_okG v

theorem strList_okG (rs : List String) : geminiObjOKList (rs.map J.str) = true := by
  rw [geminiObjOKList_iff]
  intro x hx
  obtain ⟨r, _, hr⟩ := List.mem_map.mp hx
  rw [← hr]
  rfl

theorem contains_of_mem_rkeys (ks : List String) (n : String) (h : n ∈ ks) :
    ks.contains n = true := by
  exact List.elem_iff.mpr h

theorem geminiObjOK_build (ps : JRec) (rs : List String) (addl : J)
    (hps : ∀ p ∈ ps, isJObj p.2 = true ∧ geminiObjOK p.2 = true)
    (hreq : ∀ n ∈ rs, n ∈ rkeys ps)
    (haddl : geminiObjOK addl = true) :
    geminiObjOK (J.obj [("type", J.str "object"), ("properties", J.obj ps),
      ("required", J.arr (rs.map J.str)), ("additionalProperties", addl)]) = true := by
  rw [geminiObjOK]
  have hto : typeHasObject [("type", J.str "object"), ("properties", J.obj ps),
      ("required", J.arr (rs.map J.str)), ("additionalProperties", addl)] = true := by
    simp [typeHasObject, rget]
  rw [hto]
  simp only [if_true]
  have hsub : reqSubsetKeys [("type", J.str "object"), ("properties", J.obj ps),
      ("required", J.arr (rs.map J.str)), ("additionalProperties", addl)] = true := by
    rw [show reqSubsetKeys [("type", J.str "object"), ("properties", J.obj ps),
      ("required", J.arr (rs.map J.str)), ("additionalProperties", addl)]
      = (rs.map J.str).all (fun x => match x with | J.str s => (rkeys ps).contains s | _ => false) from rfl]
    rw [List.all_eq_true]
    intro x hx
    obtain ⟨r, hr, hrx⟩ := List.mem_map.mp hx
    rw [← hrx]
    exact contains_of_mem_rkeys _ _ (hreq r hr)
  rw [hsub]
  show geminiObjOKFields _ = true
  rw [geminiObjOKFields_iff]
  intro p hp
  rcases hp with _ | ⟨_, hp⟩
  · rfl
  rcases hp with _ | ⟨_, hp⟩
  · show geminiObjOK (J.obj ps) = true
    rw [geminiObjOK]
    rw [typeHasObject_false_of_objs ps (fun q hq => (hps q hq).1)]
    simp only [Bool.false_eq_true, if_false, Bool.true_and]
    rw [geminiObjOKFields_iff]
    exact fun q hq => (hps q hq).2
  rcases hp with _ | ⟨_, hp⟩
  · show geminiObjOK (J.arr (rs.map J.str)) = true
    rw [geminiObjOK]
    exact strList_okG rs
  rcases hp with _ | ⟨_, hp⟩
  · exact haddl
  · cases hp

theorem arrayOf_okG (base : J) (h : geminiObjOK base = true) :
    geminiObjOK (arrayOf base) = true := by
  rw [show arrayOf base = J.obj [("type", J.str "array"), ("items", base)] from rfl]
  rw [geminiObjOK]
  rw [show typeHasObject [("type", J.str "array"), ("items", base)] = false from by
    simp [typeHasObject, rget]]
  simp only [Bool.false_eq_true, if_false, Bool.true_and]
  rw [geminiObjOKFields_iff]
  intro p hp
  rcases hp with _ | ⟨_, hp⟩
  · rfl
  rcases hp with _ | ⟨_, hp⟩
  · exact h
  · cases hp

theorem unionLiteralType_ne_object (vs : List Lit) (t : String)
    (h : unionLiteralType vs = some t) : (t = "object") = False := by
  rw [unionLiteralType.eq_def] at h
  cases vs with
  | nil => cases h
  | cons v rest =>
    simp only at h
    by_cases hall : rest.all (fun w => litKind w = litKind v) = true
    · rw [if_pos hall] at h
      cases h
      cases hk : litKind v <;> simp [hk]
    · rw [if_neg hall] at h
      cases h

theorem okG_obj_noObjType (fs : JRec) (hto : typeHasObject fs = false)
    (hf : ∀ p ∈ fs, geminiObjOK p.2 = true) : geminiObjOK (J.obj fs) = true := by
  rw [geminiObjOK, hto]
  simp only [Bool.false_eq_true, if_false, Bool.true_and]
  rw [geminiObjOKFields_iff]
  exact hf

theorem primOKG (p : PrimName) : JOKG (primitiveToSchema p) := by
  cases p <;> exact ⟨rfl, by decide⟩

theorem placeholderOKG : JOKG placeholderGemini := ⟨rfl, by decide⟩

theorem typeHasObject_enum_type (es : List J) (t : String) (hne : ¬ t = "object") :
    typeHasObject [("enum", J.arr es), ("type", J.str t)] = false := by
  show decide (t = "object") = false
  exact decide_eq_false hne

theorem litSchemaOKG (t : String) (x : J)
    (hto : typeHasObject [("type", J.str t), ("enum", J.arr [x])] = false)
    (hx : geminiObjOK x = true) :
    JOKG (J.obj [("type", J.str t), ("enum", J.arr [x])]) := by
  refine ⟨rfl, okG_obj_noObjType _ hto ?_⟩
  intro p hp
  rcases hp with _ | ⟨_, hp⟩
  · rfl
  rcases hp with _ | ⟨_, hp⟩
  · show geminiObjOK (J.arr [x]) = true
    simp [geminiObjOK, geminiObjOKList, hx]
  · cases hp

theorem okInvG (doc : TDLDoc) : ∀ fuel,
    (∀ st name st', ensureDefGemini doc fuel st name = .ok st' → DefsOKG st → DefsOKG st')
    ∧ (∀ st n j st', emitGemini doc fuel st n = .ok (j, st') → DefsOKG st → JOKG j ∧ DefsOKG st')
    ∧ (∀ st ns js st', emitListGemini doc fuel st ns = .ok (js, st') → DefsOKG st →
        (∀ jj ∈ js, JOKG jj) ∧ DefsOKG st')
    ∧ (∀ st sigs props closed j st', emitObjectGemini doc fuel st sigs props closed = .ok (j, st') →
        DefsOKG st → JOKG j ∧ DefsOKG st')
    ∧ (∀ st sigs properties required addl out,
        emitSigsGemini doc fuel st sigs properties required addl = .ok out → DefsOKG st →
        AccG properties required → geminiObjOK addl = true →
        (AccG out.1 out.2.1 ∧ geminiObjOK out.2.2.1 = true) ∧ DefsOKG out.2.2.2)
    ∧ (∀ st keys vt opt arr properties required out,
        emitKeysGemini doc fuel st keys vt opt arr properties required = .ok out → DefsOKG st →
        AccG properties required → AccG out.1 out.2.1 ∧ DefsOKG out.2.2)
    ∧ (∀ st props properties required out,
        emitPropsGemini doc fuel st props properties required = .ok out → DefsOKG st →
        AccG properties required → AccG out.1 out.2.1 ∧ DefsOKG out.2.2) := by
  intro fuel
  induction fuel with
  | zero =>
    refine ⟨?_, ?_, ?_, ?_, ?_, ?_, ?_⟩
    · intro st name st' h; cases h
    · intro st n j st' h; cases h
    · intro st ns js st' h; cases h
    · intro st sigs props closed j st' h; cases h
    · intro st sigs properties required addl out h; cases h
    · intro st keys vt opt arr properties required out h; cases h
    · intro st props properties required out h; cases h
  | succ f ih =>
    obtain ⟨ihE, ihM, ihL, ihO, ihS, ihK, ihP⟩ := ih
    refine ⟨?_, ?_, ?_, ?_, ?_, ?_, ?_⟩
    · -- ensureDef
      intro st name st' h hst
      rw [ensureDefGemini] at h
      by_cases hin : (rget st.defs name).isSome
      · rw [if_pos hin] at h
        cases h
        exact hst
      · rw [if_neg hin] at h
        by_cases hstk : name ∈ st.stack
        · rw [if_pos hstk] at h
          cases h
          exact rset_values _ _ _ _ hst placeholderOKG
        · rw [if_neg hstk] at h
          cases hlk : lookupType doc name with
          | none => rw [hlk] at h; cases h
          | some node =>
            rw [hlk] at h
            simp only at h
            cases he : emitGemini doc f { st with stack := name :: st.stack } node with
            | error e => rw [he] at h; cases h
            | ok p =>
              obtain ⟨schema, st2⟩ := p
              rw [he] at h
              simp only at h
              cases h
              obtain ⟨hjok, hdefs2⟩ := ihM _ node schema st2 he hst
              exact rset_values _ _ _ _ hdefs2 hjok
    · -- emit
      intro st n j st' h hst
      cases n with
      | primitive p =>
        rw [show emitGemini doc (f+1) st (.primitive p) = .ok (primitiveToSchema p, st) from rfl] at h
        cases h; exact ⟨primOKG p, hst⟩
      | stringLit v =>
        rw [show emitGemini doc (f+1) st (.stringLit v)
            = .ok (J.obj [("type", J.str "string"), ("enum", J.arr [J.str v])], st) from rfl] at h
        cases h; exact ⟨litSchemaOKG "string" (J.str v) rfl rfl, hst⟩
      | numberLit v =>
        rw [show emitGemini doc (f+1) st (.numberLit v)
            = .ok (J.obj [("type", J.str "number"), ("enum", J.arr [J.num v])], st) from rfl] at h
        cases h; exact ⟨litSchemaOKG "number" (J.num v) rfl rfl, hst⟩
      | booleanLit v =>
        rw [show emitGemini doc (f+1) st (.booleanLit v)
            = .ok (J.obj [("type", J.str "boolean"), ("enum", J.arr [J.bool v])], st) from rfl] at h
        cases h; exact ⟨litSchemaOKG "boolean" (J.bool v) rfl rfl, hst⟩
      | typeRef name =>
        rw [show emitGemini doc (f+1) st (.typeRef name)
            = (match ensureDefGemini doc f st name with
               | .error e => .error e
               | .ok st1 => .ok (J.obj [("$ref", J.str ("#/$defs/" ++ name))], st1)) from rfl] at h
        cases he : ensureDefGemini doc f st name with
        | error e => rw [he] at h; cases h
        | ok st1 =>
          rw [he] at h; simp only at h; cases h
          refine ⟨⟨rfl, okG_obj_noObjType _ rfl ?_⟩, ihE st name st' he hst⟩
          intro p hp
          rcases hp with _ | ⟨_, hp⟩
          · rfl
          · cases hp
      | union ms =>
        rw [show emitGemini doc (f+1) st (.union ms)
            = (if ms.all isScalarLiteral then
                 match unionLiteralType (ms.filterMap litValue?) with
                 | some t => .ok (J.obj [("enum", J.arr ((ms.filterMap litValue?).map litToJ)), ("type", J.str t)], st)
                 | none => .ok (J.obj [("enum", J.arr ((ms.filterMap litValue?).map litToJ))], st)
               else
                 match emitListGemini doc f st ms with
                 | .error e => .error e
                 | .ok (js, st1) => .ok (J.obj [("anyOf", J.arr js)], st1)) from rfl] at h
        by_cases hall : ms.all isScalarLiteral = true
        · rw [if_pos hall] at h
          cases hu : unionLiteralType (ms.filterMap litValue?) with
          | some t =>
            rw [hu] at h; simp only at h; cases h
            have hne : ¬ t = "object" := fun hc => (unionLiteralType_ne_object _ t hu ▸ hc : False).elim
            refine ⟨⟨rfl, okG_obj_noObjType _ (typeHasObject_enum_type _ t hne) ?_⟩, hst⟩
            intro p hp
            rcases hp with _ | ⟨_, hp⟩
            · show geminiObjOK (J.arr ((ms.filterMap litValue?).map litToJ)) = true
              rw [geminiObjOK]
              exact mapLit_okG _
            rcases hp with _ | ⟨_, hp⟩
            · rfl
            · cases hp
          | none =>
            rw [hu] at h; simp only at h; cases h
            refine ⟨⟨rfl, okG_obj_noObjType _ rfl ?_⟩, hst⟩
            intro p hp
            rcases hp with _ | ⟨_, hp⟩
            · show geminiObjOK (J.arr ((ms.filterMap litValue?).map litToJ)) = true
              rw [geminiObjOK]
              exact mapLit_okG _
            · cases hp
        · rw [if_neg hall] at h
          cases hl : emitListGemini doc f st ms with
          | error e => rw [hl] at h; cases h
          | ok p =>
            obtain ⟨js, st1⟩ := p
            rw [hl] at h; simp only at h; cases h
            obtain ⟨hjs, hdefs⟩ := ihL st ms js st' hl hst
            refine ⟨⟨rfl, okG_obj_noObjType _ rfl ?_⟩, hdefs⟩
            intro p hp
            rcases hp with _ | ⟨_, hp⟩
            · show geminiObjOK (J.arr js) = true
              rw [geminiObjOK]
              rw [geminiObjOKList_iff]
              exact fun x hx => (hjs x hx).2
            · cases hp
      | intersection ms =>
        rw [show emitGemini doc (f+1) st (.intersection ms)
            = (match mergeObjectsGemini doc f ms with
               | .error e => .error e
               | .ok (props, sigs, closed) => emitObjectGemini doc f st sigs props closed) from rfl] at h
        cases hm : mergeObjectsGemini doc f ms with
        | error e => rw [hm] at h; cases h
        | ok o =>
          obtain ⟨props, sigs, closed⟩ := o
          rw [hm] at h; simp only at h
          exact ihO st sigs props closed j st' h hst
      | object props sigs closed =>
        rw [show emitGemini doc (f+1) st (.object props sigs closed)
            = emitObjectGemini doc f st sigs props closed from rfl] at h
        exact ihO st sigs props closed j st' h hst
    · -- emitList
      intro st ns js st' h hst
      cases ns with
      | nil =>
        rw [show emitListGemini doc (f+1) st [] = .ok ([], st) from rfl] at h
        cases h
        exact ⟨fun jj hjj => absurd hjj (List.not_mem_nil _), hst⟩
      | cons n rest =>
        rw [show emitListGemini doc (f+1) st (n :: rest)
            = (match emitGemini doc f st n with
               | .error e => .error e
               | .ok (jj, st1) =>
                 match emitListGemini doc f st1 rest with
                 | .error e => .error e
                 | .ok (jjs, st2) => .ok (jj :: jjs, st2)) from rfl] at h
        cases h1 : emitGemini doc f st n with
        | error e => rw [h1] at h; cases h
        | ok p =>
          obtain ⟨jj, st1⟩ := p
          rw [h1] at h; simp only at h
          cases h2 : emitListGemini doc f st1 rest with
          | error e => rw [h2] at h; cases h
          | ok q =>
            obtain ⟨jjs, st2⟩ := q
            rw [h2] at h; simp only at h; cases h
            obtain ⟨a1, a2⟩ := ihM st n jj st1 h1 hst
            obtain ⟨b1, b2⟩ := ihL st1 rest jjs st' h2 a2
            refine ⟨?_, b2⟩
            intro x hx
            rcases List.mem_cons.mp hx with hx | hx
            · exact hx ▸ a1
            · exact b1 x hx
    · -- emitObject
      intro st sigs props closed j st' h hst
      rw [show emitObjectGemini doc (f+1) st sigs props closed
          = (match emitSigsGemini doc f st sigs [] [] (if closed then J.bool false else J.bool true) with
             | .error e => .error e
             | .ok (properties, required, addl, st1) =>
               match emitPropsGemini doc f st1 props properties required with
               | .error e => .error e
               | .ok (properties2, required2, st2) =>
                 .ok (J.obj [("type", J.str "object"), ("properties", J.obj properties2),
                             ("required", J.arr (required2.map J.str)),
                             ("additionalProperties", addl)], st2)) from rfl] at h
      cases h1 : emitSigsGemini doc f st sigs [] [] (if closed then J.bool false else J.bool true) with
      | error e => rw [h1] at h; cases h
      | ok out1 =>
        obtain ⟨properties1, required1, addl1, st1⟩ := out1
        rw [h1] at h; simp only at h
        cases h2 : emitPropsGemini doc f st1 props properties1 required1 with
        | error e => rw [h2] at h; cases h
        | ok out2 =>
          obtain ⟨properties2, required2, st2⟩ := out2
          rw [h2] at h; simp only at h; cases h
          have hacc0 : AccG [] [] :=
            ⟨fun p hp => absurd hp (List.not_mem_nil _), fun n hn => absurd hn (List.not_mem_nil _)⟩
          have haddl0 : geminiObjOK (if closed then J.bool false else J.bool true) = true := by
            cases closed <;> rfl
          obtain ⟨⟨acc1, haddl1⟩, hdefs1⟩ :=
            ihS st sigs [] [] (if closed then J.bool false else J.bool true)
              (properties1, required1, addl1, st1) h1 hst hacc0 haddl0
          obtain ⟨acc2, hdefs2⟩ :=
            ihP st1 props properties1 required1 (properties2, required2, st') h2 hdefs1 acc1
          refine ⟨⟨rfl, ?_⟩, hdefs2⟩
          exact geminiObjOK_build properties2 required2 addl1
            (fun p hp => acc2.1 p hp) acc2.2 haddl1
    · -- emitSigs
      intro st sigs properties required addl out h hst hacc haddl
      cases sigs with
      | nil =>
        rw [show emitSigsGemini doc (f+1) st [] properties required addl
            = .ok (properties, required, addl, st) from rfl] at h
        cases h
        exact ⟨⟨hacc, haddl⟩, hst⟩
      | cons sig rest =>
        obtain ⟨kind, keys, vt, opt, arr⟩ := sig
        cases kind with
        | string =>
          cases opt with
          | false =>
            rw [show emitSigsGemini doc (f+1) st (.mk .string keys vt false arr :: rest) properties required addl
                = (match emitGemini doc f st vt with
                   | .error e => .error e
                   | .ok (base, st1) =>
                     emitSigsGemini doc f st1 rest properties required
                       (if arr then arrayOf base else base)) from rfl] at h
            cases h1 : emitGemini doc f st vt with
            | error e => rw [h1] at h; cases h
            | ok p =>
              obtain ⟨base, st1⟩ := p
              rw [h1] at h; simp only at h
              obtain ⟨a1, a2⟩ := ihM st vt base st1 h1 hst
              have haddl1 : geminiObjOK (if arr then arrayOf base else base) = true := by
                cases arr with
                | false => exact a1.2
                | true => exact arrayOf_okG base a1.2
              exact ihS st1 rest properties required _ out h a2 hacc haddl1
          | true =>
            rw [show emitSigsGemini doc (f+1) st (.mk .string keys vt true arr :: rest) properties required addl
                = (match emitGemini doc f st vt with
                   | .error e => .error e
                   | .ok (cond, stc) =>
                     if isNeverSchema cond then
                       emitSigsGemini doc f stc rest properties required (J.bool false)
                     else
                       match emitGemini doc f stc vt with
                       | .error e => .error e
                       | .ok (base, st1) =>
                         emitSigsGemini doc f st1 rest properties required
                           (if arr then arrayOf base else base)) from rfl] at h
            cases h1 : emitGemini doc f st vt with
            | error e => rw [h1] at h; cases h
            | ok p =>
              obtain ⟨cond, stc⟩ := p
              rw [h1] at h; simp only at h
              obtain ⟨a1, a2⟩ := ihM st vt cond stc h1 hst
              by_cases hns : isNeverSchema cond = true
              · rw [if_pos hns] at h
                exact ihS stc rest properties required _ out h a2 hacc rfl
              · rw [if_neg hns] at h
                cases h2 : emitGemini doc f stc vt with
                | error e => rw [h2] at h; cases h
                | ok q =>
                  obtain ⟨base, st1⟩ := q
                  rw [h2] at h; simp only at h
                  obtain ⟨b1, b2⟩ := ihM stc vt base st1 h2 a2
                  have haddl1 : geminiObjOK (if arr then arrayOf base else base) = true := by
                    cases arr with
                    | false => exact b1.2
                    | true => exact arrayOf_okG base b1.2
                  exact ihS st1 rest properties required _ out h b2 hacc haddl1
        | enum =>
          rw [show emitSigsGemini doc (f+1) st (.mk .enum keys vt opt arr :: rest) properties required addl
              = (match emitKeysGemini doc f st keys vt opt arr properties required with
                 | .error e => .error e
                 | .ok (properties1, required1, st1) =>
                   emitSigsGemini doc f st1 rest properties1 required1 addl) from rfl] at h
          cases h1 : emitKeysGemini doc f st keys vt opt arr properties required with
          | error e => rw [h1] at h; cases h
          | ok p =>
            obtain ⟨properties1, required1, st1⟩ := p
            rw [h1] at h; simp only at h
            obtain ⟨a1, a2⟩ := ihK st keys vt opt arr properties required (properties1, required1, st1) h1 hst hacc
            exact ihS st1 rest properties1 required1 addl out h a2 a1 haddl
    · -- emitKeys
      intro st keys vt opt arr properties required out h hst hacc
      cases keys with
      | nil =>
        rw [show emitKeysGemini doc (f+1) st [] vt opt arr properties required
            = .ok (properties, required, st) from rfl] at h
        cases h
        exact ⟨hacc, hst⟩
      | cons key krest =>
        rw [show emitKeysGemini doc (f+1) st (key :: krest) vt opt arr properties required
            = (match emitGemini doc f st vt with
               | .error e => .error e
               | .ok (base, st1) =>
                 emitKeysGemini doc f st1 krest vt opt arr
                   (rset properties (litKeyString key) (if arr then arrayOf base else base))
                   (if opt then required else required ++ [litKeyString key])) from rfl] at h
        cases h1 : emitGemini doc f st vt with
        | error e => rw [h1] at h; cases h
        | ok p =>
          obtain ⟨base, st1⟩ := p
          rw [h1] at h; simp only at h
          obtain ⟨a1, a2⟩ := ihM st vt base st1 h1 hst
          have hwa : JOKG (if arr then arrayOf base else base) := by
            cases arr with
            | false => exact a1
            | true => exact ⟨rfl, arrayOf_okG base a1.2⟩
          have hacc1 : AccG (rset properties (litKeyString key) (if arr then arrayOf base else base))
              (if opt then required else required ++ [litKeyString key]) := by
            obtain ⟨av, ar⟩ := hacc
            refine ⟨rset_values _ _ _ _ av hwa, ?_⟩
            intro n hn
            rw [mem_rkeys_rset]
            cases opt with
            | false =>
              rcases List.mem_append.mp hn with hn | hn
              · exact Or.inr (ar n hn)
              · exact Or.inl (List.mem_singleton.mp hn)
            | true => exact Or.inr (ar n hn)
          exact ihK st1 krest vt opt arr _ _ out h a2 hacc1
    · -- emitProps
      intro st props properties required out h hst hacc
      cases props with
      | nil =>
        rw [show emitPropsGemini doc (f+1) st [] properties required
            = .ok (properties, required, st) from rfl] at h
        cases h
        exact ⟨hacc, hst⟩
      | cons p prest =>
        obtain ⟨pname, ptype, popt, parr⟩ := p
        rw [show emitPropsGemini doc (f+1) st (.mk pname ptype popt parr :: prest) properties required
            = (match emitGemini doc f st ptype with
               | .error e => .error e
               | .ok (base, st1) =>
                 emitPropsGemini doc f st1 prest
                   (rset properties pname (if parr then arrayOf base else base))
                   (if popt then required else required ++ [pname])) from rfl] at h
        cases h1 : emitGemini doc f st ptype with
        | error e => rw [h1] at h; cases h
        | ok q =>
          obtain ⟨base, st1⟩ := q
          rw [h1] at h; simp only at h
          obtain ⟨a1, a2⟩ := ihM st ptype base st1 h1 hst
          have hwa : JOKG (if parr then arrayOf base else base) := by
            cases parr with
            | false => exact a1
            | true => exact ⟨rfl, arrayOf_okG base a1.2⟩
          have hacc1 : AccG (rset properties pname (if parr then arrayOf base else base))
              (if popt then required else required ++ [pname]) := by
            obtain ⟨av, ar⟩ := hacc
            refine ⟨rset_values _ _ _ _ av hwa, ?_⟩
            intro n hn
            rw [mem_rkeys_rset]
            cases popt with
            | false =>
              rcases List.mem_append.mp hn with hn | hn
              · exact Or.inr (ar n hn)
              · exact Or.inl (List.mem_singleton.mp hn)
            | true => exact Or.inr (ar n hn)
          exact ihP st1 prest _ _ out h a2 hacc1

theorem geminiObjOK_buildRoot (ps : JRec) (rs : List String) (ds : JRec)
    (hps : ∀ p ∈ ps, isJObj p.2 = true ∧ geminiObjOK p.2 = true)
    (hreq : ∀ n ∈ rs, n ∈ rkeys ps)
    (hds : ∀ p ∈ ds, isJObj p.2 = true ∧ geminiObjOK p.2 = true) :
    geminiObjOK (J.obj [("type", J.str "object"), ("properties", J.obj ps),
      ("required", J.arr (rs.map J.str)), ("additionalProperties", J.bool false),
      ("$defs", J.obj ds)]) = true := by
  rw [geminiObjOK]
  have hto : typeHasObject [("type", J.str "object"), ("properties", J.obj ps),
      ("required", J.arr (rs.map J.str)), ("additionalProperties", J.bool false),
      ("$defs", J.obj ds)] = true := by
    simp [typeHasObject, rget]
  rw [hto]
  simp only [if_true]
  have hsub : reqSubsetKeys [("type", J.str "object"), ("properties", J.obj ps),
      ("required", J.arr (rs.map J.str)), ("additionalProperties", J.bool false),
      ("$defs", J.obj ds)] = true := by
    rw [show reqSubsetKeys [("type", J.str "object"), ("properties", J.obj ps),
      ("required", J.arr (rs.map J.str)), ("additionalProperties", J.bool false),
      ("$defs", J.obj ds)]
      = (rs.map J.str).all (fun x => match x with | J.str s => (rkeys ps).contains s | _ => false) from rfl]
    rw [List.all_eq_true]
    intro x hx
    obtain ⟨r, hr, hrx⟩ := List.mem_map.mp hx
    rw [← hrx]
    exact contains_of_mem_rkeys _ _ (hreq r hr)
  rw [hsub]
  show geminiObjOKFields _ = true
  rw [geminiObjOKFields_iff]
  intro p hp
  rcases hp with _ | ⟨_, hp⟩
  · rfl
  rcases hp with _ | ⟨_, hp⟩
  · show geminiObjOK (J.obj ps) = true
    rw [geminiObjOK]
    rw [typeHasObject_false_of_objs ps (fun q hq => (hps q hq).1)]
    simp only [Bool.false_eq_true, if_false, Bool.true_and]
    rw [geminiObjOKFields_iff]
    exact fun q hq => (hps q hq).2
  rcases hp with _ | ⟨_, hp⟩
  · show geminiObjOK (J.arr (rs.map J.str)) = true
    rw [geminiObjOK]
    exact strList_okG rs
  rcases hp with _ | ⟨_, hp⟩
  · rfl
  rcases hp with _ | ⟨_, hp⟩
  · show geminiObjOK (J.obj ds) = true
    rw [geminiObjOK]
    rw [typeHasObject_false_of_objs ds (fun q hq => (hds q hq).1)]
    simp only [Bool.false_eq_true, if_false, Bool.true_and]
    rw [geminiObjOKFields_iff]
    exact fun q hq => (hds q hq).2
  · cases hp

theorem initDefsG_ok (doc : TDLDoc) :
    ∀ (entries : List (String × TypeNode)) fuel st st',
      initDefsGemini doc fuel st entries = .ok st' → DefsOKG st → DefsOKG st' := by
  intro entries
  induction entries with
  | nil =>
    intro fuel st st' h hst
    rw [initDefsGemini] at h
    cases h
    exact hst
  | cons e rest ih =>
    intro fuel st st' h hst
    obtain ⟨name, node⟩ := e
    rw [initDefsGemini] at h
    cases h1 : ensureDefGemini doc fuel st name with
    | error e2 => rw [h1] at h; cases h
    | ok st1 =>
      rw [h1] at h
      simp only at h
      exact ih fuel st1 st' h ((okInvG doc fuel).1 st name st1 h1 hst)

theorem rootSymsG_ok (doc : TDLDoc) (fuel : Nat) :
    ∀ (syms : List SymbolDef) st ps rs out,
      rootSymsGemini doc fuel st syms ps rs = .ok out → DefsOKG st → AccG ps rs →
      AccG out.1 out.2.1 ∧ DefsOKG out.2.2 := by
  intro syms
  induction syms with
  | nil =>
    intro st ps rs out h hst hacc
    rw [rootSymsGemini] at h
    cases h
    exact ⟨hacc, hst⟩
  | cons sym rest ih =>
    intro st ps rs out h hst hacc
    rw [rootSymsGemini] at h
    cases h1 : emitGemini doc fuel st sym.type with
    | error e => rw [h1] at h; cases h
    | ok p =>
      obtain ⟨base, st1⟩ := p
      rw [h1] at h
      simp only at h
      obtain ⟨a1, a2⟩ := (okInvG doc fuel).2.1 st sym.type base st1 h1 hst
      have hwa : JOKG (if sym.isArray then arrayOf base else base) := by
        cases hb : sym.isArray with
        | false => exact a1
        | true => exact ⟨rfl, arrayOf_okG base a1.2⟩
      have hacc1 : AccG (rset ps sym.name (if sym.isArray then arrayOf base else base))
          (if sym.optional then rs else rs ++ [sym.name]) := by
        obtain ⟨av, ar⟩ := hacc
        refine ⟨rset_values _ _ _ _ av hwa, ?_⟩
        intro n hn
        rw [mem_rkeys_rset]
        cases hb : sym.optional with
        | false =>
          rw [hb] at hn
          simp only [Bool.false_eq_true, if_false] at hn
          rcases List.mem_append.mp hn with hn | hn
          · exact Or.inr (ar n hn)
          · exact Or.inl (List.mem_singleton.mp hn)
        | true =>
          rw [hb] at hn
          simp only [if_true] at hn
          exact Or.inr (ar n hn)
      exact ih st1 _ _ out h a2 hacc1

theorem getRequired_strs : ∀ rs : List String,
    (rs.map J.str).filterMap (fun x => match x with | J.str s => some s | _ => none) = rs := by
  intro rs
  induction rs with
  | nil => rfl
  | cons r rest ih => simp [List.filterMap_cons, ih]

theorem emitKeysG_req_iff (doc : TDLDoc) : ∀ fuel st keys vt opt arr properties required out,
    emitKeysGemini doc fuel st keys vt opt arr properties required = .ok out →
    ∀ nm, nm ∈ out.2.1 ↔ nm ∈ required ∨ (opt = false ∧ nm ∈ keys.map litKeyString) := by
  intro fuel
  induction fuel with
  | zero => intro st keys vt opt arr properties required out h; cases h
  | succ f ih =>
    intro st keys vt opt arr properties required out h nm
    cases keys with
    | nil =>
      rw [show emitKeysGemini doc (f+1) st [] vt opt arr properties required
          = .ok (properties, required, st) from rfl] at h
      cases h
      simp
    | cons key krest =>
      rw [show emitKeysGemini doc (f+1) st (key :: krest) vt opt arr properties required
          = (match emitGemini doc f st vt with
             | .error e => .error e
             | .ok (base, st1) =>
               emitKeysGemini doc f st1 krest vt opt arr
                 (rset properties (litKeyString key) (if arr then arrayOf base else base))
                 (if opt then required else required ++ [litKeyString key])) from rfl] at h
      cases h1 : emitGemini doc f st vt with
      | error e => rw [h1] at h; cases h
      | ok p =>
        obtain ⟨base, st1⟩ := p
        rw [h1] at h; simp only at h
        rw [ih st1 krest vt opt arr _ _ out h nm]
        cases opt with
        | false =>
          simp only [Bool.false_eq_true, if_false, List.mem_append, List.mem_singleton,
            List.map_cons, List.mem_cons, true_and]
          tauto
        | true => simp

theorem emitSigsG_req_iff (doc : TDLDoc) : ∀ fuel st sigs properties required addl out,
    emitSigsGemini doc fuel st sigs properties required addl = .ok out →
    ∀ nm, nm ∈ out.2.1 ↔ nm ∈ required
      ∨ ∃ sig ∈ sigs, sig.kind = IdxKind.enum ∧ sig.optional = false
          ∧ nm ∈ sig.keys.map litKeyString := by
  intro fuel
  induction fuel with
  | zero => intro st sigs properties required addl out h; cases h
  | succ f ih =>
    intro st sigs properties required addl out h nm
    cases sigs with
    | nil =>
      rw [show emitSigsGemini doc (f+1) st [] properties required addl
          = .ok (properties, required, addl, st) from rfl] at h
      cases h
      simp
    | cons sig rest =>
      obtain ⟨kind, keys, vt, opt, arr⟩ := sig
      cases kind with
      | string =>
        cases opt with
        | false =>
          rw [show emitSigsGemini doc (f+1) st (.mk .string keys vt false arr :: rest) properties required addl
              = (match emitGemini doc f st vt with
                 | .error e => .error e
                 | .ok (base, st1) =>
                   emitSigsGemini doc f st1 rest properties required
                     (if arr then arrayOf base else base)) from rfl] at h
          cases h1 : emitGemini doc f st vt with
          | error e => rw [h1] at h; cases h
          | ok p =>
            obtain ⟨base, st1⟩ := p
            rw [h1] at h; simp only at h
            rw [ih st1 rest properties required _ out h nm]
            simp [IndexSigNode.kind, IndexSigNode.optional, IndexSigNode.keys]
        | true =>
          rw [show emitSigsGemini doc (f+1) st (.mk .string keys vt true arr :: rest) properties required addl
              = (match emitGemini doc f st vt with
                 | .error e => .error e
                 | .ok (cond, stc) =>
                   if isNeverSchema cond then
                     emitSigsGemini doc f stc rest properties required (J.bool false)
                   else
                     match emitGemini doc f stc vt with
                     | .error e => .error e
                     | .ok (base, st1) =>
                       emitSigsGemini doc f st1 rest properties required
                         (if arr then arrayOf base else base)) from rfl] at h
          cases h1 : emitGemini doc f st vt with
          | error e => rw [h1] at h; cases h
          | ok p =>
            obtain ⟨cond, stc⟩ := p
            rw [h1] at h; simp only at h
            by_cases hns : isNeverSchema cond = true
            · rw [if_pos hns] at h
              rw [ih stc rest properties required _ out h nm]
              simp [IndexSigNode.kind, IndexSigNode.optional, IndexSigNode.keys]
            · rw [if_neg hns] at h
              cases h2 : emitGemini doc f stc vt with
              | error e => rw [h2] at h; cases h
              | ok q =>
                obtain ⟨base, st1⟩ := q
                rw [h2] at h; simp only at h
                rw [ih st1 rest properties required _ out h nm]
                simp [IndexSigNode.kind, IndexSigNode.optional, IndexSigNode.keys]
      | enum =>
        rw [show emitSigsGemini doc (f+1) st (.mk .enum keys vt opt arr :: rest) properties required addl
            = (match emitKeysGemini doc f st keys vt opt arr properties required with
               | .error e => .error e
               | .ok (properties1, required1, st1) =>
                 emitSigsGemini doc f st1 rest properties1 required1 addl) from rfl] at h
        cases h1 : emitKeysGemini doc f st keys vt opt arr properties required with
        | error e => rw [h1] at h; cases h
        | ok p =>
          obtain ⟨properties1, required1, st1⟩ := p
          rw [h1] at h; simp only at h
          rw [ih st1 rest properties1 required1 addl out h nm]
          rw [show required1 = ((properties1, required1, st1) : JRec × List String × EmitSt).2.1 from rfl,
            emitKeysG_req_iff doc f st keys vt opt arr properties required (properties1, required1, st1) h1 nm]
          constructor
          · rintro ((hr | ⟨hopt, hk⟩) | ⟨sig, hsig, hP⟩)
            · exact Or.inl hr
            · exact Or.inr ⟨.mk .enum keys vt opt arr, List.mem_cons_self _ _, rfl, hopt, hk⟩
            · exact Or.inr ⟨sig, List.mem_cons_of_mem _ hsig, hP⟩
          · rintro (hr | ⟨sig, hsig, hP⟩)
            · exact Or.inl (Or.inl hr)
            · rcases List.mem_cons.mp hsig with rfl | hsig
              · obtain ⟨hk, ho, hm⟩ := hP
                exact Or.inl (Or.inr ⟨ho, hm⟩)
              · exact Or.inr ⟨sig, hsig, hP⟩

theorem emitPropsG_req_iff (doc : TDLDoc) : ∀ fuel st props properties required out,
    emitPropsGemini doc fuel st props properties required = .ok out →
    ∀ nm, nm ∈ out.2.1 ↔ nm ∈ required ∨ ∃ p ∈ props, p.name = nm ∧ p.optional = false := by
  intro fuel
  induction fuel with
  | zero => intro st props properties required out h; cases h
  | succ f ih =>
    intro st props properties required out h nm
    cases props with
    | nil =>
      rw [show emitPropsGemini doc (f+1) st [] properties required
          = .ok (properties, required, st) from rfl] at h
      cases h
      simp
    | cons p prest =>
      obtain ⟨pname, ptype, popt, parr⟩ := p
      rw [show emitPropsGemini doc (f+1) st (.mk pname ptype popt parr :: prest) properties required
          = (match emitGemini doc f st ptype with
             | .error e => .error e
             | .ok (base, st1) =>
               emitPropsGemini doc f st1 prest
                 (rset properties pname (if parr then arrayOf base else base))
                 (if popt then required else required ++ [pname])) from rfl] at h
      cases h1 : emitGemini doc f st ptype with
      | error e => rw [h1] at h; cases h
      | ok q =>
        obtain ⟨base, st1⟩ := q
        rw [h1] at h; simp only at h
        rw [ih st1 prest _ _ out h nm]
        cases popt with
        | false =>
          simp only [Bool.false_eq_true, if_false, List.mem_append, List.mem_singleton]
          constructor
          · rintro ((hr | hr) | ⟨p, hp, hP⟩)
            · exact Or.inl hr
            · exact Or.inr ⟨.mk pname ptype false parr, List.mem_cons_self _ _, hr.symm, rfl⟩
            · exact Or.inr ⟨p, List.mem_cons_of_mem _ hp, hP⟩
          · rintro (hr | ⟨p, hp, hP⟩)
            · exact Or.inl (Or.inl hr)
            · rcases List.mem_cons.mp hp with rfl | hp
              · exact Or.inl (Or.inr hP.1.symm)
              · exact Or.inr ⟨p, hp, hP⟩
        | true =>
          simp only [if_true]
          constructor
          · rintro (hr | ⟨p, hp, hP⟩)
            · exact Or.inl hr
            · exact Or.inr ⟨p, List.mem_cons_of_mem _ hp, hP⟩
          · rintro (hr | ⟨p, hp, hP⟩)
            · exact Or.inl hr
            · rcases List.mem_cons.mp hp with rfl | hp
              · exact absurd hP.2 (by simp [PropNode.optional])
              · exact Or.inr ⟨p, hp, hP⟩

theorem rootSymsG_req_iff (doc : TDLDoc) (fuel : Nat) :
    ∀ (syms : List SymbolDef) st ps rs out,
      rootSymsGemini doc fuel st syms ps rs = .ok out →
      ∀ nm, nm ∈ out.2.1 ↔ nm ∈ rs ∨ ∃ s ∈ syms, s.name = nm ∧ s.optional = false := by
  intro syms
  induction syms with
  | nil =>
    intro st ps rs out h nm
    rw [rootSymsGemini] at h
    cases h
    simp
  | cons sym rest ih =>
    intro st ps rs out h nm
    obtain ⟨sname, stype, sopt, sarr⟩ := sym
    rw [rootSymsGemini] at h
    cases h1 : emitGemini doc fuel st (SymbolDef.mk sname stype sopt sarr).type with
    | error e => rw [h1] at h; cases h
    | ok p =>
      obtain ⟨base, st1⟩ := p
      rw [h1] at h
      simp only at h
      rw [ih st1 _ _ out h nm]
      cases sopt with
      | false =>
        simp only [SymbolDef.optional, Bool.false_eq_true, if_false, List.mem_append,
          List.mem_singleton]
        constructor
        · rintro ((hr | hr) | ⟨s, hs, hP⟩)
          · exact Or.inl hr
          · exact Or.inr ⟨.mk sname stype false sarr, List.mem_cons_self _ _, hr.symm, rfl⟩
          · exact Or.inr ⟨s, List.mem_cons_of_mem _ hs, hP⟩
        · rintro (hr | ⟨s, hs, hP⟩)
          · exact Or.inl (Or.inl hr)
          · rcases List.mem_cons.mp hs with rfl | hs
            · exact Or.inl (Or.inr hP.1.symm)
            · exact Or.inr ⟨s, hs, hP⟩
      | true =>
        simp only [SymbolDef.optional, if_true]
        constructor
        · rintro (hr | ⟨s, hs, hP⟩)
          · exact Or.inl hr
          · exact Or.inr ⟨s, List.mem_cons_of_mem _ hs, hP⟩
        · rintro (hr | ⟨s, hs, hP⟩)
          · exact Or.inl hr
          · rcases List.mem_cons.mp hs with rfl | hs
            · exact absurd hP.2 (by simp)
            · exact Or.inr ⟨s, hs, hP⟩

theorem emitObjectG_req_iff (doc : TDLDoc) : ∀ fuel st sigs props closed j st',
    emitObjectGemini doc fuel st sigs props closed = .ok (j, st') →
    ∀ nm, nm ∈ getRequired j ↔
      (∃ sig ∈ sigs, sig.kind = IdxKind.enum ∧ sig.optional = false
          ∧ nm ∈ sig.keys.map litKeyString)
      ∨ ∃ p ∈ props, p.name = nm ∧ p.optional = false := by
  intro fuel
  cases fuel with
  | zero => intro st sigs props closed j st' h; cases h
  | succ f =>
    intro st sigs props closed j st' h nm
    rw [show emitObjectGemini doc (f+1) st sigs props closed
        = (match emitSigsGemini doc f st sigs [] [] (if closed then J.bool false else J.bool true) with
           | .error e => .error e
           | .ok (properties, required, addl, st1) =>
             match emitPropsGemini doc f st1 props properties required with
             | .error e => .error e
             | .ok (properties2, required2, st2) =>
               .ok (J.obj [("type", J.str "object"), ("properties", J.obj properties2),
                           ("required", J.arr (required2.map J.str)),
                           ("additionalProperties", addl)], st2)) from rfl] at h
    cases h1 : emitSigsGemini doc f st sigs [] [] (if closed then J.bool false else J.bool true) with
    | error e => rw [h1] at h; cases h
    | ok out1 =>
      obtain ⟨properties1, required1, addl1, st1⟩ := out1
      rw [h1] at h; simp only at h
      cases h2 : emitPropsGemini doc f st1 props properties1 required1 with
      | error e => rw [h2] at h; cases h
      | ok out2 =>
        obtain ⟨properties2, required2, st2⟩ := out2
        rw [h2] at h; simp only at h
        cases h
        rw [show getRequired (J.obj [("type", J.str "object"), ("properties", J.obj properties2),
            ("required", J.arr (required2.map J.str)), ("additionalProperties", addl1)])
            = (required2.map J.str).filterMap
                (fun x => match x with | J.str s => some s | _ => none) from rfl]
        rw [getRequired_strs]
        rw [show required2 = ((properties2, required2, st') : JRec × List String × EmitSt).2.1 from rfl,
          emitPropsG_req_iff doc f st1 props properties1 required1 (properties2, required2, st') h2 nm]
        rw [show required1 = ((properties1, required1, addl1, st1) : JRec × List String × J × EmitSt).2.1 from rfl,
          emitSigsG_req_iff doc f st sigs [] [] (if closed then J.bool false else J.bool true)
            (properties1, required1, addl1, st1) h1 nm]
        simp

theorem rootSymsG_opt_indep (doc : TDLDoc) (fuel : Nat) (g : SymbolDef → Bool) :
    ∀ (syms : List SymbolDef) st ps rs rs',
      (rootSymsGemini doc fuel st (syms.map (fun s => SymbolDef.mk s.name s.type (g s) s.isArray)) ps rs).map
          (fun out => (out.1, out.2.2))
      = (rootSymsGemini doc fuel st syms ps rs').map (fun out => (out.1, out.2.2)) := by
  intro syms
  induction syms with
  | nil => intro st ps rs rs'; rfl
  | cons sym rest ih =>
    intro st ps rs rs'
    obtain ⟨sname, stype, sopt, sarr⟩ := sym
    rw [show (SymbolDef.mk sname stype sopt sarr :: rest).map
          (fun s => SymbolDef.mk s.name s.type (g s) s.isArray)
        = SymbolDef.mk sname stype (g (SymbolDef.mk sname stype sopt sarr)) sarr
            :: rest.map (fun s => SymbolDef.mk s.name s.type (g s) s.isArray) from rfl]
    rw [show rootSymsGemini doc fuel st
          (SymbolDef.mk sname stype (g (SymbolDef.mk sname stype sopt sarr)) sarr
            :: rest.map (fun s => SymbolDef.mk s.name s.type (g s) s.isArray)) ps rs
        = (match emitGemini doc fuel st stype with
           | .error e => .error e
           | .ok (base, st1) =>
             rootSymsGemini doc fuel st1 (rest.map (fun s => SymbolDef.mk s.name s.type (g s) s.isArray))
               (rset ps sname (if sarr then arrayOf base else base))
               (if g (SymbolDef.mk sname stype sopt sarr) then rs else rs ++ [sname])) from rfl]
    rw [show rootSymsGemini doc fuel st (SymbolDef.mk sname stype sopt sarr :: rest) ps rs'
        = (match emitGemini doc fuel st stype with
           | .error e => .error e
           | .ok (base, st1) =>
             rootSymsGemini doc fuel st1 rest
               (rset ps sname (if sarr then arrayOf base else base))
               (if sopt then rs' else rs' ++ [sname])) from rfl]
    cases h1 : emitGemini doc fuel st stype with
    | error e => rfl
    | ok p =>
      obtain ⟨base, st1⟩ := p
      simp only
      exact ih st1 _ _ _

theorem emitPropsG_opt_indep (doc : TDLDoc) (g : PropNode → Bool) :
    ∀ fuel st props properties rs rs',
      (emitPropsGemini doc fuel st (props.map (fun p => PropNode.mk p.name p.type (g p) p.isArray)) properties rs).map
          (fun out => (out.1, out.2.2))
      = (emitPropsGemini doc fuel st props properties rs').map (fun out => (out.1, out.2.2)) := by
  intro fuel
  induction fuel with
  | zero => intro st props properties rs rs'; rfl
  | succ f ih =>
    intro st props properties rs rs'
    cases props with
    | nil => rfl
    | cons p prest =>
      obtain ⟨pname, ptype, popt, parr⟩ := p
      rw [show (PropNode.mk pname ptype popt parr :: prest).map
            (fun p => PropNode.mk p.name p.type (g p) p.isArray)
          = PropNode.mk pname ptype (g (PropNode.mk pname ptype popt parr)) parr
              :: prest.map (fun p => PropNode.mk p.name p.type (g p) p.isArray) from rfl]
      rw [show emitPropsGemini doc (f+1) st
            (PropNode.mk pname ptype (g (PropNode.mk pname ptype popt parr)) parr
              :: prest.map (fun p => PropNode.mk p.name p.type (g p) p.isArray)) properties rs
          = (match emitGemini doc f st ptype with
             | .error e => .error e
             | .ok (base, st1) =>
               emitPropsGemini doc f st1 (prest.map (fun p => PropNode.mk p.name p.type (g p) p.isArray))
                 (rset properties pname (if parr then arrayOf base else base))
                 (if g (PropNode.mk pname ptype popt parr) then rs else rs ++ [pname])) from rfl]
      rw [show emitPropsGemini doc (f+1) st (PropNode.mk pname ptype popt parr :: prest) properties rs'
          = (match emitGemini doc f st ptype with
             | .error e => .error e
             | .ok (base, st1) =>
               emitPropsGemini doc f st1 prest
                 (rset properties pname (if parr then arrayOf base else base))
                 (if popt then rs' else rs' ++ [pname])) from rfl]
      cases h1 : emitGemini doc f st ptype with
      | error e => rfl
      | ok q =>
        obtain ⟨base, st1⟩ := q
        simp only
        exact ih st1 prest _ _ _

theorem emitKeysG_opt_indep (doc : TDLDoc) :
    ∀ fuel st keys vt opt opt' arr properties rs rs',
      (emitKeysGemini doc fuel st keys vt opt arr properties rs).map (fun out => (out.1, out.2.2))
      = (emitKeysGemini doc fuel st keys vt opt' arr properties rs').map (fun out => (out.1, out.2.2)) := by
  intro fuel
  induction fuel with
  | zero => intro st keys vt opt opt' arr properties rs rs'; rfl
  | succ f ih =>
    intro st keys vt opt opt' arr properties rs rs'
    cases keys with
    | nil => rfl
    | cons key krest =>
      rw [show emitKeysGemini doc (f+1) st (key :: krest) vt opt arr properties rs
          = (match emitGemini doc f st vt with
             | .error e => .error e
             | .ok (base, st1) =>
               emitKeysGemini doc f st1 krest vt opt arr
                 (rset properties (litKeyString key) (if arr then arrayOf base else base))
                 (if opt then rs else rs ++ [litKeyString key])) from rfl]
      rw [show emitKeysGemini doc (f+1) st (key :: krest) vt opt' arr properties rs'
          = (match emitGemini doc f st vt with
             | .error e => .error e
             | .ok (base, st1) =>
               emitKeysGemini doc f st1 krest vt opt' arr
                 (rset properties (litKeyString key) (if arr then arrayOf base else base))
                 (if opt' then rs' else rs' ++ [litKeyString key])) from rfl]
      cases h1 : emitGemini doc f st vt with
      | error e => rfl
      | ok p =>
        obtain ⟨base, st1⟩ := p
        simp only
        exact ih st1 krest vt opt opt' arr _ _ _

/-- Claim C6 (amended): in the Gemini output optionality is encoded solely by
omission from required, never by nullability.  (1) Every object schema
anywhere in the output (root, $defs entries, nested) has its required array
a subset of its properties keys.  (2) At the root, a name is in required
exactly when some symbol with that name has optional = false.  (3) In an
emitted object, a name is in required exactly when some enum-signature key
or declared property with that name has optional = false.  (4)-(6) Flipping
optional flags of symbols, properties, or an enum signature changes neither
the emitted property schemas nor the emitter state: value schemas are
unchanged by optionality.  The original claim's clause that every
optional = true origin is absent from required fails when a non-optional
origin shares its name (see the counterexample). -/
theorem c6_gemini_optionality :
    (∀ doc fuel j, generateGeminiSchema doc fuel = .ok j → geminiObjOK j = true)
    ∧ (∀ doc fuel j, generateGeminiSchema doc fuel = .ok j →
        ∀ nm, nm ∈ getRequired j ↔ ∃ s ∈ doc.symbols, s.name = nm ∧ s.optional = false)
    ∧ (∀ doc fuel st sigs props closed j st',
        emitObjectGemini doc fuel st sigs props closed = .ok (j, st') →
        ∀ nm, nm ∈ getRequired j ↔
          (∃ sig ∈ sigs, sig.kind = IdxKind.enum ∧ sig.optional = false
              ∧ nm ∈ sig.keys.map litKeyString)
          ∨ ∃ p ∈ props, p.name = nm ∧ p.optional = false)
    ∧ (∀ doc fuel (g : SymbolDef → Bool) syms st ps rs rs',
        (rootSymsGemini doc fuel st (syms.map (fun s => SymbolDef.mk s.name s.type (g s) s.isArray)) ps rs).map
            (fun out => (out.1, out.2.2))
        = (rootSymsGemini doc fuel st syms ps rs').map (fun out => (out.1, out.2.2)))
    ∧ (∀ doc fuel (g : PropNode → Bool) st props properties rs rs',
        (emitPropsGemini doc fuel st (props.map (fun p => PropNode.mk p.name p.type (g p) p.isArray)) properties rs).map
            (fun out => (out.1, out.2.2))
        = (emitPropsGemini doc fuel st props properties rs').map (fun out => (out.1, out.2.2)))
    ∧ (∀ doc fuel st keys vt opt opt' arr properties rs rs',
        (emitKeysGemini doc fuel st keys vt opt arr properties rs).map (fun out => (out.1, out.2.2))
        = (emitKeysGemini doc fuel st keys vt opt' arr properties rs').map (fun out => (out.1, out.2.2))) := by
  refine ⟨?_, ?_, fun doc => emitObjectG_req_iff doc,
    fun doc fuel g => rootSymsG_opt_indep doc fuel g,
    fun doc fuel g st props properties rs rs' => emitPropsG_opt_indep doc g fuel st props properties rs rs',
    fun doc => emitKeysG_opt_indep doc⟩
  · intro doc fuel j h
    rw [generateGeminiSchema] at h
    cases hi : initDefsGemini doc fuel initSt doc.types with
    | error e => rw [hi] at h; cases h
    | ok st =>
      rw [hi] at h; simp only at h
      cases hr : rootSymsGemini doc fuel st doc.symbols [] [] with
      | error e => rw [hr] at h; cases h
      | ok out =>
        obtain ⟨ps, rs2, st2⟩ := out
        rw [hr] at h; simp only at h
        cases h
        have hd0 : DefsOKG initSt := fun p hp => absurd hp (List.not_mem_nil _)
        have hd1 := initDefsG_ok doc doc.types fuel initSt st hi hd0
        have hacc0 : AccG [] [] :=
          ⟨fun p hp => absurd hp (List.not_mem_nil _), fun n hn => absurd hn (List.not_mem_nil _)⟩
        obtain ⟨acc, hd2⟩ := rootSymsG_ok doc fuel doc.symbols st [] [] (ps, rs2, st2) hr hd1 hacc0
        exact geminiObjOK_buildRoot ps rs2 st2.defs (fun p hp => acc.1 p hp) acc.2 (fun p hp => hd2 p hp)
  · intro doc fuel j h nm
    rw [generateGeminiSchema] at h
    cases hi : initDefsGemini doc fuel initSt doc.types with
    | error e => rw [hi] at h; cases h
    | ok st =>
      rw [hi] at h; simp only at h
      cases hr : rootSymsGemini doc fuel st doc.symbols [] [] with
      | error e => rw [hr] at h; cases h
      | ok out =>
        obtain ⟨ps, rs2, st2⟩ := out
        rw [hr] at h; simp only at h
        cases h
        rw [show getRequired (J.obj [("type", J.str "object"), ("properties", J.obj ps),
            ("required", J.arr (rs2.map J.str)), ("additionalProperties", J.bool false),
            ("$defs", J.obj st2.defs)])
            = (rs2.map J.str).filterMap
                (fun x => match x with | J.str s => some s | _ => none) from rfl]
        rw [getRequired_strs]
        rw [show rs2 = ((ps, rs2, st2) : JRec × List String × EmitSt).2.1 from rfl,
          rootSymsG_req_iff doc fuel doc.symbols st [] [] (ps, rs2, st2) hr nm]
        simp

/-- C6 counterexample to the original claim: the document with symbol lines
foo: string and foo?: number parses to two symbols named foo, the second
optional, yet foo is in the Gemini required array (the optional origin's
key is not absent from required). -/
theorem c6_counterexample :
    docFooCollide.symbols = [SymbolDef.mk "foo" (.primitive .string) false false,
                             SymbolDef.mk "foo" (.primitive .number) true false]
    ∧ (∃ s ∈ docFooCollide.symbols, s.name = "foo" ∧ s.optional = true)
    ∧ "foo" ∈ getRequired (getOkJ (generateGeminiSchema docFooCollide 10)) := by
  refine ⟨rfl, ?_, ?_⟩
  · refine ⟨SymbolDef.mk "foo" (.primitive .number) true false, ?_, rfl, rfl⟩
    rw [show docFooCollide.symbols = [SymbolDef.mk "foo" (.primitive .string) false false,
        SymbolDef.mk "foo" (.primitive .number) true false] from rfl]
    exact List.mem_cons_of_mem _ (List.mem_cons_self _ _)
  · rw [show getRequired (getOkJ (generateGeminiSchema docFooCollide 10)) = ["foo"] from rfl]
    exact List.mem_cons_self _ _

/-- C6 witness: the invariant and the root characterization applied to the
concrete collision document. -/
theorem c6_gemini_optionality_witness :
    geminiObjOK (getOkJ (generateGeminiSchema docFooCollide 10)) = true
    ∧ ("foo" ∈ getRequired (getOkJ (generateGeminiSchema docFooCollide 10))
        ↔ ∃ s ∈ docFooCollide.symbols, s.name = "foo" ∧ s.optional = false) :=
  ⟨c6_gemini_optionality.1 docFooCollide 10 _ rfl,
   c6_gemini_optionality.2.1 docFooCollide 10 _ rfl "foo"⟩

/-! Claim C1: the OpenAI closed-object invariant. -/

theorem openAIObjOKFields_iff : ∀ fs : JRec, openAIObjOKFields fs = true ↔ ∀ p ∈ fs, openAIObjOK p.2 = true := by
  intro fs
  induction fs with
  | nil => simp [openAIObjOKFields]
  | cons hd tl ih =>
    obtain ⟨k, v⟩ := hd
    rw [openAIObjOKFields]
    simp [Bool.and_eq_true, ih, List.forall_mem_cons]

theorem openAIObjOKList_iff : ∀ xs : List J, openAIObjOKList xs = true ↔ ∀ x ∈ xs, openAIObjOK x = true := by
  intro xs
  induction xs with
  | nil => simp [openAIObjOKList]
  | cons x rest ih =>
    rw [openAIObjOKList]
    simp [Bool.and_eq_true, ih, List.forall_mem_cons]

theorem litToJ_okO (v : Lit) : openAIObjOK (litToJ v) = true := by
  cases v <;> rfl

theorem mapLit_okO (vs : List Lit) : openAIObjOKList (vs.map litToJ) = true := by
  rw [openAIObjOKList_iff]
  intro x hx
  obtain ⟨v, _, hv⟩ := List.mem_map.mp hx
  exact hv ▸ litToJ_okO v

theorem strList_okO (rs : List String) : openAIObjOKList (rs.map J.str) = true := by
  rw [openAIObjOKList_iff]
  intro x hx
  obtain ⟨r, _, hr⟩ := List.mem_map.mp hx
  rw [← hr]
  rfl

theorem okO_obj_noObjType (fs : JRec) (hto : typeHasObject fs = false)
    (hf : ∀ p ∈ fs, openAIObjOK p.2 = true) : openAIObjOK (J.obj fs) = true := by
  rw [openAIObjOK, hto]
  simp only [Bool.false_eq_true, if_false, Bool.true_and]
  rw [openAIObjOKFields_iff]
  exact hf

theorem okO_obj_iff (fs : JRec) : openAIObjOK (J.obj fs) = true ↔
    (typeHasObject fs = true → reqKeysMatch fs = true) ∧ openAIObjOKFields fs = true := by
  rw [openAIObjOK]
  by_cases h : typeHasObject fs = true
  · simp [h, Bool.and_eq_true]
  · simp [h, Bool.and_eq_true]

theorem primOKO (p : PrimName) : JOKO (primitiveToSchema p) := by
  cases p <;> exact ⟨rfl, by decide⟩

theorem placeholderOKO : JOKO placeholderOpenAI := ⟨rfl, by decide⟩

theorem arrayOf_okO (base : J) (h : openAIObjOK base = true) :
    openAIObjOK (arrayOf base) = true := by
  rw [show arrayOf base = J.obj [("type", J.str "array"), ("items", base)] from rfl]
  rw [openAIObjOK]
  rw [show typeHasObject [("type", J.str "array"), ("items", base)] = false from by
    simp [typeHasObject, rget]]
  simp only [Bool.false_eq_true, if_false, Bool.true_and]
  rw [openAIObjOKFields_iff]
  intro p hp
  rcases hp with _ | ⟨_, hp⟩
  · rfl
  rcases hp with _ | ⟨_, hp⟩
  · exact h
  · cases hp

theorem litSchemaOKO (t : String) (x : J)
    (hto : typeHasObject [("type", J.str t), ("enum", J.arr [x])] = false)
    (hx : openAIObjOK x = true) :
    JOKO (J.obj [("type", J.str t), ("enum", J.arr [x])]) := by
  refine ⟨rfl, okO_obj_noObjType _ hto ?_⟩
  intro p hp
  rcases hp with _ | ⟨_, hp⟩
  · rfl
  rcases hp with _ | ⟨_, hp⟩
  · show openAIObjOK (J.arr [x]) = true
    simp [openAIObjOK, openAIObjOKList, hx]
  · cases hp

theorem typeHasObject_eq (fs : JRec) : typeHasObject fs
    = (match rget fs "type" with
       | some (J.str s) => decide (s = "object")
       | some (J.arr ts) => ts.any (fun x => match x with | J.str s => decide (s = "object") | _ => false)
       | _ => false) := rfl

theorem reqKeysMatch_rset_type (fs : JRec) (v : J) :
    reqKeysMatch (rset fs "type" v) = reqKeysMatch fs := by
  unfold reqKeysMatch
  rw [rget_rset_ne fs "type" "properties" v (by decide),
    rget_rset_ne fs "type" "required" v (by decide),
    rget_rset_ne fs "type" "additionalProperties" v (by decide)]

theorem reqKeysMatch_build (ps : JRec) (rs : List String)
    (hiff : ∀ n, n ∈ rkeys ps ↔ n ∈ rs) :
    reqKeysMatch [("type", J.str "object"), ("properties", J.obj ps),
      ("required", J.arr (rs.map J.str)), ("additionalProperties", J.bool false)] = true := by
  rw [show reqKeysMatch [("type", J.str "object"), ("properties", J.obj ps),
      ("required", J.arr (rs.map J.str)), ("additionalProperties", J.bool false)]
      = ((rs.map J.str).all (fun x => match x with | J.str s => (rkeys ps).contains s | _ => false)
        && (rkeys ps).all (fun k => (rs.map J.str).any
              (fun x => match x with | J.str s => decide (s = k) | _ => false))) from rfl]
  rw [Bool.and_eq_true]
  constructor
  · rw [List.all_eq_true]
    intro x hx
    obtain ⟨r, hr, hrx⟩ := List.mem_map.mp hx
    rw [← hrx]
    exact contains_of_mem_rkeys _ _ ((hiff r).mpr hr)
  · rw [List.all_eq_true]
    intro k hk
    rw [List.any_eq_true]
    exact ⟨J.str k, List.mem_map_of_mem _ ((hiff k).mp hk), by simp⟩

theorem makeNullable_okO (s : J) (h : JOKO s) : JOKO (makeNullable s) := by
  obtain ⟨h1, h2⟩ := h
  cases s with
  | str v => exact Bool.noConfusion h1
  | num v => exact Bool.noConfusion h1
  | bool v => exact Bool.noConfusion h1
  | arr v => exact Bool.noConfusion h1
  | obj fs =>
    obtain ⟨hc, hf⟩ := (okO_obj_iff fs).mp h2
    have hfv : ∀ p ∈ fs, openAIObjOK p.2 = true := (openAIObjOKFields_iff fs).mp hf
    have hnull : openAIObjOK (J.obj [("type", J.str "null")]) = true := by decide
    have hwrap : JOKO (J.obj [("anyOf", J.arr [J.obj fs, J.obj [("type", J.str "null")]])]) := by
      refine ⟨rfl, okO_obj_noObjType _ rfl ?_⟩
      intro p hp
      rcases hp with _ | ⟨_, hp⟩
      · show openAIObjOK (J.arr [J.obj fs, J.obj [("type", J.str "null")]]) = true
        rw [openAIObjOK, openAIObjOKList_iff]
        intro x hx
        rcases hx with _ | ⟨_, hx⟩
        · exact h2
        rcases hx with _ | ⟨_, hx⟩
        · exact hnull
        · cases hx
      · cases hp
    rw [show makeNullable (J.obj fs)
        = (match rget fs "type" with
           | some (J.str t) => J.obj (rset fs "type" (J.arr [J.str t, J.str "null"]))
           | some (J.arr ts) =>
             if ts.any (fun x => match x with | J.str s => s = "null" | _ => false) then J.obj fs
             else J.obj (rset fs "type" (J.arr (ts ++ [J.str "null"])))
           | _ => J.obj [("anyOf", J.arr [J.obj fs, J.obj [("type", J.str "null")]])]) from rfl]
    cases hg : rget fs "type" with
    | none => exact hwrap
    | some v =>
      cases v with
      | num q => exact hwrap
      | bool b => exact hwrap
      | obj f2 => exact hwrap
      | str t =>
        refine ⟨rfl, (okO_obj_iff _).mpr ⟨?_, ?_⟩⟩
        · intro hto
          have hto2 : typeHasObject (rset fs "type" (J.arr [J.str t, J.str "null"]))
              = decide (t = "object") := by
            rw [typeHasObject_eq, rget_rset_self]
            simp
          rw [hto2] at hto
          have horig : typeHasObject fs = true := by
            rw [typeHasObject_eq, hg]
            exact hto
          rw [reqKeysMatch_rset_type]
          exact hc horig
        · rw [openAIObjOKFields_iff]
          exact rset_values fs "type" (J.arr [J.str t, J.str "null"])
            (fun v => openAIObjOK v = true) hfv rfl
      | arr ts =>
        show JOKO (if ts.any (fun x => match x with | J.str s => s = "null" | _ => false)
          then J.obj fs else J.obj (rset fs "type" (J.arr (ts ++ [J.str "null"]))))
        by_cases hn : ts.any (fun x => match x with | J.str s => s = "null" | _ => false) = true
        · rw [if_pos hn]
          exact ⟨rfl, h2⟩
        · rw [if_neg hn]
          refine ⟨rfl, (okO_obj_iff _).mpr ⟨?_, ?_⟩⟩
          · intro hto
            have hto2 : typeHasObject (rset fs "type" (J.arr (ts ++ [J.str "null"])))
                = ts.any (fun x => match x with | J.str s => decide (s = "object") | _ => false) := by
              rw [typeHasObject_eq, rget_rset_self]
              simp [List.any_append]
            rw [hto2] at hto
            have horig : typeHasObject fs = true := by
              rw [typeHasObject_eq, hg]
              exact hto
            rw [reqKeysMatch_rset_type]
            exact hc horig
          · rw [openAIObjOKFields_iff]
            refine rset_values fs "type" (J.arr (ts ++ [J.str "null"]))
              (fun v => openAIObjOK v = true) hfv ?_
            have hts : openAIObjOK (J.arr ts) = true := hfv ("type", J.arr ts) (rget_mem fs "type" _ hg)
            rw [openAIObjOK] at hts
            show openAIObjOK (J.arr (ts ++ [J.str "null"])) = true
            rw [show openAIObjOK (J.arr (ts ++ [J.str "null"])) = openAIObjOKList (ts ++ [J.str "null"]) from rfl]
            rw [openAIObjOKList_iff]
            intro x hx
            rcases List.mem_append.mp hx with hx | hx
            · exact (openAIObjOKList_iff ts).mp hts x hx
            · rcases List.mem_singleton.mp hx with rfl
              rfl

theorem openAIObjOK_build (ps : JRec) (rs : List String)
    (hps : ∀ p ∈ ps, isJObj p.2 = true ∧ openAIObjOK p.2 = true)
    (hiff : ∀ n, n ∈ rkeys ps ↔ n ∈ rs) :
    openAIObjOK (J.obj [("type", J.str "object"), ("properties", J.obj ps),
      ("required", J.arr (rs.map J.str)), ("additionalProperties", J.bool false)]) = true := by
  rw [openAIObjOK]
  have hto : typeHasObject [("type", J.str "object"), ("properties", J.obj ps),
      ("required", J.arr (rs.map J.str)), ("additionalProperties", J.bool false)] = true := by
    simp [typeHasObject, rget]
  rw [hto]
  simp only [if_true]
  rw [reqKeysMatch_build ps rs hiff]
  show openAIObjOKFields _ = true
  rw [openAIObjOKFields_iff]
  intro p hp
  rcases hp with _ | ⟨_, hp⟩
  · rfl
  rcases hp with _ | ⟨_, hp⟩
  · show openAIObjOK (J.obj ps) = true
    rw [openAIObjOK]
    rw [typeHasObject_false_of_objs ps (fun q hq => (hps q hq).1)]
    simp only [Bool.false_eq_true, if_false, Bool.true_and]
    rw [openAIObjOKFields_iff]
    exact fun q hq => (hps q hq).2
  rcases hp with _ | ⟨_, hp⟩
  · show openAIObjOK (J.arr (rs.map J.str)) = true
    rw [openAIObjOK]
    exact strList_okO rs
  rcases hp with _ | ⟨_, hp⟩
  · rfl
  · cases hp

theorem reqKeysMatch_buildRoot (ps : JRec) (rs : List String) (ds : JRec)
    (hiff : ∀ n, n ∈ rkeys ps ↔ n ∈ rs) :
    reqKeysMatch [("type", J.str "object"), ("properties", J.obj ps),
      ("required", J.arr (rs.map J.str)), ("additionalProperties", J.bool false),
      ("$defs", J.obj ds)] = true := by
  rw [show reqKeysMatch [("type", J.str "object"), ("properties", J.obj ps),
      ("required", J.arr (rs.map J.str)), ("additionalProperties", J.bool false),
      ("$defs", J.obj ds)]
      = ((rs.map J.str).all (fun x => match x with | J.str s => (rkeys ps).contains s | _ => false)
        && (rkeys ps).all (fun k => (rs.map J.str).any
              (fun x => match x with | J.str s => decide (s = k) | _ => false))) from rfl]
  rw [Bool.and_eq_true]
  constructor
  · rw [List.all_eq_true]
    intro x hx
    obtain ⟨r, hr, hrx⟩ := List.mem_map.mp hx
    rw [← hrx]
    exact contains_of_mem_rkeys _ _ ((hiff r).mpr hr)
  · rw [List.all_eq_true]
    intro k hk
    rw [List.any_eq_true]
    exact ⟨J.str k, List.mem_map_of_mem _ ((hiff k).mp hk), by simp⟩

theorem openAIObjOK_buildRoot (ps : JRec) (rs : List String) (ds : JRec)
    (hps : ∀ p ∈ ps, isJObj p.2 = true ∧ openAIObjOK p.2 = true)
    (hiff : ∀ n, n ∈ rkeys ps ↔ n ∈ rs)
    (hds : ∀ p ∈ ds, isJObj p.2 = true ∧ openAIObjOK p.2 = true) :
    openAIObjOK (J.obj [("type", J.str "object"), ("properties", J.obj ps),
      ("required", J.arr (rs.map J.str)), ("additionalProperties", J.bool false),
      ("$defs", J.obj ds)]) = true := by
  rw [openAIObjOK]
  have hto : typeHasObject [("type", J.str "object"), ("properties", J.obj ps),
      ("required", J.arr (rs.map J.str)), ("additionalProperties", J.bool false),
      ("$defs", J.obj ds)] = true := by
    simp [typeHasObject, rget]
  rw [hto]
  simp only [if_true]
  rw [reqKeysMatch_buildRoot ps rs ds hiff]
  show openAIObjOKFields _ = true
  rw [openAIObjOKFields_iff]
  intro p hp
  rcases hp with _ | ⟨_, hp⟩
  · rfl
  rcases hp with _ | ⟨_, hp⟩
  · show openAIObjOK (J.obj ps) = true
    rw [openAIObjOK]
    rw [typeHasObject_false_of_objs ps (fun q hq => (hps q hq).1)]
    simp only [Bool.false_eq_true, if_false, Bool.true_and]
    rw [openAIObjOKFields_iff]
    exact fun q hq => (hps q hq).2
  rcases hp with _ | ⟨_, hp⟩
  · show openAIObjOK (J.arr (rs.map J.str)) = true
    rw [openAIObjOK]
    exact strList_okO rs
  rcases hp with _ | ⟨_, hp⟩
  · rfl
  rcases hp with _ | ⟨_, hp⟩
  · show openAIObjOK (J.obj ds) = true
    rw [openAIObjOK]
    rw [typeHasObject_false_of_objs ds (fun q hq => (hds q hq).1)]
    simp only [Bool.false_eq_true, if_false, Bool.true_and]
    rw [openAIObjOKFields_iff]
    exact fun q hq => (hds q hq).2
  · cases hp

theorem okInvO (doc : TDLDoc) : ∀ fuel,
    (∀ st name st', ensureDefOpenAI doc fuel st name = .ok st' → DefsOKO st → DefsOKO st')
    ∧ (∀ st n j st', emitOpenAI doc fuel st n = .ok (j, st') → DefsOKO st → JOKO j ∧ DefsOKO st')
    ∧ (∀ st ns js st', emitListOpenAI doc fuel st ns = .ok (js, st') → DefsOKO st →
        (∀ jj ∈ js, JOKO jj) ∧ DefsOKO st')
    ∧ (∀ st sigs props j st', emitObjectOpenAI doc fuel st sigs props = .ok (j, st') →
        DefsOKO st → JOKO j ∧ DefsOKO st')
    ∧ (∀ st sigs properties required out,
        emitSigsOpenAI doc fuel st sigs properties required = .ok out → DefsOKO st →
        AccO properties required → AccO out.1 out.2.1 ∧ DefsOKO out.2.2)
    ∧ (∀ st keys vt opt arr properties required out,
        emitKeysOpenAI doc fuel st keys vt opt arr properties required = .ok out → DefsOKO st →
        AccO properties required → AccO out.1 out.2.1 ∧ DefsOKO out.2.2)
    ∧ (∀ st props properties required out,
        emitPropsOpenAI doc fuel st props properties required = .ok out → DefsOKO st →
        AccO properties required → AccO out.1 out.2.1 ∧ DefsOKO out.2.2) := by
  intro fuel
  induction fuel with
  | zero =>
    refine ⟨?_, ?_, ?_, ?_, ?_, ?_, ?_⟩
    · intro st name st' h; cases h
    · intro st n j st' h; cases h
    · intro st ns js st' h; cases h
    · intro st sigs props j st' h; cases h
    · intro st sigs properties required out h; cases h
    · intro st keys vt opt arr properties required out h; cases h
    · intro st props properties required out h; cases h
  | succ f ih =>
    obtain ⟨ihE, ihM, ihL, ihO, ihS, ihK, ihP⟩ := ih
    refine ⟨?_, ?_, ?_, ?_, ?_, ?_, ?_⟩
    · -- ensureDef
      intro st name st' h hst
      rw [ensureDefOpenAI] at h
      by_cases hin : (rget st.defs name).isSome
      · rw [if_pos hin] at h
        cases h
        exact hst
      · rw [if_neg hin] at h
        by_cases hstk : name ∈ st.stack
        · rw [if_pos hstk] at h
          cases h
          exact rset_values _ _ _ _ hst placeholderOKO
        · rw [if_neg hstk] at h
          cases hlk : lookupType doc name with
          | none => rw [hlk] at h; cases h
          | some node =>
            rw [hlk] at h
            simp only at h
            cases he : emitOpenAI doc f { st with stack := name :: st.stack } node with
            | error e => rw [he] at h; cases h
            | ok p =>
              obtain ⟨schema, st2⟩ := p
              rw [he] at h
              simp only at h
              cases h
              obtain ⟨hjok, hdefs2⟩ := ihM _ node schema st2 he hst
              exact rset_values _ _ _ _ hdefs2 hjok
    · -- emit
      intro st n j st' h hst
      cases n with
      | primitive p =>
        rw [show emitOpenAI doc (f+1) st (.primitive p) = .ok (primitiveToSchema p, st) from rfl] at h
        cases h; exact ⟨primOKO p, hst⟩
      | stringLit v =>
        rw [show emitOpenAI doc (f+1) st (.stringLit v)
            = .ok (J.obj [("type", J.str "string"), ("enum", J.arr [J.str v])], st) from rfl] at h
        cases h; exact ⟨litSchemaOKO "string" (J.str v) rfl rfl, hst⟩
      | numberLit v =>
        rw [show emitOpenAI doc (f+1) st (.numberLit v)
            = .ok (J.obj [("type", J.str "number"), ("enum", J.arr [J.num v])], st) from rfl] at h
        cases h; exact ⟨litSchemaOKO "number" (J.num v) rfl rfl, hst⟩
      | booleanLit v =>
        rw [show emitOpenAI doc (f+1) st (.booleanLit v)
            = .ok (J.obj [("type", J.str "boolean"), ("enum", J.arr [J.bool v])], st) from rfl] at h
        cases h; exact ⟨litSchemaOKO "boolean" (J.bool v) rfl rfl, hst⟩
      | typeRef name =>
        rw [show emitOpenAI doc (f+1) st (.typeRef name)
            = (match ensureDefOpenAI doc f st name with
               | .error e => .error e
               | .ok st1 => .ok (J.obj [("$ref", J.str ("#/$defs/" ++ name))], st1)) from rfl] at h
        cases he : ensureDefOpenAI doc f st name with
        | error e => rw [he] at h; cases h
        | ok st1 =>
          rw [he] at h; simp only at h; cases h
          refine ⟨⟨rfl, okO_obj_noObjType _ rfl ?_⟩, ihE st name st' he hst⟩
          intro p hp
          rcases hp with _ | ⟨_, hp⟩
          · rfl
          · cases hp
      | union ms =>
        rw [show emitOpenAI doc (f+1) st (.union ms)
            = (if ms.all isScalarLiteral then
                 match unionLiteralType (ms.filterMap litValue?) with
                 | some t => .ok (J.obj [("enum", J.arr ((ms.filterMap litValue?).map litToJ)), ("type", J.str t)], st)
                 | none => .ok (J.obj [("enum", J.arr ((ms.filterMap litValue?).map litToJ))], st)
               else
                 match emitListOpenAI doc f st ms with
                 | .error e => .error e
                 | .ok (js, st1) => .ok (J.obj [("anyOf", J.arr js)], st1)) from rfl] at h
        by_cases hall : ms.all isScalarLiteral = true
        · rw [if_pos hall] at h
          cases hu : unionLiteralType (ms.filterMap litValue?) with
          | some t =>
            rw [hu] at h; simp only at h; cases h
            have hne : ¬ t = "object" := fun hc => (unionLiteralType_ne_object _ t hu ▸ hc : False).elim
            refine ⟨⟨rfl, okO_obj_noObjType _ (typeHasObject_enum_type _ t hne) ?_⟩, hst⟩
            intro p hp
            rcases hp with _ | ⟨_, hp⟩
            · show openAIObjOK (J.arr ((ms.filterMap litValue?).map litToJ)) = true
              rw [openAIObjOK]
              exact mapLit_okO _
            rcases hp with _ | ⟨_, hp⟩
            · rfl
            · cases hp
          | none =>
            rw [hu] at h; simp only at h; cases h
            refine ⟨⟨rfl, okO_obj_noObjType _ rfl ?_⟩, hst⟩
            intro p hp
            rcases hp with _ | ⟨_, hp⟩
            · show openAIObjOK (J.arr ((ms.filterMap litValue?).map litToJ)) = true
              rw [openAIObjOK]
              exact mapLit_okO _
            · cases hp
        · rw [if_neg hall] at h
          cases hl : emitListOpenAI doc f st ms with
          | error e => rw [hl] at h; cases h
          | ok p =>
            obtain ⟨js, st1⟩ := p
            rw [hl] at h; simp only at h; cases h
            obtain ⟨hjs, hdefs⟩ := ihL st ms js st' hl hst
            refine ⟨⟨rfl, okO_obj_noObjType _ rfl ?_⟩, hdefs⟩
            intro p hp
            rcases hp with _ | ⟨_, hp⟩
            · show openAIObjOK (J.arr js) = true
              rw [openAIObjOK]
              rw [openAIObjOKList_iff]
              exact fun x hx => (hjs x hx).2
            · cases hp
      | intersection ms =>
        rw [show emitOpenAI doc (f+1) st (.intersection ms)
            = (match mergeObjectsOpenAI doc f ms with
               | .error e => .error e
               | .ok (props, sigs, _) => emitObjectOpenAI doc f st sigs props) from rfl] at h
        cases hm : mergeObjectsOpenAI doc f ms with
        | error e => rw [hm] at h; cases h
        | ok o =>
          obtain ⟨props, sigs, closed⟩ := o
          rw [hm] at h; simp only at h
          exact ihO st sigs props j st' h hst
      | object props sigs closed =>
        rw [show emitOpenAI doc (f+1) st (.object props sigs closed)
            = emitObjectOpenAI doc f st sigs props from rfl] at h
        exact ihO st sigs props j st' h hst
    · -- emitList
      intro st ns js st' h hst
      cases ns with
      | nil =>
        rw [show emitListOpenAI doc (f+1) st [] = .ok ([], st) from rfl] at h
        cases h
        exact ⟨fun jj hjj => absurd hjj (List.not_mem_nil _), hst⟩
      | cons n rest =>
        rw [show emitListOpenAI doc (f+1) st (n :: rest)
            = (match emitOpenAI doc f st n with
               | .error e => .error e
               | .ok (jj, st1) =>
                 match emitListOpenAI doc f st1 rest with
                 | .error e => .error e
                 | .ok (jjs, st2) => .ok (jj :: jjs, st2)) from rfl] at h
        cases h1 : emitOpenAI doc f st n with
        | error e => rw [h1] at h; cases h
        | ok p =>
          obtain ⟨jj, st1⟩ := p
          rw [h1] at h; simp only at h
          cases h2 : emitListOpenAI doc f st1 rest with
          | error e => rw [h2] at h; cases h
          | ok q =>
            obtain ⟨jjs, st2⟩ := q
            rw [h2] at h; simp only at h; cases h
            obtain ⟨a1, a2⟩ := ihM st n jj st1 h1 hst
            obtain ⟨b1, b2⟩ := ihL st1 rest jjs st' h2 a2
            refine ⟨?_, b2⟩
            intro x hx
            rcases List.mem_cons.mp hx with hx | hx
            · exact hx ▸ a1
            · exact b1 x hx
    · -- emitObject
      intro st sigs props j st' h hst
      rw [show emitObjectOpenAI doc (f+1) st sigs props
          = (match emitSigsOpenAI doc f st sigs [] [] with
             | .error e => .error e
             | .ok (properties, required, st1) =>
               match emitPropsOpenAI doc f st1 props properties required with
               | .error e => .error e
               | .ok (properties2, required2, st2) =>
                 .ok (J.obj [("type", J.str "object"), ("properties", J.obj properties2),
                             ("required", J.arr (required2.map J.str)),
                             ("additionalProperties", J.bool false)], st2)) from rfl] at h
      cases h1 : emitSigsOpenAI doc f st sigs [] [] with
      | error e => rw [h1] at h; cases h
      | ok out1 =>
        obtain ⟨properties1, required1, st1⟩ := out1
        rw [h1] at h; simp only at h
        cases h2 : emitPropsOpenAI doc f st1 props properties1 required1 with
        | error e => rw [h2] at h; cases h
        | ok out2 =>
          obtain ⟨properties2, required2, st2⟩ := out2
          rw [h2] at h; simp only at h; cases h
          have hacc0 : AccO [] [] :=
            ⟨fun p hp => absurd hp (List.not_mem_nil _), fun n => Iff.rfl⟩
          obtain ⟨acc1, hdefs1⟩ :=
            ihS st sigs [] [] (properties1, required1, st1) h1 hst hacc0
          obtain ⟨acc2, hdefs2⟩ :=
            ihP st1 props properties1 required1 (properties2, required2, st') h2 hdefs1 acc1
          refine ⟨⟨rfl, ?_⟩, hdefs2⟩
          exact openAIObjOK_build properties2 required2 (fun p hp => acc2.1 p hp) acc2.2
    · -- emitSigs
      intro st sigs properties required out h hst hacc
      cases sigs with
      | nil =>
        rw [show emitSigsOpenAI doc (f+1) st [] properties required
            = .ok (properties, required, st) from rfl] at h
        cases h
        exact ⟨hacc, hst⟩
      | cons sig rest =>
        obtain ⟨kind, keys, vt, opt, arr⟩ := sig
        cases kind with
        | string =>
          cases opt with
          | false =>
            rw [show emitSigsOpenAI doc (f+1) st (.mk .string keys vt false arr :: rest) properties required
                = .error (.authoring openAIStringSigMsg) from rfl] at h
            cases h
          | true =>
            rw [show emitSigsOpenAI doc (f+1) st (.mk .string keys vt true arr :: rest) properties required
                = (match emitOpenAI doc f st vt with
                   | .error e => .error e
                   | .ok (vs, st1) =>
                     if isNeverSchema vs then emitSigsOpenAI doc f st1 rest properties required
                     else .error (.authoring openAIStringSigMsg)) from rfl] at h
            cases h1 : emitOpenAI doc f st vt with
            | error e => rw [h1] at h; cases h
            | ok p =>
              obtain ⟨vs, st1⟩ := p
              rw [h1] at h; simp only at h
              obtain ⟨a1, a2⟩ := ihM st vt vs st1 h1 hst
              by_cases hns : isNeverSchema vs = true
              · rw [if_pos hns] at h
                exact ihS st1 rest properties required out h a2 hacc
              · rw [if_neg hns] at h
                cases h
        | enum =>
          rw [show emitSigsOpenAI doc (f+1) st (.mk .enum keys vt opt arr :: rest) properties required
              = (match emitKeysOpenAI doc f st keys vt opt arr properties required with
                 | .error e => .error e
                 | .ok (properties1, required1, st1) =>
                   emitSigsOpenAI doc f st1 rest properties1 required1) from rfl] at h
          cases h1 : emitKeysOpenAI doc f st keys vt opt arr properties required with
          | error e => rw [h1] at h; cases h
          | ok p =>
            obtain ⟨properties1, required1, st1⟩ := p
            rw [h1] at h; simp only at h
            obtain ⟨a1, a2⟩ := ihK st keys vt opt arr properties required (properties1, required1, st1) h1 hst hacc
            exact ihS st1 rest properties1 required1 out h a2 a1
    · -- emitKeys
      intro st keys vt opt arr properties required out h hst hacc
      cases keys with
      | nil =>
        rw [show emitKeysOpenAI doc (f+1) st [] vt opt arr properties required
            = .ok (properties, required, st) from rfl] at h
        cases h
        exact ⟨hacc, hst⟩
      | cons key krest =>
        rw [show emitKeysOpenAI doc (f+1) st (key :: krest) vt opt arr properties required
            = (match emitOpenAI doc f st vt with
               | .error e => .error e
               | .ok (base, st1) =>
                 emitKeysOpenAI doc f st1 krest vt opt arr
                   (rset properties (litKeyString key)
                     (if opt then makeNullable (if arr then arrayOf base else base)
                      else (if arr then arrayOf base else base)))
                   (required ++ [litKeyString key])) from rfl] at h
        cases h1 : emitOpenAI doc f st vt with
        | error e => rw [h1] at h; cases h
        | ok p =>
          obtain ⟨base, st1⟩ := p
          rw [h1] at h; simp only at h
          obtain ⟨a1, a2⟩ := ihM st vt base st1 h1 hst
          have hwa : JOKO (if arr then arrayOf base else base) := by
            cases arr with
            | false => exact a1
            | true => exact ⟨rfl, arrayOf_okO base a1.2⟩
          have hfin : JOKO (if opt then makeNullable (if arr then arrayOf base else base)
              else (if arr then arrayOf base else base)) := by
            cases opt with
            | false => exact hwa
            | true => exact makeNullable_okO _ hwa
          have hacc1 : AccO (rset properties (litKeyString key)
              (if opt then makeNullable (if arr then arrayOf base else base)
               else (if arr then arrayOf base else base)))
              (required ++ [litKeyString key]) := by
            obtain ⟨av, ar⟩ := hacc
            refine ⟨rset_values _ _ _ _ av hfin, ?_⟩
            intro n
            rw [mem_rkeys_rset, List.mem_append, List.mem_singleton, ar n]
            tauto
          exact ihK st1 krest vt opt arr _ _ out h a2 hacc1
    · -- emitProps
      intro st props properties required out h hst hacc
      cases props with
      | nil =>
        rw [show emitPropsOpenAI doc (f+1) st [] properties required
            = .ok (properties, required, st) from rfl] at h
        cases h
        exact ⟨hacc, hst⟩
      | cons p prest =>
        obtain ⟨pname, ptype, popt, parr⟩ := p
        rw [show emitPropsOpenAI doc (f+1) st (.mk pname ptype popt parr :: prest) properties required
            = (match emitOpenAI doc f st ptype with
               | .error e => .error e
               | .ok (base, st1) =>
                 emitPropsOpenAI doc f st1 prest
                   (rset properties pname
                     (if popt then makeNullable (if parr then arrayOf base else base)
                      else (if parr then arrayOf base else base)))
                   (required ++ [pname])) from rfl] at h
        cases h1 : emitOpenAI doc f st ptype with
        | error e => rw [h1] at h; cases h
        | ok q =>
          obtain ⟨base, st1⟩ := q
          rw [h1] at h; simp only at h
          obtain ⟨a1, a2⟩ := ihM st ptype base st1 h1 hst
          have hwa : JOKO (if parr then arrayOf base else base) := by
            cases parr with
            | false => exact a1
            | true => exact ⟨rfl, arrayOf_okO base a1.2⟩
          have hfin : JOKO (if popt then makeNullable (if parr then arrayOf base else base)
              else (if parr then arrayOf base else base)) := by
            cases popt with
            | false => exact hwa
            | true => exact makeNullable_okO _ hwa
          have hacc1 : AccO (rset properties pname
              (if popt then makeNullable (if parr then arrayOf base else base)
               else (if parr then arrayOf base else base)))
              (required ++ [pname]) := by
            obtain ⟨av, ar⟩ := hacc
            refine ⟨rset_values _ _ _ _ av hfin, ?_⟩
            intro n
            rw [mem_rkeys_rset, List.mem_append, List.mem_singleton, ar n]
            tauto
          exact ihP st1 prest _ _ out h a2 hacc1

theorem initDefsO_ok (doc : TDLDoc) :
    ∀ (entries : List (String × TypeNode)) fuel st st',
      initDefsOpenAI doc fuel st entries = .ok st' → DefsOKO st → DefsOKO st' := by
  intro entries
  induction entries with
  | nil =>
    intro fuel st st' h hst
    rw [initDefsOpenAI] at h
    cases h
    exact hst
  | cons e rest ih =>
    intro fuel st st' h hst
    obtain ⟨name, node⟩ := e
    rw [initDefsOpenAI] at h
    cases h1 : ensureDefOpenAI doc fuel st name with
    | error e2 => rw [h1] at h; cases h
    | ok st1 =>
      rw [h1] at h
      simp only at h
      exact ih fuel st1 st' h ((okInvO doc fuel).1 st name st1 h1 hst)

theorem rootSymsO_ok (doc : TDLDoc) (fuel : Nat) :
    ∀ (syms : List SymbolDef) st ps rs out,
      rootSymsOpenAI doc fuel st syms ps rs = .ok out → DefsOKO st → AccO ps rs →
      AccO out.1 out.2.1 ∧ DefsOKO out.2.2 := by
  intro syms
  induction syms with
  | nil =>
    intro st ps rs out h hst hacc
    rw [rootSymsOpenAI] at h
    cases h
    exact ⟨hacc, hst⟩
  | cons sym rest ih =>
    intro st ps rs out h hst hacc
    rw [rootSymsOpenAI] at h
    cases h1 : emitOpenAI doc fuel st sym.type with
    | error e => rw [h1] at h; cases h
    | ok p =>
      obtain ⟨base, st1⟩ := p
      rw [h1] at h
      simp only at h
      obtain ⟨a1, a2⟩ := (okInvO doc fuel).2.1 st sym.type base st1 h1 hst
      have hwa : JOKO (if sym.isArray then arrayOf base else base) := by
        cases hb : sym.isArray with
        | false => exact a1
        | true => exact ⟨rfl, arrayOf_okO base a1.2⟩
      have hfin : JOKO (if sym.optional then makeNullable (if sym.isArray then arrayOf base else base)
          else (if sym.isArray then arrayOf base else base)) := by
        cases hb : sym.optional with
        | false => exact hwa
        | true => exact makeNullable_okO _ hwa
      have hacc1 : AccO (rset ps sym.name
          (if sym.optional then makeNullable (if sym.isArray then arrayOf base else base)
           else (if sym.isArray then arrayOf base else base)))
          (rs ++ [sym.name]) := by
        obtain ⟨av, ar⟩ := hacc
        refine ⟨rset_values _ _ _ _ av hfin, ?_⟩
        intro n
        rw [mem_rkeys_rset, List.mem_append, List.mem_singleton, ar n]
        tauto
      exact ih st1 _ _ out h a2 hacc1

/-- Claim C1: for every document the OpenAI generator accepts, every object
schema anywhere in the output value (the root, every $defs entry, and every
nested object schema, i.e. every JSON object whose type field names object)
carries additionalProperties exactly the literal false and a required array
equal to its properties key set as sets, as captured by the recursive
predicate openAIObjOK; the root itself is an object value. -/
theorem c1_openai_closed_objects :
    ∀ doc fuel j, generateOpenAISchema doc fuel = .ok j →
      isJObj j = true ∧ openAIObjOK j = true := by
  intro doc fuel j h
  rw [generateOpenAISchema] at h
  cases hi : initDefsOpenAI doc fuel initSt doc.types with
  | error e => rw [hi] at h; cases h
  | ok st =>
    rw [hi] at h; simp only at h
    cases hr : rootSymsOpenAI doc fuel st doc.symbols [] [] with
    | error e => rw [hr] at h; cases h
    | ok out =>
      obtain ⟨ps, rs2, st2⟩ := out
      rw [hr] at h; simp only at h
      cases h
      have hd0 : DefsOKO initSt := fun p hp => absurd hp (List.not_mem_nil _)
      have hd1 := initDefsO_ok doc doc.types fuel initSt st hi hd0
      have hacc0 : AccO [] [] :=
        ⟨fun p hp => absurd hp (List.not_mem_nil _), fun n => Iff.rfl⟩
      obtain ⟨acc, hd2⟩ := rootSymsO_ok doc fuel doc.symbols st [] [] (ps, rs2, st2) hr hd1 hacc0
      exact ⟨rfl, openAIObjOK_buildRoot ps rs2 st2.defs (fun p hp => acc.1 p hp) acc.2
        (fun p hp => hd2 p hp)⟩

/-- C1 witness: the invariant evaluated on the concrete witness document,
whose OpenAI output contains a $defs entry, a nullable optional property and
a nullable optional array symbol. -/
theorem c1_openai_closed_objects_witness :
    isJObj (getOkJ (generateOpenAISchema docWitness 20)) = true
    ∧ openAIObjOK (getOkJ (generateOpenAISchema docWitness 20)) = true :=
  c1_openai_closed_objects docWitness 20 _ rfl

/-! Claim C9: invariants of parsed Object nodes. -/

theorem distinctPropsProps_iff : ∀ ps : List PropNode,
    distinctPropsProps ps = true ↔ ∀ p ∈ ps, distinctProps p.type = true := by
  intro ps
  induction ps with
  | nil => simp [distinctPropsProps]
  | cons p rest ih =>
    obtain ⟨n, t, o, a⟩ := p
    rw [distinctPropsProps]
    simp [Bool.and_eq_true, ih, List.forall_mem_cons, PropNode.type]

theorem distinctPropsSigs_iff : ∀ ss : List IndexSigNode,
    distinctPropsSigs ss = true ↔ ∀ sg ∈ ss, distinctProps sg.valueType = true := by
  intro ss
  induction ss with
  | nil => simp [distinctPropsSigs]
  | cons sg rest ih =>
    obtain ⟨k, ks, t, o, a⟩ := sg
    rw [distinctPropsSigs]
    simp [Bool.and_eq_true, ih, List.forall_mem_cons, IndexSigNode.valueType]

theorem distinctPropsList_iff : ∀ ms : List TypeNode,
    distinctPropsList ms = true ↔ ∀ m ∈ ms, distinctProps m = true := by
  intro ms
  induction ms with
  | nil => simp [distinctPropsList]
  | cons m rest ih =>
    rw [distinctPropsList]
    simp [Bool.and_eq_true, ih, List.forall_mem_cons]

theorem parseLabel_name (k : String) (li : LabelInfo) (h : parseLabel k = .ok li) :
    li.name = labelBase k := by
  rw [parseLabel] at h
  rw [labelBase]
  cases hd : k.data with
  | nil => rw [hd] at h; cases h
  | cons c rest =>
    rw [hd] at h
    simp only at h
    by_cases hcc : c.isLower = true ∧ ((c :: rest).all fun ch => decide (ch ≠ '\n' ∧ ch ≠ '\r')) = true
    · rw [if_pos hcc] at h
      cases h
      rfl
    · rw [if_neg hcc] at h
      cases h

theorem propLabelBases_cons (k : String) (v : Yaml) (kvs : List (String × Yaml)) :
    propLabelBases ((k, v) :: kvs)
    = if headIs k '[' then propLabelBases kvs else labelBase k :: propLabelBases kvs := by
  rw [propLabelBases, propLabelBases, List.filter_cons]
  by_cases h : headIs k '['
  · simp [h]
  · simp [h]

theorem typesSet_values (ts : List (String × TypeNode)) (k : String) (v : TypeNode)
    (P : TypeNode → Prop) (hr : ∀ p ∈ ts, P p.2) (hv : P v) :
    ∀ p ∈ typesSet ts k v, P p.2 := by
  induction ts with
  | nil => simpa [typesSet] using hv
  | cons hd tl ih =>
    obtain ⟨k', v'⟩ := hd
    intro p hp
    rw [typesSet] at hp
    by_cases hk : k' = k
    · rw [if_pos hk] at hp
      rcases List.mem_cons.mp hp with hp | hp
      · exact hp ▸ hv
      · exact hr p (List.mem_cons_of_mem _ hp)
    · rw [if_neg hk] at hp
      rcases List.mem_cons.mp hp with hp | hp
      · exact hp ▸ hr (k', v') (List.mem_cons_self _ _)
      · exact ih (fun q hq => hr q (List.mem_cons_of_mem _ hq)) p hp

theorem parseTypeExpr_distinct : ∀ fuel,
    (∀ s t, parseTypeExpr fuel s = .ok t → distinctProps t = true)
    ∧ (∀ ps ts, parseParts fuel ps = .ok ts → distinctPropsList ts = true) := by
  intro fuel
  induction fuel with
  | zero =>
    constructor
    · intro s t h; cases h
    · intro ps ts h; cases h
  | succ f ih =>
    obtain ⟨ihE, ihP⟩ := ih
    constructor
    · intro s t h
      rw [parseTypeExpr] at h
      by_cases h1 : (jsTrim s).data.isEmpty = true
      · rw [if_pos h1] at h; cases h
      · rw [if_neg h1] at h
        by_cases h2 : jsIncludes (jsTrim s) "=>" = true
        · rw [if_pos h2] at h; cases h
        · rw [if_neg h2] at h
          by_cases h3 : (hasWord (jsTrim s) "if" || hasWord (jsTrim s) "then" || hasWord (jsTrim s) "else") = true
          · rw [if_pos h3] at h; cases h
          · rw [if_neg h3] at h
            by_cases h4 : jsIncludes (jsTrim s) "::" = true
            · rw [if_pos h4] at h; cases h
            · rw [if_neg h4] at h
              cases hg : genericMatch (jsTrim s).data with
              | some w =>
                rw [hg] at h
                simp only at h
                by_cases h5 : isRefGeneric (jsTrim s).data = true
                · rw [if_pos h5] at h; cases h; rfl
                · rw [if_neg h5] at h; cases h
              | none =>
                rw [hg] at h
                simp only at h
                by_cases h6 : (splitTopLevel (jsTrim s) '|').length > 1
                · rw [if_pos h6] at h
                  cases hp : parseParts f (splitTopLevel (jsTrim s) '|') with
                  | error e => rw [hp] at h; cases h
                  | ok ms =>
                    rw [hp] at h; simp only at h; cases h
                    rw [distinctProps]
                    exact ihP _ ms hp
                · rw [if_neg h6] at h
                  by_cases h7 : (splitTopLevel (jsTrim s) '&').length > 1
                  · rw [if_pos h7] at h
                    cases hp : parseParts f (splitTopLevel (jsTrim s) '&') with
                    | error e => rw [hp] at h; cases h
                    | ok ms =>
                      rw [hp] at h; simp only at h; cases h
                      rw [distinctProps]
                      exact ihP _ ms hp
                  · rw [if_neg h7] at h
                    by_cases h8 : (headIs (jsTrim s) '(' = true ∧ lastIs (jsTrim s) ')' = true ∧ isBalancedParens (jsTrim s) = true)
                    · rw [if_pos h8] at h
                      exact ihE _ t h
                    · rw [if_neg h8] at h
                      cases hl : tryParseLiteral (jsTrim s) with
                      | some lit =>
                        rw [hl] at h; simp only at h; cases h
                        cases lit <;> rfl
                      | none =>
                        rw [hl] at h
                        simp only at h
                        cases hpr : primOfString (jsTrim s) with
                        | some p => rw [hpr] at h; simp only at h; cases h; rfl
                        | none =>
                          rw [hpr] at h
                          simp only at h
                          by_cases h9 : isTypeNameToken (jsTrim s) = true
                          · rw [if_pos h9] at h; cases h; rfl
                          · rw [if_neg h9] at h
                            by_cases h10 : isAllCapsToken (jsTrim s) = true
                            · rw [if_pos h10] at h; cases h; rfl
                            · rw [if_neg h10] at h; cases h
    · intro ps ts h
      cases ps with
      | nil =>
        rw [show parseParts (f+1) [] = (.ok [] : Res (List TypeNode)) from rfl] at h
        cases h
        rfl
      | cons p rest =>
        rw [show parseParts (f+1) (p :: rest)
            = (match parseTypeExpr f p with
               | .error e => .error e
               | .ok t =>
                 match parseParts f rest with
                 | .error e => .error e
                 | .ok ts => .ok (t :: ts)) from rfl] at h
        cases h1 : parseTypeExpr f p with
        | error e => rw [h1] at h; cases h
        | ok t1 =>
          rw [h1] at h; simp only at h
          cases h2 : parseParts f rest with
          | error e => rw [h2] at h; cases h
          | ok ts1 =>
            rw [h2] at h; simp only at h; cases h
            rw [distinctPropsList, Bool.and_eq_true]
            exact ⟨ihE p t1 h1, ihP rest ts1 h2⟩

theorem parseTypeExprTop_distinct (s : String) (t : TypeNode)
    (h : parseTypeExprTop s = .ok t) : distinctProps t = true :=
  (parseTypeExpr_distinct (2 * s.length + 2)).1 s t h

theorem pvAux : ∀ n : Nat,
    (∀ v : Yaml, sizeOf v < n → ∀ t, parseVal v = .ok t → goodLabels v = true → distinctProps t = true)
    ∧ (∀ kvs : List (String × Yaml), sizeOf kvs < n →
        ∀ props sigs closed t,
          parseObjBody kvs props sigs closed = .ok t →
          goodLabelsKVs kvs = true →
          nodupStr (propNames props ++ propLabelBases kvs) = true →
          (∀ p ∈ props, distinctProps p.type = true) →
          (∀ sg ∈ sigs, distinctProps sg.valueType = true) →
          distinctProps t = true) := by
  intro n
  induction n using Nat.strong_induction_on with
  | _ n ih =>
    constructor
    · intro v hszv t h hgl
      cases v with
      | map kvs =>
        rw [show parseVal (.map kvs) = parseObjBody kvs [] [] false from rfl] at h
        rw [goodLabels, Bool.and_eq_true] at hgl
        have hszk : sizeOf kvs + 1 < n := by
          have h2 : sizeOf kvs < sizeOf (Yaml.map kvs) := by simp [Yaml.map.sizeOf_spec]
          omega
        refine (ih (sizeOf kvs + 1) (by omega)).2 kvs (by omega) [] [] false t h hgl.2 ?_
          (fun p hp => absurd hp (List.not_mem_nil _)) (fun sg hsg => absurd hsg (List.not_mem_nil _))
        simpa [propNames] using hgl.1
      | str s => exact parseTypeExprTop_distinct _ _ h
      | num q => exact parseTypeExprTop_distinct _ _ h
      | bool b => exact parseTypeExprTop_distinct _ _ h
      | null => exact parseTypeExprTop_distinct _ _ h
      | arr xs => exact parseTypeExprTop_distinct _ _ h
    · intro kvs hsz props sigs closed t h hg hnd hp hs
      cases kvs with
      | nil =>
        rw [parseObjBody] at h
        cases h
        rw [distinctProps]
        simp only [Bool.and_eq_true]
        refine ⟨⟨?_, (distinctPropsProps_iff _).mpr hp⟩, (distinctPropsSigs_iff _).mpr hs⟩
        rw [show propLabelBases [] = [] from rfl, List.append_nil] at hnd
        exact hnd
      | cons kv rest =>
        obtain ⟨k, v⟩ := kv
        rw [parseObjBody] at h
        rw [goodLabelsKVs, Bool.and_eq_true] at hg
        obtain ⟨hgv, hgr⟩ := hg
        have hszv : sizeOf v + 1 < n := by
          have h2 : sizeOf v < sizeOf ((k, v) :: rest) := by
            simp only [List.cons.sizeOf_spec, Prod.mk.sizeOf_spec]
            omega
          omega
        have hszr : sizeOf rest + 1 < n := by
          have h2 : sizeOf rest < sizeOf ((k, v) :: rest) := by
            simp only [List.cons.sizeOf_spec, Prod.mk.sizeOf_spec]
            omega
          omega
        by_cases hk : headIs k '[' = true
        · rw [if_pos hk] at h
          cases hil : parseIndexLabel k with
          | error e => rw [hil] at h; cases h
          | ok il =>
            rw [hil] at h
            simp only at h
            cases hv : parseVal v with
            | error e => rw [hv] at h; cases h
            | ok valueType =>
              rw [hv] at h
              simp only at h
              have hvt : distinctProps valueType = true :=
                (ih (sizeOf v + 1) (by omega)).1 v (by omega) valueType hv hgv
              have hnd1 : nodupStr (propNames props ++ propLabelBases rest) = true := by
                rw [propLabelBases_cons, if_pos hk] at hnd
                exact hnd
              by_cases hks : il.kind = IdxKind.string
              · rw [if_pos hks] at h
                by_cases hopt : (il.optional = true ∧ isNeverNode valueType = true)
                · rw [if_pos hopt] at h
                  exact (ih (sizeOf rest + 1) (by omega)).2 rest (by omega) props sigs true t h hgr hnd1 hp hs
                · rw [if_neg hopt] at h
                  refine (ih (sizeOf rest + 1) (by omega)).2 rest (by omega) props _ closed t h hgr hnd1 hp ?_
                  intro sg hsg
                  rcases List.mem_append.mp hsg with hsg | hsg
                  · exact hs sg hsg
                  · rcases List.mem_singleton.mp hsg with rfl
                    exact hvt
              · rw [if_neg hks] at h
                refine (ih (sizeOf rest + 1) (by omega)).2 rest (by omega) props _ closed t h hgr hnd1 hp ?_
                intro sg hsg
                rcases List.mem_append.mp hsg with hsg | hsg
                · exact hs sg hsg
                · rcases List.mem_singleton.mp hsg with rfl
                  exact hvt
        · rw [if_neg hk] at h
          cases hl : parseLabel k with
          | error e => rw [hl] at h; cases h
          | ok li =>
            rw [hl] at h
            simp only at h
            cases hv : parseVal v with
            | error e => rw [hv] at h; cases h
            | ok t2 =>
              rw [hv] at h
              simp only at h
              have hvt : distinctProps t2 = true :=
                (ih (sizeOf v + 1) (by omega)).1 v (by omega) t2 hv hgv
              have hnd2 : nodupStr (propNames (props ++ [PropNode.mk li.name t2 li.optional li.isArray])
                  ++ propLabelBases rest) = true := by
                rw [propLabelBases_cons, if_neg hk] at hnd
                rw [show propNames (props ++ [PropNode.mk li.name t2 li.optional li.isArray])
                    = propNames props ++ [li.name] from by simp [propNames, PropNode.name]]
                rw [parseLabel_name k li hl]
                rw [List.append_assoc]
                simpa using hnd
              refine (ih (sizeOf rest + 1) (by omega)).2 rest (by omega) _ sigs closed t h hgr hnd2 ?_ hs
              intro p hpm
              rcases List.mem_append.mp hpm with hpm | hpm
              · exact hp p hpm
              · rcases List.mem_singleton.mp hpm with rfl
                exact hvt

theorem parseVal_distinct (v : Yaml) (t : TypeNode)
    (h : parseVal v = .ok t) (hgl : goodLabels v = true) : distinctProps t = true :=
  (pvAux (sizeOf v + 1)).1 v (by omega) t h hgl

theorem parseTDLGo_distinct : ∀ (kvs : List (String × Yaml)) types symbols meta doc,
    parseTDLGo kvs types symbols meta = .ok doc →
    (∀ kv ∈ kvs, goodLabels kv.2 = true) →
    (∀ p ∈ types, distinctProps p.2 = true) →
    (∀ s ∈ symbols, distinctProps s.type = true) →
    (∀ p ∈ doc.types, distinctProps p.2 = true)
      ∧ (∀ s ∈ doc.symbols, distinctProps s.type = true) := by
  intro kvs
  induction kvs with
  | nil =>
    intro types symbols meta doc h hgood htypes hsyms
    rw [parseTDLGo] at h
    cases h
    exact ⟨htypes, hsyms⟩
  | cons kv rest ih =>
    intro types symbols meta doc h hgood htypes hsyms
    obtain ⟨k, v⟩ := kv
    have hgv : goodLabels v = true := hgood (k, v) (List.mem_cons_self _ _)
    have hgr : ∀ kv ∈ rest, goodLabels kv.2 = true :=
      fun kv hkv => hgood kv (List.mem_cons_of_mem _ hkv)
    rw [parseTDLGo] at h
    by_cases hmeta : headIs k '_' = true
    · rw [if_pos hmeta] at h
      exact ih types symbols _ doc h hgr htypes hsyms
    · rw [if_neg hmeta] at h
      by_cases htk : typeKeyMatch k = true
      · rw [if_pos htk] at h
        cases hem : extendsMatch k with
        | some nb =>
          obtain ⟨name, baseExpr⟩ := nb
          rw [hem] at h
          simp only at h
          cases v with
          | map kvs2 =>
            cases hb : parseTypeExprTop baseExpr with
            | error e => rw [hb] at h; cases h
            | ok base =>
              rw [hb] at h
              simp only at h
              cases hbody : parseInlineObject kvs2 with
              | error e => rw [hbody] at h; cases h
              | ok body =>
                rw [hbody] at h
                simp only at h
                have hbase : distinctProps base = true := parseTypeExprTop_distinct _ _ hb
                have hbody2 : distinctProps body = true :=
                  parseVal_distinct (Yaml.map kvs2) body hbody hgv
                have hnode : distinctProps (TypeNode.intersection [base, body]) = true := by
                  rw [distinctProps]
                  rw [distinctPropsList_iff]
                  intro m hm
                  rcases hm with _ | ⟨_, hm⟩
                  · exact hbase
                  rcases hm with _ | ⟨_, hm⟩
                  · exact hbody2
                  · cases hm
                exact ih _ symbols meta doc h hgr
                  (typesSet_values types name (TypeNode.intersection [base, body])
                    (fun t2 => distinctProps t2 = true) htypes hnode) hsyms
          | str s => cases h
          | num q => cases h
          | bool b => cases h
          | null => cases h
          | arr xs => cases h
        | none =>
          rw [hem] at h
          simp only at h
          by_cases hguard : (¬v.isMap = true ∧ ¬v.isStr = true)
          · rw [if_pos hguard] at h
            cases h
          · rw [if_neg hguard] at h
            cases hv : parseVal v with
            | error e => rw [hv] at h; cases h
            | ok node =>
              rw [hv] at h
              simp only at h
              have hnode : distinctProps node = true := parseVal_distinct v node hv hgv
              exact ih _ symbols meta doc h hgr
                (typesSet_values types (jsTrim k) node
                  (fun t2 => distinctProps t2 = true) htypes hnode) hsyms
      · rw [if_neg htk] at h
        by_cases hsk : symbolKeyMatch k = true
        · rw [if_pos hsk] at h
          cases hl : parseLabel k with
          | error e => rw [hl] at h; cases h
          | ok li =>
            rw [hl] at h
            simp only at h
            cases hv : parseVal v with
            | error e => rw [hv] at h; cases h
            | ok t2 =>
              rw [hv] at h
              simp only at h
              have hnode : distinctProps t2 = true := parseVal_distinct v t2 hv hgv
              refine ih types _ meta doc h hgr htypes ?_
              intro s hsm
              rcases List.mem_append.mp hsm with hsm | hsm
              · exact hsyms s hsm
              · rcases List.mem_singleton.mp hsm with rfl
                exact hnode
        · rw [if_neg hsk] at h
          cases h

/-- Claim C9 (amended): the parser enforces neither invariant unconditionally
(see the counterexample: heterogeneous and empty enum-signature key vectors
parse, and label bases may collide), but property-name distinctness does hold
for every parsed value whose YAML source satisfies the goodLabels authoring
discipline (in every mapping the non-index-signature labels have pairwise
distinct base names): every object node of the resulting IR, at any depth,
has pairwise distinct property names, and the same holds for every named
type and symbol type of a document whose top-level values are goodLabels. -/
theorem c9_parsed_object_invariants :
    (∀ v t, parseVal v = .ok t → goodLabels v = true → distinctProps t = true)
    ∧ (∀ y doc, parseTDL y = .ok doc → yamlValuesGood y = true → docDistinct doc = true) := by
  refine ⟨parseVal_distinct, ?_⟩
  intro y doc h hy
  cases y with
  | map kvs =>
    rw [show parseTDL (.map kvs) = parseTDLGo kvs [] [] [] from rfl] at h
    rw [show yamlValuesGood (.map kvs) = kvs.all (fun kv => goodLabels kv.2) from rfl] at hy
    obtain ⟨ht, hs⟩ := parseTDLGo_distinct kvs [] [] [] doc h (List.all_eq_true.mp hy)
      (fun p hp => absurd hp (List.not_mem_nil _)) (fun s hsm => absurd hsm (List.not_mem_nil _))
    rw [docDistinct, Bool.and_eq_true]
    exact ⟨List.all_eq_true.mpr ht, List.all_eq_true.mpr hs⟩
  | str s => cases h
  | num q => cases h
  | bool b => cases h
  | null => cases h
  | arr xs => cases h

/-- C9 counterexample to the original claim: the heterogeneous enum domain
[k: 1 | true] parses to an enum signature whose keys mix literal kinds; the
domain | parses to an enum signature with an empty keys vector; and the
labels a and a? parse to two properties that share the name a. -/
theorem c9_counterexample :
    parseInlineObject hetEnumEntries
      = .ok (.object [] [.mk .enum [Lit.num 1, Lit.bool true] (.primitive .string) false false] false)
    ∧ litKind (Lit.num 1) ≠ litKind (Lit.bool true)
    ∧ parseInlineObject [("[k: |]", Yaml.str "string")]
      = .ok (.object [] [.mk .enum [] (.primitive .string) false false] false)
    ∧ parseInlineObject [("a", Yaml.str "string"), ("a?", Yaml.str "number")]
      = .ok (.object [.mk "a" (.primitive .string) false false,
                      .mk "a" (.primitive .number) true false] [] false) :=
  ⟨rfl, fun hc => LitKind.noConfusion hc, rfl, rfl⟩

/-- C9 witness: distinctness evaluated on the concrete witness document. -/
theorem c9_parsed_object_invariants_witness : docDistinct docWitness = true :=
  c9_parsed_object_invariants.2
    (Yaml.map [("T", Yaml.map [("a?", Yaml.str "string")]), ("x?[]", Yaml.str "T")])
    docWitness rfl rfl
